import Mathlib

/-!
Round/Group progression and advancement engine of scrambledesk.

A shallow embedding of `scrambledesk/internal/models/models.go`:
the data model (`Competition`, `Round`, `Group`, `Person`, `Result`), the
sequencer (`NextGroup`, `nextRound`, `nextGroup`, `StartFrom`), the staff rotator
(`AssignStaff`) and the advancement selector (`AssignAdvancedRoundCompetitors`).

Conventions of the embedding

* Go slices are Lean lists; a Go `int` is an `Int` (no arithmetic of the modelled
  code can leave the 64 bit range: it only adds and divides slice lengths);
  `time.Time` is the instant as an `Int`, so that `t.Before u` is `t < u`.
* A pointer into `c.Rounds[i].Groups[j]` is the position `(i, j)`.
* A run-time panic of the Go program is the error of an `Except Panic`.
* `sort.Slice` belongs to the Go standard library, not to this program: it is a
  parameter `S : SliceSorter` that carries what the library guarantees.
-/

namespace Models

/-! ## Data model (models.go, lines 25 to 87) -/

structure Avatar where
  Url : String
  ThumbUrl : String
deriving DecidableEq, Repr, Inhabited

structure Assignment where
  ActivityId : Int
  StationNumber : Int
  AssignmentCode : String
deriving DecidableEq, Repr, Inhabited

structure Person where
  ID : Int
  Name : String
  WcaId : String
  Roles : List String
  Avatar : Avatar
  Assignments : List Assignment
deriving DecidableEq, Repr

/-- The zero value of the Go struct `Person`: what a map lookup of a missing key yields. -/
def Person.zero : Person :=
  { ID := 0, Name := "", WcaId := "", Roles := [], Avatar := { Url := "", ThumbUrl := "" },
    Assignments := [] }

instance : Inhabited Person := ⟨Person.zero⟩

structure Result where
  PersonId : Int
  Ranking : Int
deriving DecidableEq, Repr, Inhabited

structure Group where
  ActivityId : Int
  ActivityCode : String
  EventName : String
  EventId : String
  StartTime : Int
  EndTime : Int
  RoundNumber : Int
  GroupNumber : Int
  Opened : Bool
  OpenedTimestamp : List Int
  ClosedTimestamp : List Int
  Finished : Bool
  Competitors : List Person
  Staff : List Person
  Password : String
deriving DecidableEq, Repr

structure Round where
  ID : Int
  EventName : String
  ActivityCode : String
  EventId : String
  RoundNumber : Int
  GroupCount : Int
  Groups : List Group
  Finished : Bool
  Results : List Result
  StartTime : Int
  EndTime : Int
deriving DecidableEq, Repr

structure Competition where
  ID : String
  Name : String
  Rounds : List Round
  Persons : List Person
deriving DecidableEq, Repr

/-- The run-time panics the modelled code can raise. -/
inductive Panic where
  | nilDereference
  | divideByZero
  | indexOutOfRange
deriving DecidableEq, Repr

/-! ## `sort.Slice` -/

/-- What the program relies on from `sort.Slice(x, less)` of the Go standard library, with
`less` given on the elements. The library sorts in place and is not stable, so the order of
elements that compare equal is left open: only these laws are known.

* `perm`: the result is a rearrangement of the input;
* `sorted`: when "not less" is total and transitive (a strict weak order, as the package
  requires), no element of the result is less than an earlier one;
* `natural`: the sort sees the elements only through `less` (it calls `less(i, j)` and swaps),
  so it commutes with relabelling the elements;
* `fixed`: an input that is already in order is returned as it is (pattern-defeating
  quicksort of Go 1.19 and later: insertion sort up to 12 elements, and beyond that the
  increasing-input shortcut, which moves nothing). -/
structure SliceSorter where
  sortSlice : {α : Type} → (α → α → Bool) → List α → List α
  perm : ∀ {α : Type} (less : α → α → Bool) (l : List α), (sortSlice less l).Perm l
  sorted : ∀ {α : Type} (less : α → α → Bool) (l : List α),
    (∀ a b, less a b = false ∨ less b a = false) →
    (∀ a b c, less b a = false → less c b = false → less c a = false) →
    (sortSlice less l).Pairwise (fun a b => less b a = false)
  natural : ∀ {α β : Type} (f : α → β) (less : β → β → Bool) (l : List α),
    (sortSlice (fun a b => less (f a) (f b)) l).map f = sortSlice less (l.map f)
  fixed : ∀ {α : Type} (less : α → α → Bool) (l : List α),
    l.Pairwise (fun a b => less b a = false) → sortSlice less l = l

/-- Insertion sort, the algorithm `sort.Slice` runs on slices of at most 12 elements. -/
def insertionSortSlice {α : Type} (less : α → α → Bool) (l : List α) : List α :=
  l.insertionSort (fun a b => less b a = false)

/-- Go compares strings byte by byte; on UTF-8 text that is the lexicographic order of the
code points, compared here as numbers. -/
def lexLess : List Nat → List Nat → Bool
  | _, [] => false
  | [], _ :: _ => true
  | a :: as, b :: bs => decide (a < b) || (decide (a = b) && lexLess as bs)

/-- The Go expression `a < b` on strings. -/
def strLess (a b : String) : Bool :=
  lexLess (a.data.map Char.toNat) (b.data.map Char.toNat)

/-! ## Sequencer: `NextGroup`, `nextRound`, `nextGroup` -/

/-- `func (r *Round) nextGroup() *Group` (lines 507 to 514): the index of the first Group
that is not Finished, `none` for the nil pointer. -/
def Round.nextGroup (r : Round) : Option Nat :=
  r.Groups.findIdx? (fun g => !g.Finished)

/-- `func (c *Competition) nextRound() *Round` (lines 498 to 505). -/
def Competition.nextRound (c : Competition) : Option Nat :=
  c.Rounds.findIdx? (fun r => !r.Finished)

/-- The loop of `NextGroup` over the Rounds from position `i` on. -/
def nextGroupFrom : List Round → Nat → Option (Nat × Nat)
  | [], _ => none
  | r :: rest, i =>
    if r.Finished then nextGroupFrom rest (i + 1)
    else
      match r.Groups.findIdx? (fun g => !g.Finished) with
      | some j => some (i, j)
      | none => nextGroupFrom rest (i + 1)

/-- `func (c *Competition) NextGroup() *Group` (lines 159 to 171): the position `(i, j)` of
the returned `&c.Rounds[i].Groups[j]`, `none` for nil. -/
def Competition.NextGroup (c : Competition) : Option (Nat × Nat) :=
  nextGroupFrom c.Rounds 0

/-- The Group a position points to. -/
def Competition.groupAt (c : Competition) (p : Nat × Nat) : Option Group :=
  match c.Rounds[p.1]? with
  | some r => r.Groups[p.2]?
  | none => none

/-- The Group that `StartNextGroup` goes on with (lines 517 to 527): `nextRound`, then
`nextGroup` of that Round; `none` when it prints "No new rounds" and returns. -/
def Competition.startNextGroupSelect (c : Competition) : Option (Nat × Nat) :=
  match c.nextRound with
  | none => none
  | some i =>
    match c.Rounds[i]? with
    | none => none
    | some r =>
      match r.nextGroup with
      | none => none
      | some j => some (i, j)

/-! ## `StartFrom` -/

/-- `func (c *Competition) SortRounds()` (lines 486 to 490). -/
def Competition.SortRounds (S : SliceSorter) (c : Competition) : Competition :=
  { c with Rounds := S.sortSlice (fun a b => decide (a.StartTime < b.StartTime)) c.Rounds }

/-- The first loop of `StartFrom` on one Round (lines 116 to 119). -/
def Round.resetFinished (r : Round) : Round :=
  { r with Groups := r.Groups.map (fun g => { g with Finished := false }), Finished := false }

/-- The inner loop of the second pass of `StartFrom` (lines 123 to 128): the Groups after
the loop and whether the loop returned at a Group with the code. -/
def markGroups (activityCode : String) : List Group → List Group × Bool
  | [] => ([], false)
  | g :: rest =>
    if g.ActivityCode = activityCode then (g :: rest, true)
    else
      let out := markGroups activityCode rest
      ({ g with Finished := true } :: out.1, out.2)

/-- The second pass of `StartFrom` (lines 122 to 130). -/
def markRounds (activityCode : String) : List Round → List Round × Bool
  | [] => ([], false)
  | r :: rest =>
    let gs := markGroups activityCode r.Groups
    if gs.2 then ({ r with Groups := gs.1 } :: rest, true)
    else
      let out := markRounds activityCode rest
      ({ r with Groups := gs.1, Finished := true } :: out.1, out.2)

/-- `func (c *Competition) StartFrom(activityCode string) error` (lines 113 to 132): the
returned error (`none` is nil) and the Competition as the call leaves it. -/
def Competition.StartFrom (S : SliceSorter) (activityCode : String) (c : Competition) :
    Option String × Competition :=
  let c1 := c.SortRounds S
  let reset := c1.Rounds.map Round.resetFinished
  let out := markRounds activityCode reset
  (if out.2 then none else some "scramble set not found", { c1 with Rounds := out.1 })

/-! ## Staff rotator: `AssignStaff` -/

/-- Lines 278 to 280: every Staff list of the Round becomes the empty slice. -/
def clearStaff (gs : List Group) : List Group :=
  gs.map (fun g => { g with Staff := [] })

/-- Line 288, `staffRound := (j - 1 + totalGroups) % totalGroups`, in integer arithmetic; the
dividend is not negative, so the remainder of Go is the one of `%` here. -/
def staffRound (totalGroups j : Nat) : Nat :=
  (((j : Int) - 1 + (totalGroups : Int)) % (totalGroups : Int)).toNat

/-- One pass of the loop of lines 287 to 290, at index `j`; `gs` is the Round's Group array,
which `r.Groups` and `c.Rounds[i].Groups` share. The index `staffRound` is always in range. -/
def rotateStep (gs : List Group) (j : Nat) : List Group :=
  match gs[staffRound gs.length j]? with
  | some src => gs.modify (fun g => { g with Staff := src.Competitors }) j
  | none => gs

/-- The body of the loop of `AssignStaff` for one Round (lines 277 to 290). -/
def Round.assignStaff (r : Round) : Round :=
  let cleared := clearStaff r.Groups
  if cleared.length = 1 then { r with Groups := cleared }
  else { r with Groups := (List.range cleared.length).foldl rotateStep cleared }

/-- `func (c *Competition) AssignStaff()` (lines 275 to 292). -/
def Competition.AssignStaff (c : Competition) : Competition :=
  { c with Rounds := c.Rounds.map Round.assignStaff }

/-! ## Advancement selector: `AssignAdvancedRoundCompetitors` -/

/-- `func (r *Round) Competitors() []Person` (lines 89 to 95). -/
def Round.Competitors (r : Round) : List Person :=
  r.Groups.foldl (fun competitors g => competitors ++ g.Competitors) []

/-- `func (c *Competition) prevRound(r Round) *Round` (lines 173 to 183): the index of the
first Round of the same event whose round number is one less, `none` for nil. -/
def Competition.prevRound (c : Competition) (r : Round) : Option Nat :=
  c.Rounds.findIdx? (fun cr => decide (cr.EventId = r.EventId) &&
    decide (cr.RoundNumber = r.RoundNumber - 1))

/-- The effect of `LoadResults` (lines 185 to 212) once the registry has answered:
`resultMap` is the map built from the answer (a missing key reads as the empty slice), and
every Round gets the entry of its activity code. Rounds with the same activity code get the
same slice, backing array included. -/
def Competition.LoadResults (resultMap : String → List Result) (c : Competition) :
    Competition :=
  { c with Rounds := c.Rounds.map (fun r => { r with Results := resultMap r.ActivityCode }) }

/-- The map of lines 227 to 230: a later Person with the same ID replaces an earlier one, a
missing ID reads as the zero Person. -/
def competitorMap (persons : List Person) : Int → Person :=
  persons.foldl (fun m p => fun id => if id = p.ID then p else m id) (fun _ => Person.zero)

/-- Line 240, `int(float64(len(allResults)) * 0.75)`: 0.75 is a binary fraction and the
product is exact for every length below 2^51, so the truncation is `3 * n / 4`. -/
def roundCompetitorCount (n : Nat) : Nat :=
  3 * n / 4

/-- The loop of lines 241 to 243, `results = append(results, allResults[i])`. -/
def takeResults (allResults : List Result) (count : Nat) : Except Panic (List Result) :=
  (List.range count).foldlM (fun results i =>
    match allResults[i]? with
    | some res => Except.ok (results ++ [res])
    | none => Except.error Panic.indexOutOfRange) []

/-- Lines 257 to 260: the size of the Group at index `j`. -/
def groupSize (baseGroupSize extras j : Nat) : Nat :=
  if j < extras then baseGroupSize + 1 else baseGroupSize

/-- One pass of the loop of lines 256 to 270, at index `j`. The state is `start` and the
Group array of the Round. `competitors[start:end]` panics when `end` is beyond the slice (the
model checks the length; the capacity Go checks is never smaller, and `end` stays within the
length, see `assignGroups_ok`), `Groups[j]` when `j` is not an index. -/
def assignGroupStep (S : SliceSorter) (competitors : List Person) (baseGroupSize extras : Nat)
    (st : Nat × List Group) (j : Nat) : Except Panic (Nat × List Group) :=
  let size := groupSize baseGroupSize extras j
  let start := st.1
  let stop := start + size
  if competitors.length < stop then Except.error Panic.indexOutOfRange
  else
    let groupCompetitors :=
      S.sortSlice (fun a b => strLess a.Name b.Name) ((competitors.drop start).take size)
    if j < st.2.length then
      Except.ok (stop, st.2.modify (fun g => { g with Competitors := groupCompetitors }) j)
    else Except.error Panic.indexOutOfRange

/-- The loop of lines 255 to 270 over `j := range groupCount`. -/
def assignGroups (S : SliceSorter) (competitors : List Person) (groupCount : Nat)
    (groups : List Group) : Except Panic (Nat × List Group) :=
  (List.range groupCount).foldlM
    (assignGroupStep S competitors (competitors.length / groupCount)
      (competitors.length % groupCount)) (0, groups)

/-- The advancing competitors of lines 235 to 249, from the sorted results of the
preceding Round. -/
def advancingCompetitors (S : SliceSorter) (persons : List Person) (allResults : List Result) :
    Except Panic (List Person) :=
  match takeResults allResults (roundCompetitorCount allResults.length) with
  | Except.error e => Except.error e
  | Except.ok results =>
    let sortedResults := S.sortSlice (fun a b => decide (a.Ranking > b.Ranking)) results
    Except.ok (sortedResults.map (fun res => competitorMap persons res.PersonId))

/-- The body of the loop of `AssignAdvancedRoundCompetitors` at index `i` (lines 216 to
271). `sort.Slice(allResults, ...)` sorts the Results of the preceding Round in place: the
sorted slice is what that Round holds afterwards, and so does every Round that shares the
slice, that is (after `LoadResults`) every Round with the same activity code. A zero
`GroupCount` is a division by zero; a negative one gives quotients that are never used, since
`range` over it runs no pass. -/
def Competition.advanceRound (S : SliceSorter) (c : Competition) (i : Nat) :
    Except Panic Competition :=
  match c.Rounds[i]? with
  | none => Except.ok c
  | some r =>
    if r.RoundNumber < 2 then Except.ok c
    else if r.Results.length = 0 then Except.ok c
    else
      match c.prevRound r with
      | none => Except.error Panic.nilDereference
      | some k =>
        match c.Rounds[k]? with
        | none => Except.error Panic.nilDereference
        | some prev =>
          let allResults := S.sortSlice (fun a b => decide (a.Ranking < b.Ranking)) prev.Results
          let rounds := c.Rounds.map (fun cr =>
            if cr.ActivityCode = prev.ActivityCode then { cr with Results := allResults } else cr)
          match advancingCompetitors S c.Persons allResults with
          | Except.error e => Except.error e
          | Except.ok competitors =>
            if r.GroupCount = 0 then Except.error Panic.divideByZero
            else
              match assignGroups S competitors r.GroupCount.toNat r.Groups with
              | Except.error e => Except.error e
              | Except.ok st =>
                Except.ok { c with Rounds := rounds.modify (fun cr => { cr with Groups := st.2 }) i }

/-- `func (c *Competition) AssignAdvancedRoundCompetitors()` (lines 214 to 273), for the
answer `resultMap` of the registry. -/
def Competition.AssignAdvancedRoundCompetitors (S : SliceSorter)
    (resultMap : String → List Result) (c : Competition) : Except Panic Competition :=
  let c0 := c.LoadResults resultMap
  match (List.range c0.Rounds.length).foldlM (Competition.advanceRound S) c0 with
  | Except.error e => Except.error e
  | Except.ok c1 => Except.ok c1.AssignStaff

/-! ## Auxiliary definitions of the proofs -/

/-- Insertion sort as an instance of the `sort.Slice` laws; the runs below use it. -/
def insertionSorter : SliceSorter where
  sortSlice := fun less l => insertionSortSlice less l
  perm := fun less l => List.perm_insertionSort _ l
  sorted := fun {α} less l htot htr => by
    haveI : IsTotal α (fun a b => less b a = false) := ⟨fun a b => htot b a⟩
    haveI : IsTrans α (fun a b => less b a = false) := ⟨fun a b c hab hbc => htr a b c hab hbc⟩
    exact List.sorted_insertionSort _ l
  natural := fun f less l => by
    unfold insertionSortSlice
    exact List.map_insertionSort _ _ f l (fun a _ b _ => Iff.rfl)
  fixed := fun less l h => List.Sorted.insertionSort_eq h

/-- The Staff list the rotation gives to the Group at index `j` of `gs`. -/
def staffOf (gs : List Group) (j : Nat) : List Person :=
  match gs[staffRound gs.length j]? with
  | some src => src.Competitors
  | none => []

/-- The Group array after `k` passes of the rotation loop. -/
def rotated (gs : List Group) (k : Nat) : List Group :=
  gs.mapIdx (fun j g => if j < k then { g with Staff := staffOf gs j } else g)

/-- A Person with a name, everything else zero. -/
def mkPerson (id : Int) (name : String) : Person :=
  { Person.zero with ID := id, Name := name }

/-- A Group with a code, a number, a Finished flag and competitors. -/
def mkGroup (code : String) (number : Int) (finished : Bool) (competitors : List Person) :
    Group :=
  { ActivityId := 0, ActivityCode := code, EventName := "", EventId := "", StartTime := 0,
    EndTime := 0, RoundNumber := 0, GroupNumber := number, Opened := false,
    OpenedTimestamp := [], ClosedTimestamp := [], Finished := finished,
    Competitors := competitors, Staff := [], Password := "" }

/-- A Round of event "333" with a code, a round number, a start time, a Finished flag, Groups
and Results; `GroupCount` is the number of Groups. -/
def mkRound (code : String) (number start : Int) (finished : Bool) (groups : List Group)
    (results : List Result) : Round :=
  { ID := 0, EventName := "", ActivityCode := code, EventId := "333", RoundNumber := number,
    GroupCount := groups.length, Groups := groups, Finished := finished, Results := results,
    StartTime := start, EndTime := 0 }

/-- A Round of four Groups with one competitor each. -/
def staffDemo : Competition :=
  { ID := "demo", Name := "Demo", Persons := [],
    Rounds := [mkRound "333-r1" 1 0 false
      [mkGroup "333-r1-g1" 1 false [mkPerson 1 "Ada"], mkGroup "333-r1-g2" 2 false [mkPerson 2 "Bo"],
       mkGroup "333-r1-g3" 3 false [mkPerson 3 "Cy"], mkGroup "333-r1-g4" 4 false [mkPerson 4 "Di"]]
      []] }

/-- A finished Round followed by a Round whose second Group is the next one. -/
def seqDemo : Competition :=
  { ID := "demo", Name := "Demo", Persons := [],
    Rounds := [mkRound "333-r1" 1 0 true [mkGroup "333-r1-g1" 1 true []] [],
      mkRound "333-r2" 2 10 false
        [mkGroup "333-r2-g1" 1 true [], mkGroup "333-r2-g2" 2 false []] []] }

/-- A Competition in which every Round is Finished. -/
def finishedDemo : Competition :=
  { ID := "demo", Name := "Demo", Persons := [],
    Rounds := [mkRound "333-r1" 1 0 true [mkGroup "333-r1-g1" 1 true []] []] }

/-- A Round that is not Finished and has no Group, followed by a Round with an open Group. -/
def gapDemo : Competition :=
  { ID := "demo", Name := "Demo", Persons := [],
    Rounds := [mkRound "222-r1" 1 0 false [] [],
      mkRound "333-r1" 1 10 false [mkGroup "333-r1-g1" 1 false []] []] }

/-- Two Rounds given out of start-time order, the later one first. -/
def startDemo : Competition :=
  { ID := "demo", Name := "Demo", Persons := [],
    Rounds := [mkRound "333-r2" 2 10 true
        [mkGroup "333-r2-g1" 1 false [], mkGroup "333-r2-g2" 2 true []] [],
      mkRound "333-r1" 1 0 false
        [mkGroup "333-r1-g1" 1 true [], mkGroup "333-r1-g2" 2 false []] []] }

/-- The Competition `startDemo` with other Finished flags. -/
def startDemoFlags : Competition :=
  { ID := "demo", Name := "Demo", Persons := [],
    Rounds := [mkRound "333-r2" 2 10 false
        [mkGroup "333-r2-g1" 1 true [], mkGroup "333-r2-g2" 2 true []] [],
      mkRound "333-r1" 1 0 true
        [mkGroup "333-r1-g1" 1 false [], mkGroup "333-r1-g2" 2 false []] []] }

/-- The value of `start` when the loop of lines 256 to 270 reaches index `k`. -/
def groupStart (baseGroupSize extras : Nat) : Nat → Nat
  | 0 => 0
  | k + 1 => groupStart baseGroupSize extras k + groupSize baseGroupSize extras k

/-- The competitor list the loop stores in the Group at index `j`: the slice
`competitors[start:end]` of that Group, sorted by name. -/
def groupCompetitors (S : SliceSorter) (competitors : List Person) (baseGroupSize extras j : Nat) :
    List Person :=
  S.sortSlice (fun a b => strLess a.Name b.Name)
    ((competitors.drop (groupStart baseGroupSize extras j)).take
      (groupSize baseGroupSize extras j))

/-- The Group array after `k` passes of the loop of lines 256 to 270. -/
def assignedGroups (S : SliceSorter) (competitors : List Person) (baseGroupSize extras : Nat)
    (groups : List Group) (k : Nat) : List Group :=
  groups.mapIdx (fun j g =>
    if j < k then { g with Competitors := groupCompetitors S competitors baseGroupSize extras j }
    else g)

/-- A Group without its competitor list. -/
def Group.eraseCompetitors (g : Group) : Group :=
  { g with Competitors := [] }

/-- A Round without its Results and without the competitor lists of its Groups: what
`AssignAdvancedRoundCompetitors` never changes. -/
def Round.skeleton (r : Round) : Round :=
  { r with Results := [], Groups := r.Groups.map Group.eraseCompetitors }

/-- The Results of the Rounds are, up to their order, the answer of the registry, and Rounds
with the same activity code hold the same slice: true after `LoadResults` and kept by every
pass of the loop of `AssignAdvancedRoundCompetitors`. -/
def Loaded (resultMap : String → List Result) (c : Competition) : Prop :=
  ∃ cur : String → List Result, (∀ code, (cur code).Perm (resultMap code)) ∧
    ∀ r, r ∈ c.Rounds → r.Results = cur r.ActivityCode

/-- Two Competitions that differ at most in Results and competitor lists. -/
def SameSkeleton (c0 c : Competition) : Prop :=
  c.ID = c0.ID ∧ c.Name = c0.Name ∧ c.Persons = c0.Persons ∧
    c.Rounds.map Round.skeleton = c0.Rounds.map Round.skeleton

/-- The advancing competitors of a Round, in the order of line 247 to 249, from the Results
`results` of the preceding Round as they stand. -/
def advancing (S : SliceSorter) (persons : List Person) (results : List Result) : List Person :=
  (S.sortSlice (fun a b => decide (a.Ranking > b.Ranking))
    ((S.sortSlice (fun a b => decide (a.Ranking < b.Ranking)) results).take
      (roundCompetitorCount results.length))).map
    (fun res => competitorMap persons res.PersonId)

/-- The Rounds after a pass of the loop of `AssignAdvancedRoundCompetitors` at index `i` that
sorted the Results under activity code `code` into `sorted` and stored the Groups `gs`. -/
def updatedRounds (rounds : List Round) (code : String) (sorted : List Result) (i : Nat)
    (gs : List Group) : List Round :=
  (rounds.map (fun cr =>
    if cr.ActivityCode = code then { cr with Results := sorted } else cr)).modify
    (fun cr => { cr with Groups := gs }) i

/-- Seven registered persons. -/
def persons7 : List Person :=
  [mkPerson 1 "Gus", mkPerson 2 "Fay", mkPerson 3 "Eli", mkPerson 4 "Dee", mkPerson 5 "Cal",
   mkPerson 6 "Bea", mkPerson 7 "Abe"]

/-- The first round of `advDemo`. -/
def advRound1 : Round :=
  mkRound "333-r1" 1 0 true [mkGroup "333-r1-g1" 1 true persons7] []

/-- The second round of `advDemo`, three Groups without competitors. -/
def advRound2 : Round :=
  mkRound "333-r2" 2 10 false
    [mkGroup "333-r2-g1" 1 false [], mkGroup "333-r2-g2" 2 false [],
     mkGroup "333-r2-g3" 3 false []] []

/-- A first round of seven competitors and a second round of three Groups. -/
def advDemo : Competition :=
  { ID := "demo", Name := "Demo", Persons := persons7, Rounds := [advRound1, advRound2] }

/-- The registry's answer for `advDemo`: person `n` is ranked `n` in the first round, and the
second round has a result posted. -/
def advResults (code : String) : List Result :=
  if code = "333-r1" then
    [⟨3, 3⟩, ⟨1, 1⟩, ⟨7, 7⟩, ⟨2, 2⟩, ⟨5, 5⟩, ⟨4, 4⟩, ⟨6, 6⟩]
  else if code = "333-r2" then [⟨1, 1⟩]
  else []

/-- A second round whose only Group holds a competitor. -/
def skipRound2 : Round :=
  mkRound "333-r2" 2 10 false [mkGroup "333-r2-g1" 1 false [mkPerson 1 "Gus"]] []

/-- The Competition of `advRound1` and `skipRound2`. -/
def skipDemo : Competition :=
  { ID := "demo", Name := "Demo", Persons := persons7, Rounds := [advRound1, skipRound2] }

/-- An answer of the registry with a result for the second round and none for the first. -/
def skipResults (code : String) : List Result :=
  if code = "333-r2" then [⟨1, 1⟩] else []

/-- An answer of the registry without any result. -/
def noResults (_ : String) : List Result := []

/-- A second round of one Group without competitors. -/
def zeroRound2 : Round :=
  mkRound "333-r2" 2 10 false [mkGroup "333-r2-g1" 1 false []] []

/-- A Competition whose registry holds the persons 1 and 2 only. -/
def zeroDemo : Competition :=
  { ID := "demo", Name := "Demo", Persons := [mkPerson 1 "Gus", mkPerson 2 "Fay"],
    Rounds := [advRound1, zeroRound2] }

/-- An answer of the registry in which person 9, who is not registered, is ranked second of
four in the first round. -/
def zeroResults (code : String) : List Result :=
  if code = "333-r1" then [⟨1, 1⟩, ⟨9, 2⟩, ⟨2, 3⟩, ⟨5, 4⟩]
  else if code = "333-r2" then [⟨1, 1⟩]
  else []

/-- The competitor lists of every Group of every Round of a finished run. -/
def competitorLists (out : Except Panic Competition) : Option (List (List (List Person))) :=
  out.toOption.map (fun c => c.Rounds.map (fun r => r.Groups.map Group.Competitors))

/-- Eight registered persons. -/
def persons8 : List Person :=
  [mkPerson 1 "Hal", mkPerson 2 "Gus", mkPerson 3 "Fay", mkPerson 4 "Eli", mkPerson 5 "Dee",
   mkPerson 6 "Cal", mkPerson 7 "Bea", mkPerson 8 "Abe"]

/-- The first round of `bestDemo`. -/
def bestRound1 : Round :=
  mkRound "333-r1" 1 0 true [mkGroup "333-r1-g1" 1 true persons8] []

/-- The second round of `bestDemo`, two Groups without competitors. -/
def bestRound2 : Round :=
  mkRound "333-r2" 2 10 false
    [mkGroup "333-r2-g1" 1 false [], mkGroup "333-r2-g2" 2 false []] []

/-- A first round of eight competitors and a second round of two Groups. -/
def bestDemo : Competition :=
  { ID := "demo", Name := "Demo", Persons := persons8, Rounds := [bestRound1, bestRound2] }

/-- The registry's answer for `bestDemo`: person `n` is ranked `n` in the first round. -/
def bestResults (code : String) : List Result :=
  if code = "333-r1" then
    [⟨8, 8⟩, ⟨3, 3⟩, ⟨1, 1⟩, ⟨7, 7⟩, ⟨2, 2⟩, ⟨5, 5⟩, ⟨4, 4⟩, ⟨6, 6⟩]
  else if code = "333-r2" then [⟨1, 1⟩]
  else []

/-- The `-start-from` branch of `main` (main.go, lines 72 to 80): the error that `StartFrom`
returns is dropped, and the Competition as the call left it is what `Save` gets. -/
def mainStartFrom (S : SliceSorter) (activityCode : String) (comp : Competition) :
    Competition :=
  (comp.StartFrom S activityCode).2

/-! ## Sequencer: `StartNextGroup` -/

/-- What the collaborators of one call of `StartNextGroup` answer: the operator at the two
prompts of `confirmationMessage`, the clock (`time.Now()` at line 535 and in `SendPDF`), the
registry behind `LoadResults` (`none`: the fetch fails and `log.Fatal` ends the process), and
whether `DrawRoundPDF`, `curl` of the profiles and `pdf.DecryptPDF` succeed. -/
structure Collaborators where
  confirmOpen : Bool
  confirmEarly : Bool
  now : Int
  registry : Option (String → List Result)
  drawRoundPDF : Bool
  curlProfiles : Bool
  decryptPDF : Bool
  openedAt : Int

/-- The calls of `StartNextGroup` that reach the operator or a collaborator, in the order in
which they are made: `fmt.Println`, `confirmationMessage` (for the Group it names, first or
second prompt), `DrawRoundPDF`, `curl` of the profiles, `SendPDF`. -/
inductive Effect where
  | println (msg : String)
  | confirm (group : Group) (second : Bool)
  | drawRoundPDF (group : Group)
  | curlProfiles
  | sendPDF (group : Group) (competition : String)
deriving DecidableEq, Repr

/-- How a call of `StartNextGroup` ends: it returns (and `main` goes on to `Save` the
Competition), or the process ends by `os.Exit(0)`, by `log.Fatal` or by a panic, and nothing
is saved. -/
inductive Outcome where
  | returned (c : Competition)
  | exited
  | fatal
  | panicked (p : Panic)
deriving DecidableEq, Repr

/-- A call of `StartNextGroup`: how it ends and what it did on the way. -/
structure Run where
  outcome : Outcome
  effects : List Effect
deriving DecidableEq, Repr

/-- `15 * time.Minute`, in nanoseconds. -/
def fifteenMinutes : Int := 15 * 60 * 1000000000

/-- Lines 547 to 551 for the Group at `&c.Rounds[i].Groups[j]`: the Round is marked Finished
when its `GroupCount` is the `GroupNumber` of the Group, and the Group is marked Finished. -/
def Competition.markStarted (c : Competition) (i j : Nat) : Competition :=
  { c with Rounds := c.Rounds.modify (fun round =>
      match round.Groups[j]? with
      | none => round
      | some group =>
        { round with
          Finished := if round.GroupCount = group.GroupNumber then true else round.Finished,
          Groups := round.Groups.modify (fun g => { g with Finished := true }) j }) i }

/-- The mutation of `SendPDF` (lines 652 and 653) on the Group at `&c.Rounds[i].Groups[j]`. -/
def Competition.markOpened (c : Competition) (i j : Nat) (openedAt : Int) : Competition :=
  { c with Rounds := c.Rounds.modify (fun round =>
      { round with Groups := round.Groups.modify (fun g =>
          { g with Opened := true, OpenedTimestamp := g.OpenedTimestamp ++ [openedAt] }) j }) i }

/-- Lines 557 to 566: the Group is drawn, the profiles are uploaded and the scramble set is
sent; a failure of one of them is a `log.Fatalf`. (A failure of the `curl` inside `SendPDF` is
only printed.) -/
def Competition.handOver (w : Collaborators) (c : Competition) (i j : Nat)
    (asked : List Effect) : Run :=
  match c.groupAt (i, j) with
  | none => ⟨Outcome.panicked Panic.nilDereference, asked⟩
  | some group =>
    if !w.drawRoundPDF then ⟨Outcome.fatal, asked ++ [Effect.drawRoundPDF group]⟩
    else if !w.curlProfiles then
      ⟨Outcome.fatal, asked ++ [Effect.drawRoundPDF group, Effect.curlProfiles]⟩
    else if !w.decryptPDF then
      ⟨Outcome.fatal, asked ++ [Effect.drawRoundPDF group, Effect.curlProfiles,
        Effect.sendPDF group c.Name]⟩
    else
      ⟨Outcome.returned (c.markOpened i j w.openedAt),
        asked ++ [Effect.drawRoundPDF group, Effect.curlProfiles,
          Effect.sendPDF group c.Name]⟩

/-- Lines 547 to 566, after the confirmations: the marks, the advancement selector when the
Group's round number is past 1, and the hand-over. -/
def Competition.startConfirmed (S : SliceSorter) (w : Collaborators) (c : Competition)
    (i j : Nat) (group : Group) (asked : List Effect) : Run :=
  let c1 := c.markStarted i j
  if group.RoundNumber > 1 then
    match w.registry with
    | none => ⟨Outcome.fatal, asked⟩
    | some resultMap =>
      match c1.AssignAdvancedRoundCompetitors S resultMap with
      | Except.error p => ⟨Outcome.panicked p, asked⟩
      | Except.ok c2 => c2.handOver w i j asked
  else c1.handOver w i j asked

/-- `func (c *Competition) StartNextGroup()` (lines 516 to 567). The pointers `round` and
`group` are the position `(i, j)` that `startNextGroupSelect` finds; they stay valid through
the call, since no Round or Group array is reallocated. -/
def Competition.StartNextGroup (S : SliceSorter) (w : Collaborators) (c : Competition) : Run :=
  match c.startNextGroupSelect with
  | none => ⟨Outcome.returned c, [Effect.println "No new rounds"]⟩
  | some (i, j) =>
    match c.groupAt (i, j) with
    | none => ⟨Outcome.panicked Panic.nilDereference, []⟩
    | some group =>
      if !w.confirmOpen then ⟨Outcome.exited, [Effect.confirm group false]⟩
      else if group.StartTime > w.now + fifteenMinutes then
        if !w.confirmEarly then
          ⟨Outcome.exited, [Effect.confirm group false, Effect.confirm group true]⟩
        else
          c.startConfirmed S w i j group
            [Effect.confirm group false, Effect.confirm group true]
      else c.startConfirmed S w i j group [Effect.confirm group false]

/-- Collaborators that say yes to everything, with the clock at 0 and a registry that has
no results. -/
def allYes : Collaborators :=
  { confirmOpen := true, confirmEarly := true, now := 0, registry := some (fun _ => []),
    drawRoundPDF := true, curlProfiles := true, decryptPDF := true, openedAt := 5 }

/-- The Finished flags of a Round: its own and those of its Groups. -/
def Round.finishedFlags (r : Round) : Bool × List Bool :=
  (r.Finished, r.Groups.map Group.Finished)

/-- The Finished flags of a Competition. -/
def Competition.finishedFlags (c : Competition) : List (Bool × List Bool) :=
  c.Rounds.map Round.finishedFlags

/-- The Round invariant of the data model: a Finished Round holds only Finished Groups. -/
def RoundInvariant (c : Competition) : Prop :=
  ∀ r, r ∈ c.Rounds → r.Finished = true → ∀ g, g ∈ r.Groups → g.Finished = true

/-- The Finished flags of the Competition a call of `StartNextGroup` returns with. -/
def returnedFlags (run : Run) : Option (List (Bool × List Bool)) :=
  match run.outcome with
  | Outcome.returned c => some c.finishedFlags
  | _ => none

/-- A Round that declares one Group and holds two; the first is Finished. -/
def lastRound : Round :=
  { mkRound "333-r1" 1 0 false
      [mkGroup "333-r1-g1" 1 true [], mkGroup "333-r1-g2" 2 false []] [] with
    GroupCount := 1 }

/-- The Competition of `lastRound`. -/
def lastDemo : Competition :=
  { ID := "demo", Name := "Demo", Persons := [], Rounds := [lastRound] }

/-- A Round that declares one Group and holds two, none of them Finished. -/
def earlyRound : Round :=
  { mkRound "333-r1" 1 0 false
      [mkGroup "333-r1-g1" 1 false [], mkGroup "333-r1-g2" 2 false []] [] with
    GroupCount := 1 }

/-- The Competition of `earlyRound`. -/
def earlyDemo : Competition :=
  { ID := "demo", Name := "Demo", Persons := [], Rounds := [earlyRound] }

/-- A Round of two Groups, numbered 1 and 2, the first of them Finished. -/
def secondRound : Round :=
  mkRound "333-r1" 1 0 false
    [mkGroup "333-r1-g1" 1 true [], mkGroup "333-r1-g2" 2 false []] []

/-- The Competition of `secondRound`. -/
def secondDemo : Competition :=
  { ID := "demo", Name := "Demo", Persons := [], Rounds := [secondRound] }

/-- A second round that declares one Group and has two; its second Group holds the two
persons who come last in the first round, Bea before Abe. -/
def staleRound2 : Round :=
  { mkRound "333-r2" 2 10 false
      [mkGroup "333-r2-g1" 1 false [],
       mkGroup "333-r2-g2" 2 false [mkPerson 7 "Bea", mkPerson 8 "Abe"]] [] with
    GroupCount := 1 }

/-- The Competition of `bestRound1` and `staleRound2`. -/
def staleDemo : Competition :=
  { ID := "demo", Name := "Demo", Persons := persons8, Rounds := [bestRound1, staleRound2] }

/-- An answer of the registry with the eight results of the first round and none for the
second. -/
def firstResults (code : String) : List Result :=
  if code = "333-r1" then
    [⟨8, 8⟩, ⟨3, 3⟩, ⟨1, 1⟩, ⟨7, 7⟩, ⟨2, 2⟩, ⟨5, 5⟩, ⟨4, 4⟩, ⟨6, 6⟩]
  else []

/-- Seven registered persons whose names run the other way: the better the ranking in
`advResults`, the earlier the name. -/
def namePersons : List Person :=
  [mkPerson 1 "Abe", mkPerson 2 "Bea", mkPerson 3 "Cal", mkPerson 4 "Dee", mkPerson 5 "Eli",
   mkPerson 6 "Fay", mkPerson 7 "Gus"]

/-- The first round of `nameDemo`. -/
def nameRound1 : Round :=
  mkRound "333-r1" 1 0 true [mkGroup "333-r1-g1" 1 true namePersons] []

/-- A first round of the seven `namePersons` and a second round of three Groups. -/
def nameDemo : Competition :=
  { ID := "demo", Name := "Demo", Persons := namePersons, Rounds := [nameRound1, advRound2] }

/-! ## Staff rotator -/

theorem staffRound_lt (n j : Nat) (hn : 0 < n) : staffRound n j < n := by
  unfold staffRound
  have h1 : (0:Int) < n := by exact_mod_cast hn
  have h2 := Int.emod_lt_of_pos ((j : Int) - 1 + (n : Int)) h1
  have h3 := Int.emod_nonneg ((j : Int) - 1 + (n : Int)) (ne_of_gt h1)
  omega

theorem staffRound_eq (n j : Nat) (hj : j < n) : staffRound n j = (j + n - 1) % n := by
  unfold staffRound
  have h : ((j : Int) - 1 + (n : Int)) = (((j + n - 1 : Nat)) : Int) := by omega
  rw [h, ← Int.natCast_mod]
  exact Int.toNat_natCast _

theorem rotated_length (gs : List Group) (k : Nat) : (rotated gs k).length = gs.length := by
  simp [rotated]

theorem rotated_getElem? (gs : List Group) (k m : Nat) :
    (rotated gs k)[m]? =
      (gs[m]?).map (fun g => if m < k then { g with Staff := staffOf gs m } else g) := by
  simp [rotated, List.getElem?_mapIdx]

theorem rotateStep_rotated (gs : List Group) (k : Nat) (hk : k < gs.length) :
    rotateStep (rotated gs k) k = rotated gs (k + 1) := by
  have hlt := staffRound_lt gs.length k (by omega)
  obtain ⟨src, hsrc⟩ : ∃ src, gs[staffRound gs.length k]? = some src :=
    ⟨_, List.getElem?_eq_getElem hlt⟩
  have hst : staffOf gs k = src.Competitors := by simp only [staffOf, hsrc]
  unfold rotateStep
  rw [rotated_length, rotated_getElem?, hsrc]
  simp only [Option.map_some']
  have hc : (if staffRound gs.length k < k then
      { src with Staff := staffOf gs (staffRound gs.length k) } else src).Competitors
        = src.Competitors := by split <;> rfl
  rw [hc]
  apply List.ext_getElem?
  intro m
  rw [List.getElem?_modify, rotated_getElem?, rotated_getElem?]
  cases hm : gs[m]? with
  | none => simp
  | some g =>
    simp only [Option.map_some', Option.map_eq_map]
    by_cases hkm : k = m
    · subst hkm
      simp [hst]
    · by_cases h1 : m < k
      · simp [hkm, h1, Nat.lt_succ_of_lt h1]
      · have : ¬ m < k + 1 := by omega
        simp [hkm, h1, this]

theorem rotated_zero (gs : List Group) : rotated gs 0 = gs := by
  apply List.ext_getElem?
  intro m
  rw [rotated_getElem?]
  cases gs[m]? <;> simp

theorem foldl_rotateStep (gs : List Group) (k : Nat) (hk : k ≤ gs.length) :
    (List.range k).foldl rotateStep gs = rotated gs k := by
  induction k with
  | zero => simp [rotated_zero]
  | succ k ih =>
    rw [List.range_succ, List.foldl_append, ih (by omega)]
    simp [rotateStep_rotated gs k (by omega)]

theorem clearStaff_length (gs : List Group) : (clearStaff gs).length = gs.length := by
  simp [clearStaff]

theorem clearStaff_getElem? (gs : List Group) (m : Nat) :
    (clearStaff gs)[m]? = (gs[m]?).map (fun g => { g with Staff := [] }) := by
  simp [clearStaff]

theorem clearStaff_rotated (gs : List Group) (k : Nat) :
    clearStaff (rotated gs k) = clearStaff gs := by
  apply List.ext_getElem?
  intro m
  rw [clearStaff_getElem?, clearStaff_getElem?, rotated_getElem?]
  cases gs[m]? with
  | none => rfl
  | some g =>
    simp only [Option.map_some']
    split <;> rfl

theorem clearStaff_clearStaff (gs : List Group) : clearStaff (clearStaff gs) = clearStaff gs := by
  simp [clearStaff]

/-- The Groups of a Round after `AssignStaff`, in closed form. -/
theorem assignStaff_groups (r : Round) :
    r.assignStaff.Groups =
      if r.Groups.length = 1 then clearStaff r.Groups
      else rotated (clearStaff r.Groups) r.Groups.length := by
  unfold Round.assignStaff
  simp only [clearStaff_length]
  split
  · rfl
  · simp only []
    rw [foldl_rotateStep _ _ (by rw [clearStaff_length])]

theorem assignStaff_clear (r : Round) :
    clearStaff r.assignStaff.Groups = clearStaff r.Groups := by
  rw [assignStaff_groups]
  split
  · exact clearStaff_clearStaff _
  · rw [clearStaff_rotated, clearStaff_clearStaff]

theorem assignStaff_length (r : Round) : r.assignStaff.Groups.length = r.Groups.length := by
  have h := congrArg List.length (assignStaff_clear r)
  simpa [clearStaff_length] using h

theorem assignStaff_assignStaff (r : Round) : r.assignStaff.assignStaff = r.assignStaff := by
  have hg : r.assignStaff.assignStaff.Groups = r.assignStaff.Groups := by
    rw [assignStaff_groups r.assignStaff, assignStaff_clear, assignStaff_length,
      ← assignStaff_groups r]
  have h1 : ∀ q : Round, q.assignStaff = { q with Groups := q.assignStaff.Groups } := by
    intro q
    unfold Round.assignStaff
    simp only []
    by_cases h : (clearStaff q.Groups).length = 1
    · simp only [h, if_true]
    · simp only [h, if_false]
  rw [h1 r.assignStaff, hg]

/-- C6. `AssignStaff` is idempotent: a second run leaves the Competition, and so the Staff
list of every Group, as the first run made it. -/
theorem AssignStaff_idempotent (c : Competition) :
    c.AssignStaff.AssignStaff = c.AssignStaff := by
  unfold Competition.AssignStaff
  simp only [List.map_map]
  congr 1
  apply List.map_congr_left
  intro r _
  exact assignStaff_assignStaff r

theorem staffOf_clearStaff (gs : List Group) (j : Nat) (src : Group)
    (h : gs[staffRound gs.length j]? = some src) :
    staffOf (clearStaff gs) j = src.Competitors := by
  unfold staffOf
  rw [clearStaff_length, clearStaff_getElem?, h]
  rfl

/-- C5. After `AssignStaff`, in a Round with more than one Group the Staff of the Group at
index `j` is the competitor list of the Group at index `(j - 1 + g) mod g` (computed as the
code does, `staffRound`), so the first Group is staffed by the competitors of the last; in a
Round with exactly one Group the Staff is empty. The competitor lists are not touched. -/
theorem AssignStaff_rotation (c : Competition) (i : Nat) (r : Round)
    (hr : c.Rounds[i]? = some r) :
    ∃ r', c.AssignStaff.Rounds[i]? = some r' ∧
      r'.Groups.map Group.Competitors = r.Groups.map Group.Competitors ∧
      (1 < r.Groups.length → ∀ j, j < r.Groups.length →
        ∃ g' src, r'.Groups[j]? = some g' ∧
          r.Groups[staffRound r.Groups.length j]? = some src ∧
          staffRound r.Groups.length j = (j + r.Groups.length - 1) % r.Groups.length ∧
          g'.Staff = src.Competitors) ∧
      (1 < r.Groups.length → ∃ g0 last, r'.Groups[0]? = some g0 ∧
        r.Groups[r.Groups.length - 1]? = some last ∧ g0.Staff = last.Competitors) ∧
      (r.Groups.length = 1 → ∀ g', g' ∈ r'.Groups → g'.Staff = []) := by
  have hgen : 1 < r.Groups.length → ∀ j, j < r.Groups.length →
      ∃ g' src, r.assignStaff.Groups[j]? = some g' ∧
        r.Groups[staffRound r.Groups.length j]? = some src ∧
        staffRound r.Groups.length j = (j + r.Groups.length - 1) % r.Groups.length ∧
        g'.Staff = src.Competitors := by
    intro hn j hj
    have hlt := staffRound_lt r.Groups.length j (by omega)
    have hsrc : r.Groups[staffRound r.Groups.length j]? =
        some (r.Groups[staffRound r.Groups.length j]) := List.getElem?_eq_getElem hlt
    have hgj : r.Groups[j]? = some (r.Groups[j]) := List.getElem?_eq_getElem hj
    refine ⟨{ r.Groups[j] with Staff := (r.Groups[staffRound r.Groups.length j]).Competitors },
      r.Groups[staffRound r.Groups.length j], ?_, hsrc, staffRound_eq _ _ hj, rfl⟩
    rw [assignStaff_groups, if_neg (by omega), rotated_getElem?, clearStaff_getElem?, hgj]
    simp only [Option.map_some', hj, if_true]
    rw [staffOf_clearStaff _ _ _ hsrc]
  refine ⟨r.assignStaff, ?_, ?_, hgen, ?_, ?_⟩
  · simp [Competition.AssignStaff, hr]
  · have h := congrArg (List.map Group.Competitors) (assignStaff_clear r)
    simpa [clearStaff, List.map_map, Function.comp_def] using h
  · intro hn
    obtain ⟨g', src, h1, h2, h3, h4⟩ := hgen hn 0 (by omega)
    have h5 : (0 + r.Groups.length - 1) % r.Groups.length = r.Groups.length - 1 := by
      rw [Nat.zero_add]
      exact Nat.mod_eq_of_lt (by omega)
    rw [h3, h5] at h2
    exact ⟨g', src, h1, h2, h4⟩
  · intro hn g' hg'
    rw [assignStaff_groups, if_pos hn] at hg'
    simp only [clearStaff, List.mem_map] at hg'
    obtain ⟨g, _, rfl⟩ := hg'
    rfl

/-- C5 on a Round of four Groups: the first Group is staffed by the competitors of the
fourth. -/
theorem AssignStaff_rotation_witness :
    ∃ r' g0, staffDemo.AssignStaff.Rounds[0]? = some r' ∧ r'.Groups[0]? = some g0 ∧
      g0.Staff = [mkPerson 4 "Di"] := by
  obtain ⟨r', h1, _, _, h4, _⟩ := AssignStaff_rotation staffDemo 0
    (mkRound "333-r1" 1 0 false
      [mkGroup "333-r1-g1" 1 false [mkPerson 1 "Ada"], mkGroup "333-r1-g2" 2 false [mkPerson 2 "Bo"],
       mkGroup "333-r1-g3" 3 false [mkPerson 3 "Cy"], mkGroup "333-r1-g4" 4 false [mkPerson 4 "Di"]]
      []) rfl
  obtain ⟨g0, last, h5, h6, h7⟩ := h4 (by decide)
  refine ⟨r', g0, h1, h5, ?_⟩
  rw [h7]
  have h8 : last = mkGroup "333-r1-g4" 4 false [mkPerson 4 "Di"] := by
    have h9 : (mkRound "333-r1" 1 0 false
      [mkGroup "333-r1-g1" 1 false [mkPerson 1 "Ada"], mkGroup "333-r1-g2" 2 false [mkPerson 2 "Bo"],
       mkGroup "333-r1-g3" 3 false [mkPerson 3 "Cy"], mkGroup "333-r1-g4" 4 false [mkPerson 4 "Di"]]
      []).Groups[4 - 1]? = some (mkGroup "333-r1-g4" 4 false [mkPerson 4 "Di"]) := rfl
    exact Option.some.inj (h6.symm.trans h9)
  rw [h8]
  rfl


/-! ## Sequencer -/

theorem nextGroupFrom_eq_some (rs : List Round) (i0 i j : Nat) :
    nextGroupFrom rs i0 = some (i, j) ↔
      ∃ k r, i = i0 + k ∧ rs[k]? = some r ∧ r.Finished = false ∧ r.nextGroup = some j ∧
        ∀ k', k' < k → ∀ r', rs[k']? = some r' → r'.Finished = true ∨ r'.nextGroup = none := by
  induction rs generalizing i0 with
  | nil => simp [nextGroupFrom]
  | cons r rest ih =>
    have hrest : nextGroupFrom rest (i0 + 1) = some (i, j) ↔
        ∃ k r0, i = i0 + k ∧ (r :: rest)[k]? = some r0 ∧ r0.Finished = false ∧
          r0.nextGroup = some j ∧ 0 < k ∧
          ∀ k', k' < k → 0 < k' → ∀ r', (r :: rest)[k']? = some r' →
            r'.Finished = true ∨ r'.nextGroup = none := by
      rw [ih]
      constructor
      · rintro ⟨k, r0, h1, h2, h3, h4, h5⟩
        refine ⟨k + 1, r0, by omega, by simpa using h2, h3, h4, by omega, ?_⟩
        intro k' hk' hpos r' hr'
        obtain ⟨m, rfl⟩ : ∃ m, k' = m + 1 := ⟨k' - 1, by omega⟩
        exact h5 m (by omega) r' (by simpa using hr')
      · rintro ⟨k, r0, h1, h2, h3, h4, hpos, h5⟩
        obtain ⟨m, rfl⟩ : ∃ m, k = m + 1 := ⟨k - 1, by omega⟩
        refine ⟨m, r0, by omega, by simpa using h2, h3, h4, ?_⟩
        intro k' hk' r' hr'
        exact h5 (k' + 1) (by omega) (by omega) r' (by simpa using hr')
    unfold nextGroupFrom
    by_cases hf : r.Finished = true
    · rw [if_pos hf, hrest]
      constructor
      · rintro ⟨k, r0, h1, h2, h3, h4, hpos, h5⟩
        refine ⟨k, r0, h1, h2, h3, h4, ?_⟩
        intro k' hk' r' hr'
        rcases Nat.eq_zero_or_pos k' with h0 | h0
        · subst h0
          simp at hr'
          subst hr'
          exact Or.inl hf
        · exact h5 k' hk' h0 r' hr'
      · rintro ⟨k, r0, h1, h2, h3, h4, h5⟩
        rcases Nat.eq_zero_or_pos k with h0 | h0
        · subst h0
          simp at h2
          subst h2
          rw [hf] at h3
          cases h3
        · exact ⟨k, r0, h1, h2, h3, h4, h0, fun k' hk' _ r' hr' => h5 k' hk' r' hr'⟩
    · have hf' : r.Finished = false := by simpa using hf
      rw [if_neg hf]
      cases hg : r.Groups.findIdx? (fun g => !g.Finished) with
      | some j0 =>
        simp only []
        constructor
        · intro h
          simp only [Option.some.injEq, Prod.mk.injEq] at h
          obtain ⟨rfl, rfl⟩ := h
          exact ⟨0, r, rfl, by simp, hf', hg, fun k' hk' => absurd hk' (Nat.not_lt_zero _)⟩
        · rintro ⟨k, r0, h1, h2, h3, h4, h5⟩
          rcases Nat.eq_zero_or_pos k with h0 | h0
          · subst h0
            simp at h2
            subst h2
            have : some j0 = some j := hg.symm.trans h4
            simp only [Option.some.injEq] at this
            subst this
            subst h1
            rfl
          · have := h5 0 h0 r (by simp)
            rcases this with h | h
            · rw [hf'] at h
              cases h
            · have h' : r.Groups.findIdx? (fun g => !g.Finished) = none := h
              rw [hg] at h'
              cases h'
      | none =>
        simp only []
        rw [hrest]
        constructor
        · rintro ⟨k, r0, h1, h2, h3, h4, hpos, h5⟩
          refine ⟨k, r0, h1, h2, h3, h4, ?_⟩
          intro k' hk' r' hr'
          rcases Nat.eq_zero_or_pos k' with h0 | h0
          · subst h0
            simp at hr'
            subst hr'
            exact Or.inr hg
          · exact h5 k' hk' h0 r' hr'
        · rintro ⟨k, r0, h1, h2, h3, h4, h5⟩
          rcases Nat.eq_zero_or_pos k with h0 | h0
          · subst h0
            simp at h2
            subst h2
            have h' : r.Groups.findIdx? (fun g => !g.Finished) = some j := h4
            rw [hg] at h'
            cases h'
          · exact ⟨k, r0, h1, h2, h3, h4, h0, fun k' hk' _ r' hr' => h5 k' hk' r' hr'⟩

/-- `NextGroup` returns the first Group that is not Finished of the first Round that is not
Finished and has such a Group. -/
theorem NextGroup_eq_some (c : Competition) (i j : Nat) :
    c.NextGroup = some (i, j) ↔
      ∃ r, c.Rounds[i]? = some r ∧ r.Finished = false ∧ r.nextGroup = some j ∧
        ∀ k', k' < i → ∀ r', c.Rounds[k']? = some r' →
          r'.Finished = true ∨ r'.nextGroup = none := by
  unfold Competition.NextGroup
  rw [nextGroupFrom_eq_some]
  constructor
  · rintro ⟨k, r, h1, h2⟩
    have : i = k := by omega
    subst this
    exact ⟨r, h2⟩
  · rintro ⟨r, h⟩
    exact ⟨i, r, by omega, h⟩

theorem nextGroup_eq_some (r : Round) (j : Nat) (h : r.nextGroup = some j) :
    ∃ g, r.Groups[j]? = some g ∧ g.Finished = false := by
  unfold Round.nextGroup at h
  rw [List.findIdx?_eq_some_iff_getElem] at h
  obtain ⟨hj, h1, _⟩ := h
  exact ⟨r.Groups[j], List.getElem?_eq_getElem hj, by simpa using h1⟩

theorem startNextGroupSelect_eq_some (c : Competition) (i j : Nat) :
    c.startNextGroupSelect = some (i, j) ↔
      ∃ r, c.Rounds[i]? = some r ∧ r.Finished = false ∧ r.nextGroup = some j ∧
        ∀ k', k' < i → ∀ r', c.Rounds[k']? = some r' → r'.Finished = true := by
  unfold Competition.startNextGroupSelect Competition.nextRound
  constructor
  · intro h
    cases hn : c.Rounds.findIdx? (fun r => !r.Finished) with
    | none => rw [hn] at h; cases h
    | some i0 =>
      rw [hn] at h
      simp only [] at h
      have hn' := hn
      rw [List.findIdx?_eq_some_iff_getElem] at hn'
      obtain ⟨hlt, h1, h2⟩ := hn'
      rw [List.getElem?_eq_getElem hlt] at h
      simp only [] at h
      cases hg : (c.Rounds[i0]).nextGroup with
      | none => rw [hg] at h; cases h
      | some j0 =>
        rw [hg] at h
        simp only [Option.some.injEq, Prod.mk.injEq] at h
        obtain ⟨rfl, rfl⟩ := h
        refine ⟨c.Rounds[i0], List.getElem?_eq_getElem hlt, by simpa using h1, hg, ?_⟩
        intro k' hk' r' hr'
        have hk'' : k' < c.Rounds.length := by omega
        have := h2 k' hk'
        rw [List.getElem?_eq_getElem hk''] at hr'
        simp only [Option.some.injEq] at hr'
        subst hr'
        simpa using this
  · rintro ⟨r, h1, h2, h3, h4⟩
    have hlt : i < c.Rounds.length := by
      by_contra hcon
      rw [List.getElem?_eq_none (by omega)] at h1
      cases h1
    have hr : c.Rounds[i] = r := by
      rw [List.getElem?_eq_getElem hlt] at h1
      exact Option.some.inj h1
    have hn : c.Rounds.findIdx? (fun r => !r.Finished) = some i := by
      rw [List.findIdx?_eq_some_iff_getElem]
      refine ⟨hlt, by simp [hr, h2], ?_⟩
      intro k' hk'
      have := h4 k' hk' (c.Rounds[k']) (List.getElem?_eq_getElem (by omega))
      simp [this]
    rw [hn]
    simp only []
    rw [h1]
    simp only []
    rw [h3]

/-- C7. A Group returned by `NextGroup` is not Finished and lies in a Round that is not
Finished; when every Round is Finished, `NextGroup` returns none. -/
theorem NextGroup_not_finished (c : Competition) :
    (∀ i j, c.NextGroup = some (i, j) →
      ∃ r g, c.Rounds[i]? = some r ∧ r.Groups[j]? = some g ∧ c.groupAt (i, j) = some g ∧
        g.Finished = false ∧ r.Finished = false) ∧
    ((∀ r, r ∈ c.Rounds → r.Finished = true) → c.NextGroup = none) := by
  have h1 : ∀ i j, c.NextGroup = some (i, j) →
      ∃ r g, c.Rounds[i]? = some r ∧ r.Groups[j]? = some g ∧ c.groupAt (i, j) = some g ∧
        g.Finished = false ∧ r.Finished = false := by
    intro i j h
    rw [NextGroup_eq_some] at h
    obtain ⟨r, hr, hf, hg, _⟩ := h
    obtain ⟨g, hgj, hgf⟩ := nextGroup_eq_some r j hg
    refine ⟨r, g, hr, hgj, ?_, hgf, hf⟩
    simp [Competition.groupAt, hr, hgj]
  refine ⟨h1, ?_⟩
  intro hall
  cases hn : c.NextGroup with
  | none => rfl
  | some p =>
    obtain ⟨i, j⟩ := p
    obtain ⟨r, g, hr, _, _, _, hf⟩ := h1 i j hn
    have := hall r (List.getElem?_mem hr)
    rw [hf] at this
    cases this

/-- C7 on two runs: the Group found in `seqDemo` is open in an open Round, and nothing is
found in `finishedDemo`. -/
theorem NextGroup_not_finished_witness :
    (∃ r g, seqDemo.Rounds[1]? = some r ∧ r.Groups[1]? = some g ∧
      seqDemo.groupAt (1, 1) = some g ∧ g.Finished = false ∧ r.Finished = false) ∧
    finishedDemo.NextGroup = none :=
  ⟨(NextGroup_not_finished seqDemo).1 1 1 (by decide),
   (NextGroup_not_finished finishedDemo).2 (by decide)⟩

/-- C8, as stated, fails: the first Round of `gapDemo` is not Finished and has no Group that
is not Finished, so `StartNextGroup` finds nothing to start, while `NextGroup` goes on to the
second Round and returns its first Group. -/
theorem NextGroup_startNextGroup_differ :
    gapDemo.NextGroup = some (1, 0) ∧ gapDemo.startNextGroupSelect = none := by
  decide

/-- C8, amended. `NextGroup` returns the first Group that is not Finished of the first Round
that is not Finished and has such a Group. Whenever `StartNextGroup` selects a Group,
`NextGroup` returns the same position; when `NextGroup` returns none, `StartNextGroup` finds
no Group; and the two agree on every Competition in which each Round that is not Finished
holds a Group that is not Finished. -/
theorem NextGroup_startNextGroup (c : Competition) :
    (∀ i j, c.NextGroup = some (i, j) ↔
      ∃ r, c.Rounds[i]? = some r ∧ r.Finished = false ∧ r.nextGroup = some j ∧
        ∀ k, k < i → ∀ r', c.Rounds[k]? = some r' →
          r'.Finished = true ∨ r'.nextGroup = none) ∧
    (∀ p, c.startNextGroupSelect = some p → c.NextGroup = some p) ∧
    (c.NextGroup = none → c.startNextGroupSelect = none) ∧
    ((∀ r, r ∈ c.Rounds → r.Finished = false → ∃ g, g ∈ r.Groups ∧ g.Finished = false) →
      c.NextGroup = c.startNextGroupSelect) := by
  have h2 : ∀ p, c.startNextGroupSelect = some p → c.NextGroup = some p := by
    rintro ⟨i, j⟩ h
    rw [startNextGroupSelect_eq_some] at h
    obtain ⟨r, hr, hf, hg, hall⟩ := h
    rw [NextGroup_eq_some]
    exact ⟨r, hr, hf, hg, fun k hk r' hr' => Or.inl (hall k hk r' hr')⟩
  refine ⟨NextGroup_eq_some c, h2, ?_, ?_⟩
  · intro hn
    cases hs : c.startNextGroupSelect with
    | none => rfl
    | some p =>
      have := h2 p hs
      rw [hn] at this
      cases this
  · intro hall
    cases hn : c.NextGroup with
    | none =>
      cases hs : c.startNextGroupSelect with
      | none => rfl
      | some p =>
        have := h2 p hs
        rw [hn] at this
        cases this
    | some p =>
      obtain ⟨i, j⟩ := p
      symm
      rw [NextGroup_eq_some] at hn
      obtain ⟨r, hr, hf, hg, hprev⟩ := hn
      rw [startNextGroupSelect_eq_some]
      refine ⟨r, hr, hf, hg, ?_⟩
      intro k hk r' hr'
      rcases hprev k hk r' hr' with h | h
      · exact h
      · by_contra hnf
        have hnf' : r'.Finished = false := by simpa using hnf
        obtain ⟨g, hg1, hg2⟩ := hall r' (List.getElem?_mem hr') hnf'
        unfold Round.nextGroup at h
        rw [List.findIdx?_eq_none_iff] at h
        have := h g hg1
        simp [hg2] at this

/-- C8, amended, on `seqDemo`, where the open Round holds an open Group: both pick the second
Group of the second Round. -/
theorem NextGroup_startNextGroup_witness :
    seqDemo.NextGroup = seqDemo.startNextGroupSelect ∧
      seqDemo.startNextGroupSelect = some (1, 1) :=
  ⟨(NextGroup_startNextGroup seqDemo).2.2.2 (by decide), by decide⟩


/-! ## `StartFrom` -/

theorem markGroups_erase (code : String) (gs : List Group) :
    (markGroups code gs).1.map (fun g => { g with Finished := false }) =
      gs.map (fun g => { g with Finished := false }) := by
  induction gs with
  | nil => rfl
  | cons g rest ih =>
    unfold markGroups
    by_cases h : g.ActivityCode = code
    · rw [if_pos h]
    · rw [if_neg h]
      simp only [List.map_cons, ih]

theorem markGroups_not_found (code : String) (gs : List Group)
    (hno : ∀ g, g ∈ gs → g.ActivityCode ≠ code) :
    (markGroups code gs).2 = false ∧
      ∀ g', g' ∈ (markGroups code gs).1 → g'.Finished = true ∧ g'.ActivityCode ≠ code := by
  induction gs with
  | nil => simp [markGroups]
  | cons g rest ih =>
    have hg := hno g (List.mem_cons_self _ _)
    obtain ⟨ih1, ih2⟩ := ih (fun g' hg' => hno g' (List.mem_cons_of_mem _ hg'))
    unfold markGroups
    rw [if_neg hg]
    refine ⟨ih1, ?_⟩
    intro g' hg'
    simp only [List.mem_cons] at hg'
    rcases hg' with rfl | hg'
    · exact ⟨rfl, hg⟩
    · exact ih2 g' hg'

theorem markGroups_found (code : String) (gs : List Group)
    (hclean : ∀ g, g ∈ gs → g.Finished = false)
    (hex : ∃ g, g ∈ gs ∧ g.ActivityCode = code) :
    (markGroups code gs).2 = true ∧
      ∃ j : Nat, (∃ g : Group, ((markGroups code gs).1)[j]? = some g ∧ g.ActivityCode = code) ∧
        ∀ (j' : Nat) (g' : Group), ((markGroups code gs).1)[j']? = some g' →
          g'.Finished = decide (j' < j) ∧ (j' < j → g'.ActivityCode ≠ code) := by
  induction gs with
  | nil =>
    obtain ⟨g, hg, _⟩ := hex
    cases hg
  | cons g rest ih =>
    unfold markGroups
    by_cases h : g.ActivityCode = code
    · rw [if_pos h]
      refine ⟨rfl, 0, ⟨g, List.getElem?_cons_zero, h⟩, ?_⟩
      intro j' g' hg'
      have hmem : g' ∈ g :: rest := List.getElem?_mem hg'
      simp [hclean g' hmem]
    · rw [if_neg h]
      have hex' : ∃ g0, g0 ∈ rest ∧ g0.ActivityCode = code := by
        obtain ⟨g0, hg0, hc⟩ := hex
        simp only [List.mem_cons] at hg0
        rcases hg0 with rfl | hg0
        · exact absurd hc h
        · exact ⟨g0, hg0, hc⟩
      obtain ⟨ih1, j, ⟨g0, hg0, hc0⟩, ih2⟩ :=
        ih (fun g' hg' => hclean g' (List.mem_cons_of_mem _ hg')) hex'
      refine ⟨ih1, j + 1, ⟨g0, by rw [List.getElem?_cons_succ]; exact hg0, hc0⟩, ?_⟩
      intro j' g' hg'
      cases j' with
      | zero =>
        simp only [List.getElem?_cons_zero, Option.some.injEq] at hg'
        subst hg'
        simp [h]
      | succ m =>
        simp only [List.getElem?_cons_succ] at hg'
        obtain ⟨h3, h4⟩ := ih2 m g' hg'
        refine ⟨?_, fun hlt => h4 (by omega)⟩
        rw [h3]
        simp

theorem markRounds_reset (code : String) (rs : List Round) :
    (markRounds code rs).1.map Round.resetFinished = rs.map Round.resetFinished := by
  induction rs with
  | nil => rfl
  | cons r rest ih =>
    unfold markRounds
    simp only []
    have hr : ∀ f : Bool, Round.resetFinished
        { r with Groups := (markGroups code r.Groups).1, Finished := f } =
        Round.resetFinished r := by
      intro f
      simp only [Round.resetFinished, markGroups_erase]
    by_cases h : (markGroups code r.Groups).2 = true
    · rw [if_pos h]
      simp only [List.map_cons]
      rw [hr r.Finished]
    · rw [if_neg h]
      simp only [List.map_cons, ih]
      rw [hr true]

theorem markRounds_found (code : String) (rs : List Round)
    (hclean : ∀ r, r ∈ rs → r.Finished = false ∧ ∀ g, g ∈ r.Groups → g.Finished = false)
    (hex : ∃ r, r ∈ rs ∧ ∃ g, g ∈ r.Groups ∧ g.ActivityCode = code) :
    (markRounds code rs).2 = true ∧
      ∃ i j : Nat, (∃ (r : Round) (g : Group), ((markRounds code rs).1)[i]? = some r ∧ r.Groups[j]? = some g ∧
          g.ActivityCode = code) ∧
        ∀ (i' : Nat) (r' : Round), ((markRounds code rs).1)[i']? = some r' →
          r'.Finished = decide (i' < i) ∧
          ∀ (j' : Nat) (g' : Group), r'.Groups[j']? = some g' →
            g'.Finished = decide (i' < i ∨ (i' = i ∧ j' < j)) ∧
            ((i' < i ∨ (i' = i ∧ j' < j)) → g'.ActivityCode ≠ code) := by
  induction rs with
  | nil =>
    obtain ⟨r, hr, _⟩ := hex
    cases hr
  | cons r rest ih =>
    unfold markRounds
    simp only []
    by_cases h : ∃ g, g ∈ r.Groups ∧ g.ActivityCode = code
    · obtain ⟨h1, j, ⟨g, hg, hc⟩, h2⟩ :=
        markGroups_found code r.Groups (hclean r (List.mem_cons_self _ _)).2 h
      rw [if_pos h1]
      refine ⟨rfl, 0, j, ⟨{ r with Groups := (markGroups code r.Groups).1 }, g,
        List.getElem?_cons_zero, hg, hc⟩, ?_⟩
      intro i' r' hr'
      cases i' with
      | zero =>
        simp only [List.getElem?_cons_zero, Option.some.injEq] at hr'
        subst hr'
        refine ⟨by simpa using (hclean r (List.mem_cons_self _ _)).1, ?_⟩
        intro j' g' hg'
        obtain ⟨h3, h4⟩ := h2 j' g' hg'
        refine ⟨by simpa using h3, ?_⟩
        intro hlt
        exact h4 (by omega)
      | succ m =>
        simp only [List.getElem?_cons_succ] at hr'
        have hmem : r' ∈ r :: rest := List.mem_cons_of_mem _ (List.getElem?_mem hr')
        refine ⟨by simpa using (hclean r' hmem).1, ?_⟩
        intro j' g' hg'
        have := (hclean r' hmem).2 g' (List.getElem?_mem hg')
        refine ⟨by simpa using this, ?_⟩
        intro hlt
        omega
    · have hno : ∀ g, g ∈ r.Groups → g.ActivityCode ≠ code := fun g hg hc => h ⟨g, hg, hc⟩
      obtain ⟨h1, h2⟩ := markGroups_not_found code r.Groups hno
      rw [h1]
      simp only [Bool.false_eq_true, if_false]
      have hex' : ∃ r0, r0 ∈ rest ∧ ∃ g, g ∈ r0.Groups ∧ g.ActivityCode = code := by
        obtain ⟨r0, hr0, hg⟩ := hex
        simp only [List.mem_cons] at hr0
        rcases hr0 with rfl | hr0
        · exact absurd hg h
        · exact ⟨r0, hr0, hg⟩
      obtain ⟨ih1, i, j, ⟨r0, g0, hr0, hg0, hc0⟩, ih2⟩ :=
        ih (fun r' hr' => hclean r' (List.mem_cons_of_mem _ hr')) hex'
      refine ⟨ih1, i + 1, j, ⟨r0, g0, by rw [List.getElem?_cons_succ]; exact hr0, hg0, hc0⟩, ?_⟩
      intro i' r' hr'
      cases i' with
      | zero =>
        simp only [List.getElem?_cons_zero, Option.some.injEq] at hr'
        subst hr'
        refine ⟨by simp, ?_⟩
        intro j' g' hg'
        obtain ⟨h3, h4⟩ := h2 g' (List.getElem?_mem hg')
        exact ⟨by simpa using h3, fun _ => h4⟩
      | succ m =>
        simp only [List.getElem?_cons_succ] at hr'
        obtain ⟨h3, h4⟩ := ih2 m r' hr'
        refine ⟨by simpa using h3, ?_⟩
        intro j' g' hg'
        obtain ⟨h5, h6⟩ := h4 j' g' hg'
        refine ⟨?_, fun hlt => h6 (by omega)⟩
        rw [h5]
        simp

theorem resetFinished_resetFinished (r : Round) :
    r.resetFinished.resetFinished = r.resetFinished := by
  simp [Round.resetFinished, List.map_map, Function.comp_def]

theorem sortRounds_reset (S : SliceSorter) (rs : List Round) :
    (S.sortSlice (fun a b => decide (a.StartTime < b.StartTime)) rs).map Round.resetFinished =
      S.sortSlice (fun a b => decide (a.StartTime < b.StartTime))
        (rs.map Round.resetFinished) :=
  S.natural Round.resetFinished (fun a b => decide (a.StartTime < b.StartTime)) rs

theorem sortRounds_sorted (S : SliceSorter) (rs : List Round) :
    (S.sortSlice (fun a b => decide (a.StartTime < b.StartTime)) rs).Pairwise
      (fun a b => a.StartTime ≤ b.StartTime) := by
  have h := S.sorted (fun a b : Round => decide (a.StartTime < b.StartTime)) rs
    (by intro a b; simp only [decide_eq_false_iff_not]; omega)
    (by intro a b c; simp only [decide_eq_false_iff_not]; omega)
  refine h.imp ?_
  intro a b hab
  simp only [decide_eq_false_iff_not] at hab
  omega

/-- `StartFrom` in terms of the start-time sort of the Rounds with their flags reset. -/
theorem StartFrom_eq (S : SliceSorter) (code : String) (c : Competition) :
    c.StartFrom S code =
      (if (markRounds code (S.sortSlice (fun a b => decide (a.StartTime < b.StartTime))
          (c.Rounds.map Round.resetFinished))).2 then none else some "scramble set not found",
       { c with Rounds := (markRounds code (S.sortSlice
          (fun a b => decide (a.StartTime < b.StartTime))
          (c.Rounds.map Round.resetFinished))).1 }) := by
  unfold Competition.StartFrom Competition.SortRounds
  simp only [sortRounds_reset]

theorem pairwise_startTime_reset (rs : List Round) :
    (rs.map Round.resetFinished).Pairwise (fun a b => a.StartTime ≤ b.StartTime) ↔
      rs.Pairwise (fun a b => a.StartTime ≤ b.StartTime) := by
  rw [List.pairwise_map]
  rfl

/-- C9. When some Group has the code, `StartFrom` returns no error and leaves the Rounds in
start-time order (the same Rounds up to their Finished flags); with `(i, j)` the position of
the first Group with the code in that order, a Round is Finished exactly when it comes before
Round `i`, and a Group is Finished exactly when it comes before position `(i, j)`. -/
theorem StartFrom_marks (S : SliceSorter) (code : String) (c : Competition)
    (hex : ∃ r, r ∈ c.Rounds ∧ ∃ g, g ∈ r.Groups ∧ g.ActivityCode = code) :
    (c.StartFrom S code).1 = none ∧
    (c.StartFrom S code).2.Rounds.Pairwise (fun a b => a.StartTime ≤ b.StartTime) ∧
    ((c.StartFrom S code).2.Rounds.map Round.resetFinished).Perm
      (c.Rounds.map Round.resetFinished) ∧
    ∃ i j : Nat,
      (∃ (r : Round) (g : Group), (c.StartFrom S code).2.Rounds[i]? = some r ∧
        r.Groups[j]? = some g ∧ g.ActivityCode = code) ∧
      ∀ (i' : Nat) (r' : Round), (c.StartFrom S code).2.Rounds[i']? = some r' →
        r'.Finished = decide (i' < i) ∧
        ∀ (j' : Nat) (g' : Group), r'.Groups[j']? = some g' →
          g'.Finished = decide (i' < i ∨ (i' = i ∧ j' < j)) ∧
          ((i' < i ∨ (i' = i ∧ j' < j)) → g'.ActivityCode ≠ code) := by
  rw [StartFrom_eq]
  simp only []
  have hperm := S.perm (fun a b : Round => decide (a.StartTime < b.StartTime))
    (c.Rounds.map Round.resetFinished)
  have hclean : ∀ r, r ∈ S.sortSlice (fun a b : Round => decide (a.StartTime < b.StartTime))
      (c.Rounds.map Round.resetFinished) →
      r.Finished = false ∧ ∀ g, g ∈ r.Groups → g.Finished = false := by
    intro r hr
    rw [hperm.mem_iff, List.mem_map] at hr
    obtain ⟨r0, _, rfl⟩ := hr
    refine ⟨rfl, ?_⟩
    intro g hg
    simp only [Round.resetFinished, List.mem_map] at hg
    obtain ⟨g0, _, rfl⟩ := hg
    rfl
  have hex' : ∃ r, r ∈ S.sortSlice (fun a b : Round => decide (a.StartTime < b.StartTime))
      (c.Rounds.map Round.resetFinished) ∧ ∃ g, g ∈ r.Groups ∧ g.ActivityCode = code := by
    obtain ⟨r, hr, g, hg, hc⟩ := hex
    refine ⟨r.resetFinished, ?_, { g with Finished := false }, ?_, hc⟩
    · rw [hperm.mem_iff]
      exact List.mem_map_of_mem _ hr
    · simp only [Round.resetFinished, List.mem_map]
      exact ⟨g, hg, rfl⟩
  obtain ⟨h1, h2⟩ := markRounds_found code _ hclean hex'
  have hreset := markRounds_reset code (S.sortSlice
    (fun a b : Round => decide (a.StartTime < b.StartTime)) (c.Rounds.map Round.resetFinished))
  refine ⟨by rw [h1]; rfl, ?_, ?_, h2⟩
  · rw [← pairwise_startTime_reset, hreset, pairwise_startTime_reset]
    exact sortRounds_sorted S _
  · rw [hreset]
    have h3 := hperm.map Round.resetFinished
    simp only [List.map_map] at h3
    have h4 : (Round.resetFinished ∘ Round.resetFinished) = Round.resetFinished := by
      funext r
      exact resetFinished_resetFinished r
    rw [h4] at h3
    simpa [List.map_map, h4] using h3

/-- C9 on `startDemo`, started from the second Group of the round-1 Round: the Rounds come
out in start-time order, the first Group of the first Round is Finished and nothing else. -/
theorem StartFrom_marks_witness :
    (startDemo.StartFrom insertionSorter "333-r1-g2").1 = none ∧
    (startDemo.StartFrom insertionSorter "333-r1-g2").2.Rounds =
      [mkRound "333-r1" 1 0 false
        [mkGroup "333-r1-g1" 1 true [], mkGroup "333-r1-g2" 2 false []] [],
       mkRound "333-r2" 2 10 false
        [mkGroup "333-r2-g1" 1 false [], mkGroup "333-r2-g2" 2 false []] []] :=
  ⟨(StartFrom_marks insertionSorter "333-r1-g2" startDemo (by decide)).1, by decide⟩

/-- C10. The outcome of `StartFrom` does not depend on the Finished flags it finds: two
Competitions that differ only in those flags get the same state and the same return value, and
a second call with the same code changes nothing. -/
theorem StartFrom_independent (S : SliceSorter) (code : String) :
    (∀ c1 c2 : Competition, c1.ID = c2.ID → c1.Name = c2.Name → c1.Persons = c2.Persons →
      c1.Rounds.map Round.resetFinished = c2.Rounds.map Round.resetFinished →
      c1.StartFrom S code = c2.StartFrom S code) ∧
    (∀ c : Competition,
      (c.StartFrom S code).2.StartFrom S code = c.StartFrom S code) := by
  constructor
  · intro c1 c2 hid hname hpersons hrounds
    rw [StartFrom_eq, StartFrom_eq, hrounds]
    cases c1
    cases c2
    simp only at hid hname hpersons
    subst hid hname hpersons
    rfl
  · intro c
    rw [StartFrom_eq S code (c.StartFrom S code).2]
    have hsorted : (S.sortSlice (fun a b : Round => decide (a.StartTime < b.StartTime))
        (c.Rounds.map Round.resetFinished)).Pairwise
        (fun a b => decide (b.StartTime < a.StartTime) = false) := by
      refine (sortRounds_sorted S _).imp ?_
      intro a b hab
      simp only [decide_eq_false_iff_not]
      omega
    have hfix : (c.StartFrom S code).2.Rounds.map Round.resetFinished =
        S.sortSlice (fun a b : Round => decide (a.StartTime < b.StartTime))
          (c.Rounds.map Round.resetFinished) := by
      rw [StartFrom_eq]
      simp only []
      rw [markRounds_reset, sortRounds_reset, List.map_map]
      have h4 : (Round.resetFinished ∘ Round.resetFinished) = Round.resetFinished := by
        funext r
        exact resetFinished_resetFinished r
      rw [h4]
    rw [hfix, S.fixed _ _ hsorted]
    rw [StartFrom_eq]

/-- C10 on `startDemo` and `startDemoFlags`, which differ only in Finished flags. -/
theorem StartFrom_independent_witness :
    startDemo.StartFrom insertionSorter "333-r1-g2" =
      startDemoFlags.StartFrom insertionSorter "333-r1-g2" :=
  (StartFrom_independent insertionSorter "333-r1-g2").1 startDemo startDemoFlags rfl rfl rfl
    (by decide)


/-! ## Advancement selector -/

theorem foldlM_ok_invariant {σ α : Type} (f : σ → α → Except Panic σ) (P : σ → Prop)
    (l : List α) (hstep : ∀ s a s', a ∈ l → P s → f s a = Except.ok s' → P s')
    (s s' : σ) (hs : P s) (h : l.foldlM f s = Except.ok s') : P s' := by
  induction l generalizing s with
  | nil =>
    simp only [List.foldlM_nil, pure, Except.pure, Except.ok.injEq] at h
    subst h
    exact hs
  | cons a rest ih =>
    rw [List.foldlM_cons] at h
    cases hfa : f s a with
    | error e =>
      rw [hfa] at h
      cases h
    | ok s1 =>
      rw [hfa] at h
      exact ih (fun s a s' ha => hstep s a s' (List.mem_cons_of_mem _ ha)) s1
        (hstep s a s1 (List.mem_cons_self _ _) hs hfa) h

theorem foldlM_range_succ {σ : Type} (f : σ → Nat → Except Panic σ) (s : σ) (k : Nat) :
    (List.range (k + 1)).foldlM f s =
      (match (List.range k).foldlM f s with
       | Except.ok s1 => f s1 k
       | Except.error e => Except.error e) := by
  rw [List.range_succ, List.foldlM_append]
  cases (List.range k).foldlM f s with
  | error e => rfl
  | ok s1 =>
    show (f s1 k >>= fun x => pure x) = f s1 k
    cases f s1 k <;> rfl

theorem roundCompetitorCount_le (n : Nat) : roundCompetitorCount n ≤ n := by
  unfold roundCompetitorCount
  omega

/-- The loop of lines 241 to 243 never indexes beyond the sorted results. -/
theorem takeResults_ok (allResults : List Result) (count : Nat)
    (h : count ≤ allResults.length) :
    takeResults allResults count = Except.ok (allResults.take count) := by
  unfold takeResults
  induction count with
  | zero => rfl
  | succ k ih =>
    rw [foldlM_range_succ, ih (by omega)]
    simp only []
    rw [List.getElem?_eq_getElem (by omega), List.take_succ,
      List.getElem?_eq_getElem (by omega)]
    rfl

theorem advancingCompetitors_ok (S : SliceSorter) (persons : List Person)
    (allResults : List Result) :
    advancingCompetitors S persons allResults =
      Except.ok ((S.sortSlice (fun a b => decide (a.Ranking > b.Ranking))
        (allResults.take (roundCompetitorCount allResults.length))).map
          (fun res => competitorMap persons res.PersonId)) := by
  unfold advancingCompetitors
  rw [takeResults_ok _ _ (roundCompetitorCount_le _)]

theorem groupStart_eq (base extras k : Nat) :
    groupStart base extras k = k * base + min k extras := by
  induction k with
  | zero => simp [groupStart]
  | succ k ih =>
    rw [groupStart, ih, groupSize, Nat.succ_mul]
    split <;> omega

theorem groupStart_mono (base extras : Nat) {k m : Nat} (h : k ≤ m) :
    groupStart base extras k ≤ groupStart base extras m := by
  induction m with
  | zero =>
    have : k = 0 := by omega
    subst this
    exact Nat.le_refl _
  | succ m ih =>
    rcases Nat.eq_or_lt_of_le h with h1 | h1
    · rw [h1]
    · have := ih (by omega)
      rw [groupStart]
      omega

/-- After the last Group, `start` is the number of advancing competitors. -/
theorem groupStart_total (count g : Nat) (hg : 0 < g) :
    groupStart (count / g) (count % g) g = count := by
  rw [groupStart_eq]
  have h1 : count % g < g := Nat.mod_lt _ hg
  rw [Nat.min_eq_right (by omega)]
  exact Nat.div_add_mod count g

theorem assignedGroups_length (S : SliceSorter) (competitors : List Person)
    (base extras : Nat) (groups : List Group) (k : Nat) :
    (assignedGroups S competitors base extras groups k).length = groups.length := by
  simp [assignedGroups]

theorem assignedGroups_getElem? (S : SliceSorter) (competitors : List Person)
    (base extras : Nat) (groups : List Group) (k m : Nat) :
    (assignedGroups S competitors base extras groups k)[m]? =
      (groups[m]?).map (fun g =>
        if m < k then { g with Competitors := groupCompetitors S competitors base extras m }
        else g) := by
  simp [assignedGroups, List.getElem?_mapIdx]

theorem assignedGroups_zero (S : SliceSorter) (competitors : List Person)
    (base extras : Nat) (groups : List Group) :
    assignedGroups S competitors base extras groups 0 = groups := by
  apply List.ext_getElem?
  intro m
  rw [assignedGroups_getElem?]
  cases groups[m]? <;> simp

theorem assignGroupStep_assigned (S : SliceSorter) (competitors : List Person)
    (base extras : Nat) (groups : List Group) (k : Nat) (hk : k < groups.length)
    (hstop : groupStart base extras (k + 1) ≤ competitors.length) :
    assignGroupStep S competitors base extras
      (groupStart base extras k, assignedGroups S competitors base extras groups k) k =
      Except.ok (groupStart base extras (k + 1),
        assignedGroups S competitors base extras groups (k + 1)) := by
  unfold assignGroupStep
  simp only []
  have hstop' : ¬ competitors.length <
      groupStart base extras k + groupSize base extras k := by
    have : groupStart base extras (k + 1) =
        groupStart base extras k + groupSize base extras k := rfl
    omega
  rw [if_neg hstop', assignedGroups_length, if_pos hk]
  congr 1
  refine Prod.ext rfl ?_
  simp only []
  apply List.ext_getElem?
  intro m
  rw [List.getElem?_modify, assignedGroups_getElem?, assignedGroups_getElem?]
  cases hm : groups[m]? with
  | none => simp
  | some g =>
    simp only [Option.map_some', Option.map_eq_map]
    by_cases hkm : k = m
    · subst hkm
      simp [groupCompetitors]
    · by_cases h1 : m < k
      · simp [hkm, h1, Nat.lt_succ_of_lt h1]
      · have : ¬ m < k + 1 := by omega
        simp [hkm, h1, this]

theorem foldlM_assignGroupStep (S : SliceSorter) (competitors : List Person)
    (base extras : Nat) (groups : List Group) (k : Nat) (hk : k ≤ groups.length)
    (hstop : groupStart base extras k ≤ competitors.length) :
    (List.range k).foldlM (assignGroupStep S competitors base extras) (0, groups) =
      Except.ok (groupStart base extras k,
        assignedGroups S competitors base extras groups k) := by
  induction k with
  | zero =>
    rw [assignedGroups_zero]
    rfl
  | succ k ih =>
    rw [foldlM_range_succ,
      ih (by omega) (Nat.le_trans (groupStart_mono base extras (Nat.le_succ k)) hstop)]
    exact assignGroupStep_assigned S competitors base extras groups k (by omega) hstop

/-- With at least one Group and no more Groups declared than there are, the loop of lines 255
to 270 runs through: every slice bound is within the advancing competitors, `start` ends at
their number, and Group `j` holds its slice sorted by name. -/
theorem assignGroups_ok (S : SliceSorter) (competitors : List Person) (g : Nat)
    (groups : List Group) (hg : 0 < g) (hlen : g ≤ groups.length) :
    assignGroups S competitors g groups =
      Except.ok (competitors.length,
        assignedGroups S competitors (competitors.length / g) (competitors.length % g)
          groups g) := by
  unfold assignGroups
  rw [foldlM_assignGroupStep S competitors _ _ groups g hlen
    (by rw [groupStart_total _ _ hg]), groupStart_total _ _ hg]

/-- Whatever the loop of lines 255 to 270 does, it only replaces competitor lists. -/
theorem assignGroups_erase (S : SliceSorter) (competitors : List Person) (g : Nat)
    (groups : List Group) (st : Nat × List Group)
    (h : assignGroups S competitors g groups = Except.ok st) :
    st.2.map Group.eraseCompetitors = groups.map Group.eraseCompetitors := by
  unfold assignGroups at h
  refine foldlM_ok_invariant _
    (fun s : Nat × List Group =>
      s.2.map Group.eraseCompetitors = groups.map Group.eraseCompetitors)
    _ ?_ _ _ rfl h
  intro s j s' _ hs hstep
  unfold assignGroupStep at hstep
  simp only [] at hstep
  by_cases h1 : competitors.length < s.1 + groupSize (competitors.length / g)
      (competitors.length % g) j
  · rw [if_pos h1] at hstep
    cases hstep
  · rw [if_neg h1] at hstep
    by_cases h2 : j < s.2.length
    · rw [if_pos h2] at hstep
      simp only [Except.ok.injEq] at hstep
      subst hstep
      simp only []
      rw [← hs]
      apply List.ext_getElem?
      intro m
      simp only [List.getElem?_map, List.getElem?_modify]
      cases s.2[m]? with
      | none => rfl
      | some g0 =>
        simp only [Option.map_some', Option.map_eq_map]
        split <;> rfl
    · rw [if_neg h2] at hstep
      cases hstep


theorem sortSlice_length (S : SliceSorter) {α : Type} (less : α → α → Bool) (l : List α) :
    (S.sortSlice less l).length = l.length :=
  (S.perm less l).length_eq

theorem updatedRounds_getElem? (rounds : List Round) (code : String) (sorted : List Result)
    (i : Nat) (gs : List Group) (m : Nat) :
    (updatedRounds rounds code sorted i gs)[m]? =
      (rounds[m]?).map (fun cr =>
        if i = m then
          { (if cr.ActivityCode = code then { cr with Results := sorted } else cr) with
            Groups := gs }
        else (if cr.ActivityCode = code then { cr with Results := sorted } else cr)) := by
  unfold updatedRounds
  rw [List.getElem?_modify, List.getElem?_map]
  cases rounds[m]? with
  | none => rfl
  | some cr =>
    simp only [Option.map_some', Option.map_eq_map]

theorem skeleton_setResults (cr : Round) (code : String) (sorted : List Result) :
    (if cr.ActivityCode = code then { cr with Results := sorted } else cr).skeleton =
      cr.skeleton := by
  split <;> rfl

theorem updatedRounds_skeleton (rounds : List Round) (code : String) (sorted : List Result)
    (i : Nat) (gs : List Group)
    (hgs : ∀ r, rounds[i]? = some r →
      gs.map Group.eraseCompetitors = r.Groups.map Group.eraseCompetitors) :
    (updatedRounds rounds code sorted i gs).map Round.skeleton = rounds.map Round.skeleton := by
  apply List.ext_getElem?
  intro m
  rw [List.getElem?_map, List.getElem?_map, updatedRounds_getElem?]
  cases hm : rounds[m]? with
  | none => rfl
  | some cr =>
    simp only [Option.map_some']
    by_cases h : i = m
    · subst h
      simp only [if_true]
      have h1 := hgs cr hm
      have h2 := skeleton_setResults cr code sorted
      congr 1
      rw [← h2]
      by_cases hc : cr.ActivityCode = code
      · simp only [hc, if_true, Round.skeleton, h1]
      · simp only [hc, if_false, Round.skeleton, h1]
    · simp only [h, if_false]
      rw [skeleton_setResults]

theorem updatedRounds_groups (rounds : List Round) (code : String) (sorted : List Result)
    (i : Nat) (gs : List Group) (m : Nat) (hm : m ≠ i) :
    ((updatedRounds rounds code sorted i gs)[m]?).map Round.Groups =
      (rounds[m]?).map Round.Groups := by
  rw [updatedRounds_getElem?]
  cases rounds[m]? with
  | none => rfl
  | some cr =>
    simp only [Option.map_some']
    rw [if_neg (fun h => hm h.symm)]
    split <;> rfl

theorem updatedRounds_groups_self (rounds : List Round) (code : String) (sorted : List Result)
    (i : Nat) (gs : List Group) (r : Round) (hr : rounds[i]? = some r) :
    ((updatedRounds rounds code sorted i gs)[i]?).map Round.Groups = some gs := by
  rw [updatedRounds_getElem?, hr]
  simp only [Option.map_some', if_true]

theorem updatedRounds_loaded (resultMap : String → List Result) (c : Competition)
    (code : String) (sorted : List Result) (i : Nat) (gs : List Group)
    (hL : Loaded resultMap c)
    (hsorted : ∀ r, r ∈ c.Rounds → r.ActivityCode = code → sorted.Perm r.Results) :
    Loaded resultMap { c with Rounds := updatedRounds c.Rounds code sorted i gs } := by
  obtain ⟨cur, hcur, hres⟩ := hL
  by_cases hcode : ∃ r, r ∈ c.Rounds ∧ r.ActivityCode = code
  · obtain ⟨r0, hr0, hc0⟩ := hcode
    refine ⟨fun x => if x = code then sorted else cur x, ?_, ?_⟩
    · intro x
      by_cases hx : x = code
      · simp only [hx, if_true]
        have h1 := hsorted r0 hr0 hc0
        rw [hres r0 hr0, hc0] at h1
        exact h1.trans (hcur code)
      · simp only [hx, if_false]
        exact hcur x
    · intro r hr
      simp only [] at hr
      obtain ⟨m, hm⟩ := List.mem_iff_getElem?.mp hr
      rw [updatedRounds_getElem?] at hm
      cases hcr : c.Rounds[m]? with
      | none =>
        rw [hcr] at hm
        cases hm
      | some cr =>
        rw [hcr] at hm
        simp only [Option.map_some', Option.some.injEq] at hm
        have hmem : cr ∈ c.Rounds := List.getElem?_mem hcr
        have hcrres := hres cr hmem
        subst hm
        by_cases hc : cr.ActivityCode = code
        · by_cases him : i = m
          · simp only [him, hc, if_true]
          · simp only [him, hc, if_true, if_false]
        · by_cases him : i = m
          · simp only [him, hc, if_true, if_false]
            exact hcrres
          · simp only [him, hc, if_false]
            exact hcrres
  · refine ⟨cur, hcur, ?_⟩
    intro r hr
    simp only [] at hr
    obtain ⟨m, hm⟩ := List.mem_iff_getElem?.mp hr
    rw [updatedRounds_getElem?] at hm
    cases hcr : c.Rounds[m]? with
    | none =>
      rw [hcr] at hm
      cases hm
    | some cr =>
      rw [hcr] at hm
      simp only [Option.map_some', Option.some.injEq] at hm
      have hmem : cr ∈ c.Rounds := List.getElem?_mem hcr
      have hcrres := hres cr hmem
      have hc : ¬ cr.ActivityCode = code := fun h => hcode ⟨cr, hmem, h⟩
      subst hm
      by_cases him : i = m
      · simp only [him, hc, if_true, if_false]
        exact hcrres
      · simp only [him, hc, if_false]
        exact hcrres

/-- A pass of the loop in its main case: the Round passes both guards, has a preceding Round
and a `GroupCount` other than zero. -/
theorem advanceRound_eq (S : SliceSorter) (c : Competition) (i : Nat) (r : Round) (k : Nat)
    (prev : Round) (hr : c.Rounds[i]? = some r) (h2 : ¬ r.RoundNumber < 2)
    (hres : ¬ r.Results.length = 0) (hk : c.prevRound r = some k)
    (hprev : c.Rounds[k]? = some prev) (hg : ¬ r.GroupCount = 0) :
    c.advanceRound S i =
      (match assignGroups S (advancing S c.Persons prev.Results) r.GroupCount.toNat
          r.Groups with
       | Except.error e => Except.error e
       | Except.ok st =>
         Except.ok { c with Rounds := (updatedRounds c.Rounds prev.ActivityCode
           (S.sortSlice (fun a b => decide (a.Ranking < b.Ranking)) prev.Results) i st.2) }) := by
  unfold Competition.advanceRound
  simp only [hr, hk, hprev, advancingCompetitors_ok, h2, hres, hg, if_false, sortSlice_length]
  rfl

/-- What one pass of the loop keeps: everything but Results and competitor lists, the Results
up to their order, and the Groups of every other Round. -/
theorem advanceRound_frame (S : SliceSorter) (resultMap : String → List Result)
    (c c' : Competition) (k : Nat) (hL : Loaded resultMap c)
    (h : c.advanceRound S k = Except.ok c') :
    SameSkeleton c c' ∧ Loaded resultMap c' ∧
      ∀ m, m ≠ k → (c'.Rounds[m]?).map Round.Groups = (c.Rounds[m]?).map Round.Groups := by
  have hsame : c' = c → SameSkeleton c c' ∧ Loaded resultMap c' ∧
      ∀ m, m ≠ k → (c'.Rounds[m]?).map Round.Groups = (c.Rounds[m]?).map Round.Groups := by
    intro he
    subst he
    exact ⟨⟨rfl, rfl, rfl, rfl⟩, hL, fun _ _ => rfl⟩
  cases hr : c.Rounds[k]? with
  | none =>
    unfold Competition.advanceRound at h
    simp only [hr, Except.ok.injEq] at h
    exact hsame h.symm
  | some r =>
    by_cases h2 : r.RoundNumber < 2
    · unfold Competition.advanceRound at h
      simp only [hr, h2, if_true, Except.ok.injEq] at h
      exact hsame h.symm
    · by_cases hres : r.Results.length = 0
      · unfold Competition.advanceRound at h
        simp only [hr, h2, hres, if_true, if_false, Except.ok.injEq] at h
        exact hsame h.symm
      · cases hk : c.prevRound r with
        | none =>
          unfold Competition.advanceRound at h
          simp only [hr, h2, hres, hk, if_false] at h
          cases h
        | some kp =>
          cases hprev : c.Rounds[kp]? with
          | none =>
            unfold Competition.advanceRound at h
            simp only [hr, h2, hres, hk, hprev, if_false] at h
            cases h
          | some prev =>
            by_cases hg : r.GroupCount = 0
            · unfold Competition.advanceRound at h
              simp only [hr, h2, hres, hk, hprev, hg, advancingCompetitors_ok, if_true,
                if_false] at h
              cases h
            · rw [advanceRound_eq S c k r kp prev hr h2 hres hk hprev hg] at h
              cases hst : assignGroups S (advancing S c.Persons prev.Results)
                  r.GroupCount.toNat r.Groups with
              | error e =>
                rw [hst] at h
                cases h
              | ok st =>
                rw [hst] at h
                simp only [Except.ok.injEq] at h
                subst h
                have herase := assignGroups_erase S _ _ _ st hst
                refine ⟨⟨rfl, rfl, rfl, ?_⟩, ?_, ?_⟩
                · apply updatedRounds_skeleton
                  intro r1 hr1
                  rw [hr] at hr1
                  cases hr1
                  exact herase
                · apply updatedRounds_loaded resultMap c _ _ _ _ hL
                  intro r1 hr1 hc1
                  obtain ⟨cur, _, hcur⟩ := hL
                  have hp := hcur prev (List.getElem?_mem hprev)
                  have h1 := hcur r1 hr1
                  rw [h1, hc1, ← hp]
                  exact S.perm _ _
                · intro m hm
                  exact updatedRounds_groups _ _ _ _ _ m hm


theorem SameSkeleton.refl (c : Competition) : SameSkeleton c c := ⟨rfl, rfl, rfl, rfl⟩

theorem SameSkeleton.trans {c0 c1 c2 : Competition} (h1 : SameSkeleton c0 c1)
    (h2 : SameSkeleton c1 c2) : SameSkeleton c0 c2 :=
  ⟨h2.1.trans h1.1, h2.2.1.trans h1.2.1, h2.2.2.1.trans h1.2.2.1, h2.2.2.2.trans h1.2.2.2⟩

theorem SameSkeleton.round {c0 c : Competition} (h : SameSkeleton c0 c) (i : Nat) (r0 : Round)
    (hr0 : c0.Rounds[i]? = some r0) :
    ∃ r, c.Rounds[i]? = some r ∧ r.skeleton = r0.skeleton := by
  have h1 := congrArg (fun l : List Round => l[i]?) h.2.2.2
  simp only [List.getElem?_map, hr0, Option.map_some'] at h1
  cases hr : c.Rounds[i]? with
  | none =>
    rw [hr] at h1
    cases h1
  | some r =>
    rw [hr] at h1
    simp only [Option.map_some', Option.some.injEq] at h1
    exact ⟨r, rfl, h1⟩

theorem skeleton_fields {r r0 : Round} (h : r.skeleton = r0.skeleton) :
    r.RoundNumber = r0.RoundNumber ∧ r.EventId = r0.EventId ∧
      r.ActivityCode = r0.ActivityCode ∧ r.GroupCount = r0.GroupCount ∧
      r.Finished = r0.Finished ∧ r.StartTime = r0.StartTime :=
  ⟨show r.skeleton.RoundNumber = r0.skeleton.RoundNumber from by rw [h],
    show r.skeleton.EventId = r0.skeleton.EventId from by rw [h],
    show r.skeleton.ActivityCode = r0.skeleton.ActivityCode from by rw [h],
    show r.skeleton.GroupCount = r0.skeleton.GroupCount from by rw [h],
    show r.skeleton.Finished = r0.skeleton.Finished from by rw [h],
    show r.skeleton.StartTime = r0.skeleton.StartTime from by rw [h]⟩

theorem prevRound_skeleton {c0 c : Competition} (h : SameSkeleton c0 c) {r0 r : Round}
    (hr : r.skeleton = r0.skeleton) : c.prevRound r = c0.prevRound r0 := by
  obtain ⟨h1, h2, _⟩ := skeleton_fields hr
  have key : ∀ (q : Competition),
      q.prevRound r0 = (q.Rounds.map Round.skeleton).findIdx?
        (fun cr => decide (cr.EventId = r0.EventId) &&
          decide (cr.RoundNumber = r0.RoundNumber - 1)) := by
    intro q
    rw [List.findIdx?_map]
    rfl
  have h3 : c.prevRound r = c.prevRound r0 := by
    unfold Competition.prevRound
    rw [h1, h2]
  rw [h3, key c, key c0, h.2.2.2]

theorem LoadResults_skeleton (resultMap : String → List Result) (c : Competition) :
    SameSkeleton c (c.LoadResults resultMap) := by
  refine ⟨rfl, rfl, rfl, ?_⟩
  simp only [Competition.LoadResults, List.map_map]
  apply List.map_congr_left
  intro r _
  rfl

theorem LoadResults_loaded (resultMap : String → List Result) (c : Competition) :
    Loaded resultMap (c.LoadResults resultMap) := by
  refine ⟨resultMap, fun _ => List.Perm.refl _, ?_⟩
  intro r hr
  simp only [Competition.LoadResults, List.mem_map] at hr
  obtain ⟨r0, _, rfl⟩ := hr
  rfl

theorem LoadResults_groups (resultMap : String → List Result) (c : Competition) (i : Nat) :
    ((c.LoadResults resultMap).Rounds[i]?).map Round.Groups =
      (c.Rounds[i]?).map Round.Groups := by
  simp only [Competition.LoadResults, List.getElem?_map]
  cases c.Rounds[i]? <;> rfl

theorem fold_frame (S : SliceSorter) (resultMap : String → List Result) (c0 : Competition)
    (ks : List Nat) (c c' : Competition) (hS : SameSkeleton c0 c) (hL : Loaded resultMap c)
    (h : ks.foldlM (Competition.advanceRound S) c = Except.ok c') :
    SameSkeleton c0 c' ∧ Loaded resultMap c' := by
  refine foldlM_ok_invariant _ (fun s => SameSkeleton c0 s ∧ Loaded resultMap s) ks ?_ c c'
    ⟨hS, hL⟩ h
  intro s k s' _ hs hstep
  obtain ⟨h1, h2, _⟩ := advanceRound_frame S resultMap s s' k hs.2 hstep
  exact ⟨hs.1.trans h1, h2⟩

theorem fold_groups (S : SliceSorter) (resultMap : String → List Result) (i : Nat)
    (ks : List Nat) (hi : i ∉ ks) (c c' : Competition) (hL : Loaded resultMap c)
    (h : ks.foldlM (Competition.advanceRound S) c = Except.ok c') :
    (c'.Rounds[i]?).map Round.Groups = (c.Rounds[i]?).map Round.Groups := by
  have := foldlM_ok_invariant _
    (fun s : Competition => Loaded resultMap s ∧
      (s.Rounds[i]?).map Round.Groups = (c.Rounds[i]?).map Round.Groups) ks ?_ c c'
    ⟨hL, rfl⟩ h
  · exact this.2
  · intro s k s' hk hs hstep
    obtain ⟨_, h2, h3⟩ := advanceRound_frame S resultMap s s' k hs.1 hstep
    refine ⟨h2, ?_⟩
    rw [h3 i (fun he => hi (he ▸ hk))]
    exact hs.2

/-- The pass at index `i` inside a run of the loop: the state it starts from and the state
it leaves, of which the Groups of Round `i` stay to the end. -/
theorem fold_at (S : SliceSorter) (resultMap : String → List Result) (c0 : Competition)
    (i : Nat) (ks : List Nat) (hnd : ks.Nodup) (hi : i ∈ ks) (c c' : Competition)
    (hS : SameSkeleton c0 c) (hL : Loaded resultMap c)
    (h : ks.foldlM (Competition.advanceRound S) c = Except.ok c') :
    ∃ cb ca, SameSkeleton c0 cb ∧ Loaded resultMap cb ∧
      (cb.Rounds[i]?).map Round.Groups = (c.Rounds[i]?).map Round.Groups ∧
      cb.advanceRound S i = Except.ok ca ∧
      (c'.Rounds[i]?).map Round.Groups = (ca.Rounds[i]?).map Round.Groups := by
  induction ks generalizing c with
  | nil => cases hi
  | cons k rest ih =>
    rw [List.foldlM_cons] at h
    cases hstep : c.advanceRound S k with
    | error e =>
      rw [hstep] at h
      cases h
    | ok c2 =>
      rw [hstep] at h
      have h' : rest.foldlM (Competition.advanceRound S) c2 = Except.ok c' := h
      obtain ⟨f1, f2, f3⟩ := advanceRound_frame S resultMap c c2 k hL hstep
      rw [List.nodup_cons] at hnd
      by_cases hki : i = k
      · subst hki
        exact ⟨c, c2, hS, hL, rfl, hstep, fold_groups S resultMap i rest hnd.1 c2 c' f2 h'⟩
      · have hi' : i ∈ rest := by
          simp only [List.mem_cons] at hi
          rcases hi with hi | hi
          · exact absurd hi hki
          · exact hi
        obtain ⟨cb, ca, g1, g2, g3, g4, g5⟩ := ih hnd.2 hi' c2 (hS.trans f1) f2 h'
        exact ⟨cb, ca, g1, g2, g3.trans (f3 i hki), g4, g5⟩

theorem assignStaff_competitors (r : Round) :
    r.assignStaff.Groups.map Group.Competitors = r.Groups.map Group.Competitors := by
  have h := congrArg (List.map Group.Competitors) (assignStaff_clear r)
  simpa [clearStaff, List.map_map, Function.comp_def] using h

/-- The run of `AssignAdvancedRoundCompetitors` seen from Round `i`: the state in which the
loop reaches the Round agrees with the input up to Results and competitor lists, holds the
registry's Results up to order, and still has the Groups of Round `i` as they were; what the
pass at `i` stores in the Groups of Round `i` is what the call returns, up to Staff. -/
theorem AssignAdvanced_at (S : SliceSorter) (resultMap : String → List Result)
    (c c' : Competition) (i : Nat) (r : Round)
    (hrun : c.AssignAdvancedRoundCompetitors S resultMap = Except.ok c')
    (hr : c.Rounds[i]? = some r) :
    ∃ cb ca rb ra r', SameSkeleton c cb ∧ Loaded resultMap cb ∧
      cb.Rounds[i]? = some rb ∧ rb.skeleton = r.skeleton ∧ rb.Groups = r.Groups ∧
      cb.advanceRound S i = Except.ok ca ∧ ca.Rounds[i]? = some ra ∧
      c'.Rounds[i]? = some r' ∧
      r'.Groups.map Group.Competitors = ra.Groups.map Group.Competitors := by
  unfold Competition.AssignAdvancedRoundCompetitors at hrun
  simp only [] at hrun
  cases hfold : (List.range (c.LoadResults resultMap).Rounds.length).foldlM
      (Competition.advanceRound S) (c.LoadResults resultMap) with
  | error e =>
    rw [hfold] at hrun
    cases hrun
  | ok c1 =>
    rw [hfold] at hrun
    simp only [Except.ok.injEq] at hrun
    subst hrun
    have hlen : i < (c.LoadResults resultMap).Rounds.length := by
      have h1 : i < c.Rounds.length := by
        by_contra hcon
        rw [List.getElem?_eq_none (by omega)] at hr
        cases hr
      simpa [Competition.LoadResults] using h1
    obtain ⟨cb, ca, g1, g2, g3, g4, g5⟩ := fold_at S resultMap (c.LoadResults resultMap) i
      (List.range _) (List.nodup_range _) (List.mem_range.mpr hlen) _ c1
      (SameSkeleton.refl _) (LoadResults_loaded resultMap c) hfold
    have hSb : SameSkeleton c cb := (LoadResults_skeleton resultMap c).trans g1
    obtain ⟨rb, hrb, hskel⟩ := hSb.round i r hr
    rw [LoadResults_groups, hr, hrb] at g3
    simp only [Option.map_some', Option.some.injEq] at g3
    obtain ⟨f1, _, _⟩ := advanceRound_frame S resultMap cb ca i g2 g4
    obtain ⟨ra, hra, _⟩ := f1.round i rb hrb
    rw [hra] at g5
    cases hc1 : c1.Rounds[i]? with
    | none =>
      rw [hc1] at g5
      cases g5
    | some r1 =>
      rw [hc1] at g5
      simp only [Option.map_some', Option.some.injEq] at g5
      refine ⟨cb, ca, rb, ra, r1.assignStaff, hSb, g2, hrb, hskel, g3, g4, hra, ?_, ?_⟩
      · simp [Competition.AssignStaff, hc1]
      · rw [assignStaff_competitors, g5]


theorem Loaded.results {resultMap : String → List Result} {c : Competition}
    (hL : Loaded resultMap c) {i : Nat} {r : Round} (hr : c.Rounds[i]? = some r) :
    r.Results.Perm (resultMap r.ActivityCode) := by
  obtain ⟨cur, h1, h2⟩ := hL
  rw [h2 r (List.getElem?_mem hr)]
  exact h1 _

/-- A Round that does not pass the guards of lines 218 to 225 keeps its competitor lists. -/
theorem AssignAdvanced_skipped (S : SliceSorter) (resultMap : String → List Result)
    (c c' : Competition) (i : Nat) (r : Round)
    (hrun : c.AssignAdvancedRoundCompetitors S resultMap = Except.ok c')
    (hr : c.Rounds[i]? = some r)
    (hskip : r.RoundNumber < 2 ∨ resultMap r.ActivityCode = []) :
    ∃ r', c'.Rounds[i]? = some r' ∧
      r'.Groups.map Group.Competitors = r.Groups.map Group.Competitors := by
  obtain ⟨cb, ca, rb, ra, r', hSb, hLb, hrb, hskel, hgroups, hstep, hra, hr', hcomp⟩ :=
    AssignAdvanced_at S resultMap c c' i r hrun hr
  obtain ⟨f1, _, f3, _⟩ := skeleton_fields hskel
  have hsame : ca = cb := by
    unfold Competition.advanceRound at hstep
    rw [hrb] at hstep
    simp only [] at hstep
    rcases hskip with h | h
    · rw [if_pos (by rw [f1]; exact h)] at hstep
      exact (Except.ok.inj hstep).symm
    · have hperm := hLb.results hrb
      rw [f3, h] at hperm
      have hlen : rb.Results.length = 0 := by simpa using hperm.length_eq
      by_cases h2 : rb.RoundNumber < 2
      · rw [if_pos h2] at hstep
        exact (Except.ok.inj hstep).symm
      · rw [if_neg h2, if_pos hlen] at hstep
        exact (Except.ok.inj hstep).symm
  subst hsame
  rw [hrb] at hra
  cases hra
  exact ⟨r', hr', by rw [hcomp, hgroups]⟩

/-- The Round `i` of a run that passes the guards, with a preceding Round and between one and
`len(Groups)` declared Groups: its Groups hold, up to Staff, what the loop of lines 255 to 270
stores for the advancing competitors, computed from the registry's Results of the preceding
Round in some order. -/
theorem AssignAdvanced_round (S : SliceSorter) (resultMap : String → List Result)
    (c c' : Competition) (i : Nat) (r : Round) (k : Nat) (prev : Round)
    (hrun : c.AssignAdvancedRoundCompetitors S resultMap = Except.ok c')
    (hr : c.Rounds[i]? = some r) (h2 : 2 ≤ r.RoundNumber)
    (hres : resultMap r.ActivityCode ≠ []) (hk : c.prevRound r = some k)
    (hprev : c.Rounds[k]? = some prev) (hg1 : 1 ≤ r.GroupCount)
    (hlen : r.GroupCount.toNat ≤ r.Groups.length) :
    ∃ results r', results.Perm (resultMap prev.ActivityCode) ∧ c'.Rounds[i]? = some r' ∧
      r'.Groups.map Group.Competitors =
        (assignedGroups S (advancing S c.Persons results)
          ((advancing S c.Persons results).length / r.GroupCount.toNat)
          ((advancing S c.Persons results).length % r.GroupCount.toNat)
          r.Groups r.GroupCount.toNat).map Group.Competitors := by
  obtain ⟨cb, ca, rb, ra, r', hSb, hLb, hrb, hskel, hgroups, hstep, hra, hr', hcomp⟩ :=
    AssignAdvanced_at S resultMap c c' i r hrun hr
  obtain ⟨f1, _, f3, f4, _⟩ := skeleton_fields hskel
  obtain ⟨pb, hpb, hpskel⟩ := hSb.round k prev hprev
  obtain ⟨_, _, p3, _⟩ := skeleton_fields hpskel
  have hperm := hLb.results hrb
  rw [f3] at hperm
  have hne : ¬ rb.Results.length = 0 := by
    intro h0
    have h1 : rb.Results = [] := List.length_eq_zero.mp h0
    rw [h1] at hperm
    exact hres (List.Perm.nil_eq hperm).symm
  have hkb : cb.prevRound rb = some k := by
    rw [prevRound_skeleton hSb hskel]
    exact hk
  have hpperm := hLb.results hpb
  rw [p3] at hpperm
  rw [advanceRound_eq S cb i rb k pb hrb (by rw [f1]; omega) hne hkb hpb (by rw [f4]; omega),
    hSb.2.2.1, hgroups, f4,
    assignGroups_ok S _ _ r.Groups (by omega) hlen] at hstep
  simp only [Except.ok.injEq] at hstep
  subst hstep
  have hself := updatedRounds_groups_self cb.Rounds pb.ActivityCode
    (S.sortSlice (fun a b => decide (a.Ranking < b.Ranking)) pb.Results) i
    (assignedGroups S (advancing S c.Persons pb.Results)
      ((advancing S c.Persons pb.Results).length / r.GroupCount.toNat)
      ((advancing S c.Persons pb.Results).length % r.GroupCount.toNat)
      r.Groups r.GroupCount.toNat) rb hrb
  simp only [] at hra
  rw [hra] at hself
  simp only [Option.map_some', Option.some.injEq] at hself
  exact ⟨pb.Results, r', hpperm, hr', by rw [hcomp, hself]⟩

theorem advancing_length (S : SliceSorter) (persons : List Person) (results : List Result) :
    (advancing S persons results).length = roundCompetitorCount results.length := by
  unfold advancing
  rw [List.length_map, sortSlice_length, List.length_take, sortSlice_length]
  exact Nat.min_eq_left (roundCompetitorCount_le _)

theorem groupCompetitors_perm (S : SliceSorter) (competitors : List Person)
    (base extras j : Nat) :
    (groupCompetitors S competitors base extras j).Perm
      ((competitors.drop (groupStart base extras j)).take (groupSize base extras j)) :=
  S.perm _ _

theorem groupCompetitors_length (S : SliceSorter) (competitors : List Person) (g j : Nat)
    (hj : j < g) :
    (groupCompetitors S competitors (competitors.length / g) (competitors.length % g) j).length =
      groupSize (competitors.length / g) (competitors.length % g) j := by
  rw [(groupCompetitors_perm S competitors _ _ j).length_eq, List.length_take,
    List.length_drop]
  have h1 : groupStart (competitors.length / g) (competitors.length % g) (j + 1) ≤
      competitors.length := by
    have := groupStart_mono (competitors.length / g) (competitors.length % g)
      (show j + 1 ≤ g by omega)
    rw [groupStart_total _ _ (by omega)] at this
    exact this
  rw [groupStart] at h1
  omega

theorem assignedGroups_competitors (S : SliceSorter) (competitors : List Person)
    (base extras : Nat) (groups : List Group) :
    (assignedGroups S competitors base extras groups groups.length).map Group.Competitors =
      (List.range groups.length).map (groupCompetitors S competitors base extras) := by
  apply List.ext_getElem?
  intro m
  rw [List.getElem?_map, assignedGroups_getElem?, List.getElem?_map]
  by_cases hm : m < groups.length
  · rw [List.getElem?_eq_getElem hm, List.getElem?_range hm]
    simp [hm]
  · rw [List.getElem?_eq_none (by omega), List.getElem?_eq_none (by simpa using hm)]
    rfl

theorem flatten_groupCompetitors (S : SliceSorter) (competitors : List Person)
    (base extras k : Nat) :
    ((List.range k).map (groupCompetitors S competitors base extras)).flatten.Perm
      (competitors.take (groupStart base extras k)) := by
  induction k with
  | zero => simp [groupStart]
  | succ k ih =>
    rw [List.range_succ, List.map_append, List.flatten_append, groupStart, List.take_add]
    refine List.Perm.append ih ?_
    simp only [List.map_cons, List.map_nil, List.flatten_cons, List.flatten_nil,
      List.append_nil]
    exact groupCompetitors_perm S competitors base extras k

theorem Competitors_eq_flatten (r : Round) :
    r.Competitors = (r.Groups.map Group.Competitors).flatten := by
  unfold Round.Competitors
  have key : ∀ (gs : List Group) (acc : List Person),
      gs.foldl (fun competitors g => competitors ++ g.Competitors) acc =
        acc ++ (gs.map Group.Competitors).flatten := by
    intro gs
    induction gs with
    | nil => intro acc; simp
    | cons g rest ih =>
      intro acc
      rw [List.foldl_cons, ih]
      simp [List.append_assoc]
  rw [key]
  rfl

/-- The competitors stored across all Groups are the advancing competitors, rearranged. -/
theorem assignedGroups_flatten (S : SliceSorter) (competitors : List Person)
    (groups : List Group) (hg : 0 < groups.length) :
    ((assignedGroups S competitors (competitors.length / groups.length)
      (competitors.length % groups.length) groups groups.length).map
        Group.Competitors).flatten.Perm competitors := by
  rw [assignedGroups_competitors]
  have h := flatten_groupCompetitors S competitors (competitors.length / groups.length)
    (competitors.length % groups.length) groups.length
  rw [groupStart_total _ _ hg, List.take_length] at h
  exact h


theorem competitorMap_append (persons : List Person) (p : Person) (id : Int) :
    competitorMap (persons ++ [p]) id = if id = p.ID then p else competitorMap persons id := by
  unfold competitorMap
  rw [List.foldl_append]
  rfl

/-- The map lookup of line 248: the last registered Person with the ID, or the zero Person
when nobody has it. -/
theorem competitorMap_spec (persons : List Person) (id : Int) :
    (competitorMap persons id ∈ persons ∧ (competitorMap persons id).ID = id) ∨
      ((∀ p, p ∈ persons → p.ID ≠ id) ∧ competitorMap persons id = Person.zero) := by
  induction persons using List.reverseRecOn with
  | nil => exact Or.inr ⟨fun _ h => absurd h (List.not_mem_nil _), rfl⟩
  | append_singleton l p ih =>
    rw [competitorMap_append]
    by_cases h : id = p.ID
    · rw [if_pos h]
      exact Or.inl ⟨by simp, h.symm⟩
    · rw [if_neg h]
      rcases ih with ⟨h1, h2⟩ | ⟨h1, h2⟩
      · exact Or.inl ⟨List.mem_append_left _ h1, h2⟩
      · refine Or.inr ⟨?_, h2⟩
        intro q hq
        rw [List.mem_append, List.mem_singleton] at hq
        rcases hq with hq | hq
        · exact h1 q hq
        · rw [hq]
          exact fun he => h he.symm

theorem sortSlice_ranking_sorted (S : SliceSorter) (results : List Result) :
    (S.sortSlice (fun a b => decide (a.Ranking < b.Ranking)) results).Pairwise
      (fun a b => a.Ranking ≤ b.Ranking) := by
  have h := S.sorted (fun a b : Result => decide (a.Ranking < b.Ranking)) results
    (by intro a b; simp only [decide_eq_false_iff_not]; omega)
    (by intro a b c; simp only [decide_eq_false_iff_not]; omega)
  refine h.imp ?_
  intro a b hab
  simp only [decide_eq_false_iff_not] at hab
  omega

/-- The Round `i` of a run, in terms of the results selected from the preceding Round: the
selected results are the first `floor(3n/4)` of the registry's `n` results in ranking order,
nothing selected is ranked behind a result left out, and the competitors stored across the
Groups are the map lookups of the selected results, one entry for each. -/
theorem AssignAdvanced_selected (S : SliceSorter) (resultMap : String → List Result)
    (c c' : Competition) (i : Nat) (r : Round) (k : Nat) (prev : Round)
    (hrun : c.AssignAdvancedRoundCompetitors S resultMap = Except.ok c')
    (hr : c.Rounds[i]? = some r) (h2 : 2 ≤ r.RoundNumber)
    (hres : resultMap r.ActivityCode ≠ []) (hk : c.prevRound r = some k)
    (hprev : c.Rounds[k]? = some prev) (hg1 : 1 ≤ r.GroupCount)
    (hgc : r.GroupCount = r.Groups.length) :
    ∃ (r' : Round) (selected rest : List Result), c'.Rounds[i]? = some r' ∧
      (selected ++ rest).Perm (resultMap prev.ActivityCode) ∧
      selected.length = 3 * (resultMap prev.ActivityCode).length / 4 ∧
      (∀ s t, s ∈ selected → t ∈ rest → s.Ranking ≤ t.Ranking) ∧
      r'.Competitors.Perm (selected.map (fun res => competitorMap c.Persons res.PersonId)) := by
  have hG : r.GroupCount.toNat = r.Groups.length := by omega
  obtain ⟨results, r', hperm, hr', hcomp⟩ := AssignAdvanced_round S resultMap c c' i r k prev
    hrun hr h2 hres hk hprev hg1 (by omega)
  rw [hG] at hcomp
  have hsorted := sortSlice_ranking_sorted S results
  have hslen : (S.sortSlice (fun a b : Result => decide (a.Ranking < b.Ranking))
      results).length = (resultMap prev.ActivityCode).length := by
    rw [sortSlice_length, hperm.length_eq]
  refine ⟨r', (S.sortSlice (fun a b => decide (a.Ranking < b.Ranking)) results).take
      (roundCompetitorCount results.length),
    (S.sortSlice (fun a b => decide (a.Ranking < b.Ranking)) results).drop
      (roundCompetitorCount results.length), hr', ?_, ?_, ?_, ?_⟩
  · rw [List.take_append_drop]
    exact (S.perm _ _).trans hperm
  · rw [List.length_take, hslen, hperm.length_eq]
    exact Nat.min_eq_left (roundCompetitorCount_le _)
  · intro s t hs ht
    exact List.Sorted.rel_of_mem_take_of_mem_drop hsorted hs ht
  · rw [Competitors_eq_flatten, hcomp]
    refine (assignedGroups_flatten S _ r.Groups (by omega)).trans ?_
    unfold advancing
    exact (S.perm _ _).map _

/-- C1. A Round past the first with Results posted, a preceding Round of `n` results and
`GroupCount` equal to its number of Groups and at least 1: after the call Group `j` holds
`base + 1` competitors when `j < m mod GroupCount` and `base` otherwise, with `m = 3n/4`
rounded down and `base = m / GroupCount` rounded down; the sizes sum to `m` and differ by at
most 1. -/
theorem AssignAdvanced_group_sizes (S : SliceSorter) (resultMap : String → List Result)
    (c c' : Competition) (i : Nat) (r : Round) (k : Nat) (prev : Round)
    (hrun : c.AssignAdvancedRoundCompetitors S resultMap = Except.ok c')
    (hr : c.Rounds[i]? = some r) (h2 : 2 ≤ r.RoundNumber)
    (hres : resultMap r.ActivityCode ≠ []) (hk : c.prevRound r = some k)
    (hprev : c.Rounds[k]? = some prev) (hg1 : 1 ≤ r.GroupCount)
    (hgc : r.GroupCount = r.Groups.length) :
    ∃ r', c'.Rounds[i]? = some r' ∧ r'.Groups.length = r.Groups.length ∧
      (∀ j, j < r.Groups.length → ∃ g', r'.Groups[j]? = some g' ∧
        g'.Competitors.length =
          3 * (resultMap prev.ActivityCode).length / 4 / r.Groups.length +
            (if j < 3 * (resultMap prev.ActivityCode).length / 4 % r.Groups.length
              then 1 else 0)) ∧
      (r'.Groups.map (fun g => g.Competitors.length)).sum =
        3 * (resultMap prev.ActivityCode).length / 4 ∧
      (∀ g1 g2, g1 ∈ r'.Groups → g2 ∈ r'.Groups →
        g1.Competitors.length ≤ g2.Competitors.length + 1) := by
  have hG : r.GroupCount.toNat = r.Groups.length := by omega
  have hpos : 0 < r.Groups.length := by omega
  obtain ⟨results, r', hperm, hr', hcomp⟩ := AssignAdvanced_round S resultMap c c' i r k prev
    hrun hr h2 hres hk hprev hg1 (by omega)
  rw [hG] at hcomp
  have hm : (advancing S c.Persons results).length =
      3 * (resultMap prev.ActivityCode).length / 4 := by
    rw [advancing_length, hperm.length_eq]
    rfl
  have hlen : r'.Groups.length = r.Groups.length := by
    have := congrArg List.length hcomp
    simpa [assignedGroups_length] using this
  have hsize : ∀ j, j < r.Groups.length → ∃ g', r'.Groups[j]? = some g' ∧
      g'.Competitors.length =
        3 * (resultMap prev.ActivityCode).length / 4 / r.Groups.length +
          (if j < 3 * (resultMap prev.ActivityCode).length / 4 % r.Groups.length
            then 1 else 0) := by
    intro j hj
    have hj' : j < r'.Groups.length := by omega
    refine ⟨r'.Groups[j], List.getElem?_eq_getElem hj', ?_⟩
    have h1 := congrArg (fun l : List (List Person) => l[j]?) hcomp
    simp only [List.getElem?_map, List.getElem?_eq_getElem hj', Option.map_some',
      assignedGroups_getElem?, List.getElem?_eq_getElem hj, hj, if_true,
      Option.some.injEq] at h1
    rw [h1, groupCompetitors_length S _ _ j hj, hm, groupSize]
    split <;> rfl
  refine ⟨r', hr', hlen, hsize, ?_, ?_⟩
  · have h1 : r'.Groups.map (fun g => g.Competitors.length) =
        (r'.Groups.map Group.Competitors).map List.length := by
      rw [List.map_map]
      rfl
    rw [h1, ← List.length_flatten, hcomp,
      (assignedGroups_flatten S _ r.Groups hpos).length_eq, hm]
  · intro g1 g2 hg1' hg2'
    obtain ⟨j1, hj1⟩ := List.mem_iff_getElem?.mp hg1'
    obtain ⟨j2, hj2⟩ := List.mem_iff_getElem?.mp hg2'
    have hlt : ∀ (j : Nat) (g : Group), r'.Groups[j]? = some g → j < r.Groups.length := by
      intro j g hjg
      by_contra hcon
      rw [List.getElem?_eq_none (by omega)] at hjg
      cases hjg
    obtain ⟨a1, ha1, hs1⟩ := hsize j1 (hlt j1 g1 hj1)
    obtain ⟨a2, ha2, hs2⟩ := hsize j2 (hlt j2 g2 hj2)
    rw [hj1] at ha1
    rw [hj2] at ha2
    cases ha1
    cases ha2
    rw [hs1, hs2]
    split <;> split <;> omega


/-- C1 on `advDemo`, seven results and three Groups: the run completes and the Groups of the
second round hold 2, 2 and 1 competitors. -/
theorem AssignAdvanced_group_sizes_witness :
    ∃ c' r' g0 g1 g2,
      advDemo.AssignAdvancedRoundCompetitors insertionSorter advResults = Except.ok c' ∧
      c'.Rounds[1]? = some r' ∧ r'.Groups.length = 3 ∧
      r'.Groups[0]? = some g0 ∧ r'.Groups[1]? = some g1 ∧ r'.Groups[2]? = some g2 ∧
      g0.Competitors.length = 2 ∧ g1.Competitors.length = 2 ∧ g2.Competitors.length = 1 ∧
      (r'.Groups.map (fun g => g.Competitors.length)).sum = 5 := by
  have hok : (advDemo.AssignAdvancedRoundCompetitors insertionSorter advResults).isOk = true := by
    decide
  cases hrun : advDemo.AssignAdvancedRoundCompetitors insertionSorter advResults with
  | error e =>
    rw [hrun] at hok
    cases hok
  | ok c' =>
    obtain ⟨r', hr', hlen, hsize, hsum, _⟩ := AssignAdvanced_group_sizes insertionSorter
      advResults advDemo c' 1 advRound2 0 advRound1 hrun rfl (by decide) (by decide)
      (by decide) rfl (by decide) (by decide)
    obtain ⟨g0, h0, s0⟩ := hsize 0 (by decide)
    obtain ⟨g1, h1, s1⟩ := hsize 1 (by decide)
    obtain ⟨g2, h2, s2⟩ := hsize 2 (by decide)
    exact ⟨c', r', g0, g1, g2, rfl, hr', hlen, h0, h1, h2, s0, s1, s2, hsum⟩

/-- C3, as stated, fails: the guard of line 223 looks at the Round's own Results. In
`skipDemo` with `skipResults` the preceding Round has no Results and the second Round has one;
the second Round is not skipped, and the competitor its Group held is gone. -/
theorem AssignAdvanced_not_skipped :
    skipDemo.prevRound skipRound2 = some 0 ∧ skipResults advRound1.ActivityCode = [] ∧
    skipRound2.Groups.map Group.Competitors = [[mkPerson 1 "Gus"]] ∧
    competitorLists (skipDemo.AssignAdvancedRoundCompetitors insertionSorter skipResults) =
      some [[persons7], [[]]] := by
  decide

/-- C3, amended. A Round that has no Results of its own after the refresh is skipped: the
competitor list of each of its Groups is after the call what it was before. -/
theorem AssignAdvanced_skips_without_results (S : SliceSorter)
    (resultMap : String → List Result) (c c' : Competition) (i : Nat) (r : Round)
    (hrun : c.AssignAdvancedRoundCompetitors S resultMap = Except.ok c')
    (hr : c.Rounds[i]? = some r) (hres : resultMap r.ActivityCode = []) :
    ∃ r', c'.Rounds[i]? = some r' ∧ r'.Groups.length = r.Groups.length ∧
      ∀ (j : Nat) (g : Group), r.Groups[j]? = some g →
        ∃ g' : Group, r'.Groups[j]? = some g' ∧ g'.Competitors = g.Competitors := by
  obtain ⟨r', h1, h2⟩ := AssignAdvanced_skipped S resultMap c c' i r hrun hr (Or.inr hres)
  have hlen : r'.Groups.length = r.Groups.length := by
    simpa using congrArg List.length h2
  refine ⟨r', h1, hlen, ?_⟩
  intro j g hg
  have hj : j < r'.Groups.length := by
    by_contra hcon
    rw [List.getElem?_eq_none (by omega)] at hg
    cases hg
  refine ⟨r'.Groups[j], List.getElem?_eq_getElem hj, ?_⟩
  have h3 := congrArg (fun l : List (List Person) => l[j]?) h2
  simp only [List.getElem?_map, hg, List.getElem?_eq_getElem hj, Option.map_some',
    Option.some.injEq] at h3
  exact h3

/-- C3, amended, on `skipDemo` when the registry has no results at all: the run completes and
the Group of the second round keeps its competitor. -/
theorem AssignAdvanced_skips_without_results_witness :
    ∃ c' r' g',
      skipDemo.AssignAdvancedRoundCompetitors insertionSorter noResults = Except.ok c' ∧
      c'.Rounds[1]? = some r' ∧ r'.Groups[0]? = some g' ∧
      g'.Competitors = [mkPerson 1 "Gus"] := by
  have hok : (skipDemo.AssignAdvancedRoundCompetitors insertionSorter noResults).isOk =
      true := by decide
  cases hrun : skipDemo.AssignAdvancedRoundCompetitors insertionSorter noResults with
  | error e =>
    rw [hrun] at hok
    cases hok
  | ok c' =>
    obtain ⟨r', h1, _, h3⟩ := AssignAdvanced_skips_without_results insertionSorter noResults
      skipDemo c' 1 skipRound2 hrun rfl rfl
    obtain ⟨g', h4, h5⟩ := h3 0 (mkGroup "333-r2-g1" 1 false [mkPerson 1 "Gus"]) rfl
    exact ⟨c', r', g', rfl, h1, h4, h5⟩

/-- C4, as stated, fails: in `zeroDemo` person 9 is ranked second and is not registered; the
run completes, and the zero Person, who is not in the registry, is stored in the Group. -/
theorem AssignAdvanced_unresolved_stored :
    competitorLists (zeroDemo.AssignAdvancedRoundCompetitors insertionSorter zeroResults) =
      some [[persons7], [[Person.zero, mkPerson 2 "Fay", mkPerson 1 "Gus"]]] ∧
    Person.zero ∉ zeroDemo.Persons ∧ (∀ p, p ∈ zeroDemo.Persons → p.ID ≠ 9) := by
  decide


/-! ## Completion of the advancement selector -/

theorem foldlM_ok_of_invariant {σ α : Type} (f : σ → α → Except Panic σ) (P : σ → Prop)
    (l : List α) (hstep : ∀ s a, a ∈ l → P s → ∃ s', f s a = Except.ok s' ∧ P s')
    (s : σ) (hs : P s) : ∃ s', l.foldlM f s = Except.ok s' ∧ P s' := by
  induction l generalizing s with
  | nil => exact ⟨s, rfl, hs⟩
  | cons a rest ih =>
    obtain ⟨s1, h1, hP1⟩ := hstep s a (List.mem_cons_self _ _) hs
    obtain ⟨s2, h2, hP2⟩ := ih (fun s a ha => hstep s a (List.mem_cons_of_mem _ ha)) s1 hP1
    refine ⟨s2, ?_, hP2⟩
    rw [List.foldlM_cons, h1]
    exact h2

theorem SameSkeleton.symm {c0 c : Competition} (h : SameSkeleton c0 c) : SameSkeleton c c0 :=
  ⟨h.1.symm, h.2.1.symm, h.2.2.1.symm, h.2.2.2.symm⟩

theorem skeleton_groups_length {r r0 : Round} (h : r.skeleton = r0.skeleton) :
    r.Groups.length = r0.Groups.length := by
  have h1 : r.skeleton.Groups.length = r0.skeleton.Groups.length := by rw [h]
  simpa [Round.skeleton] using h1

/-- One pass of the loop completes when the Round it reaches, if it passes the guards, has a
preceding Round and between one and `len(Groups)` declared Groups. -/
theorem advanceRound_ok (S : SliceSorter) (resultMap : String → List Result)
    (c s : Competition) (k : Nat) (hS : SameSkeleton c s) (hL : Loaded resultMap s)
    (hsafe : ∀ (i : Nat) (r : Round), c.Rounds[i]? = some r → 2 ≤ r.RoundNumber →
      resultMap r.ActivityCode ≠ [] →
      (∃ kp, c.prevRound r = some kp) ∧ 1 ≤ r.GroupCount ∧
        r.GroupCount.toNat ≤ r.Groups.length) :
    ∃ s', s.advanceRound S k = Except.ok s' := by
  cases hrb : s.Rounds[k]? with
  | none =>
    refine ⟨s, ?_⟩
    unfold Competition.advanceRound
    simp only [hrb]
  | some rb =>
    obtain ⟨r, hr, hskel⟩ := hS.symm.round k rb hrb
    obtain ⟨f1, _, f3, f4, _⟩ := skeleton_fields hskel
    by_cases h2 : rb.RoundNumber < 2
    · refine ⟨s, ?_⟩
      unfold Competition.advanceRound
      simp only [hrb, h2, if_true]
    · by_cases hres : rb.Results.length = 0
      · refine ⟨s, ?_⟩
        unfold Competition.advanceRound
        simp only [hrb, h2, hres, if_true, if_false]
      · have hperm := hL.results hrb
        rw [← f3] at hperm
        have hne : resultMap r.ActivityCode ≠ [] := by
          intro h0
          rw [h0] at hperm
          exact hres (by simpa using hperm.length_eq)
        obtain ⟨⟨kp, hkp⟩, hg1, hlen⟩ := hsafe k r hr (by rw [f1]; omega) hne
        have hkb : s.prevRound rb = some kp := by
          rw [prevRound_skeleton hS hskel.symm]
          exact hkp
        have hlt : kp < s.Rounds.length := by
          unfold Competition.prevRound at hkb
          rw [List.findIdx?_eq_some_iff_getElem] at hkb
          exact hkb.1
        rw [advanceRound_eq S s k rb kp (s.Rounds[kp]) hrb h2 hres hkb
          (List.getElem?_eq_getElem hlt) (by rw [← f4]; omega),
          assignGroups_ok S _ _ rb.Groups (by rw [← f4]; omega)
            (by rw [← f4, ← skeleton_groups_length hskel]; exact hlen)]
        exact ⟨_, rfl⟩

/-- The call completes (no nil dereference, no division by zero, no index out of range) on
every Competition in which each Round that passes the guards has a preceding Round and between
one and `len(Groups)` declared Groups. -/
theorem AssignAdvanced_returns (S : SliceSorter) (resultMap : String → List Result)
    (c : Competition)
    (hsafe : ∀ (i : Nat) (r : Round), c.Rounds[i]? = some r → 2 ≤ r.RoundNumber →
      resultMap r.ActivityCode ≠ [] →
      (∃ kp, c.prevRound r = some kp) ∧ 1 ≤ r.GroupCount ∧
        r.GroupCount.toNat ≤ r.Groups.length) :
    ∃ c', c.AssignAdvancedRoundCompetitors S resultMap = Except.ok c' := by
  obtain ⟨c1, h1, _⟩ := foldlM_ok_of_invariant (Competition.advanceRound S)
    (fun s => SameSkeleton c s ∧ Loaded resultMap s)
    (List.range (c.LoadResults resultMap).Rounds.length)
    (by
      intro s k _ hs
      obtain ⟨s', hs'⟩ := advanceRound_ok S resultMap c s k hs.1 hs.2 hsafe
      obtain ⟨g1, g2, _⟩ := advanceRound_frame S resultMap s s' k hs.2 hs'
      exact ⟨s', hs', hs.1.trans g1, g2⟩)
    (c.LoadResults resultMap)
    ⟨LoadResults_skeleton resultMap c, LoadResults_loaded resultMap c⟩
  refine ⟨c1.AssignStaff, ?_⟩
  unfold Competition.AssignAdvancedRoundCompetitors
  simp only [h1]

/-! ## `StartFrom` when no Group has the code -/

theorem sortedReset_clean (S : SliceSorter) (c : Competition) :
    ∀ r, r ∈ S.sortSlice (fun a b : Round => decide (a.StartTime < b.StartTime))
      (c.Rounds.map Round.resetFinished) →
      r.Finished = false ∧ ∀ g, g ∈ r.Groups → g.Finished = false := by
  intro r hr
  rw [(S.perm _ _).mem_iff, List.mem_map] at hr
  obtain ⟨r0, _, rfl⟩ := hr
  refine ⟨rfl, ?_⟩
  intro g hg
  simp only [Round.resetFinished, List.mem_map] at hg
  obtain ⟨g0, _, rfl⟩ := hg
  rfl

theorem sortedReset_code (S : SliceSorter) (code : String) (c : Competition) :
    (∃ r, r ∈ S.sortSlice (fun a b : Round => decide (a.StartTime < b.StartTime))
      (c.Rounds.map Round.resetFinished) ∧ ∃ g, g ∈ r.Groups ∧ g.ActivityCode = code) ↔
    ∃ r, r ∈ c.Rounds ∧ ∃ g, g ∈ r.Groups ∧ g.ActivityCode = code := by
  constructor
  · rintro ⟨r, hr, g, hg, hc⟩
    rw [(S.perm _ _).mem_iff, List.mem_map] at hr
    obtain ⟨r0, hr0, rfl⟩ := hr
    simp only [Round.resetFinished, List.mem_map] at hg
    obtain ⟨g0, hg0, rfl⟩ := hg
    exact ⟨r0, hr0, g0, hg0, hc⟩
  · rintro ⟨r, hr, g, hg, hc⟩
    refine ⟨r.resetFinished, ?_, { g with Finished := false }, ?_, hc⟩
    · rw [(S.perm _ _).mem_iff]
      exact List.mem_map_of_mem _ hr
    · simp only [Round.resetFinished, List.mem_map]
      exact ⟨g, hg, rfl⟩

theorem markRounds_not_found (code : String) (rs : List Round)
    (hno : ∀ r, r ∈ rs → ∀ g, g ∈ r.Groups → g.ActivityCode ≠ code) :
    (markRounds code rs).2 = false ∧
      ∀ r', r' ∈ (markRounds code rs).1 →
        r'.Finished = true ∧ ∀ g', g' ∈ r'.Groups → g'.Finished = true := by
  induction rs with
  | nil => simp [markRounds]
  | cons r rest ih =>
    obtain ⟨h1, h2⟩ := markGroups_not_found code r.Groups (hno r (List.mem_cons_self _ _))
    obtain ⟨ih1, ih2⟩ := ih (fun r' hr' => hno r' (List.mem_cons_of_mem _ hr'))
    unfold markRounds
    simp only [h1, Bool.false_eq_true, if_false]
    refine ⟨ih1, ?_⟩
    intro r' hr'
    simp only [List.mem_cons] at hr'
    rcases hr' with rfl | hr'
    · exact ⟨rfl, fun g' hg' => (h2 g' hg').1⟩
    · exact ih2 r' hr'

/-- Whether `StartFrom` finds the code, in terms of the Groups of the Competition. -/
theorem StartFrom_found_iff (S : SliceSorter) (code : String) (c : Competition) :
    (markRounds code (S.sortSlice (fun a b : Round => decide (a.StartTime < b.StartTime))
      (c.Rounds.map Round.resetFinished))).2 = true ↔
    ∃ r, r ∈ c.Rounds ∧ ∃ g, g ∈ r.Groups ∧ g.ActivityCode = code := by
  rw [← sortedReset_code S code c]
  constructor
  · intro h
    by_contra hcon
    have hno : ∀ r, r ∈ S.sortSlice (fun a b : Round => decide (a.StartTime < b.StartTime))
        (c.Rounds.map Round.resetFinished) → ∀ g, g ∈ r.Groups → g.ActivityCode ≠ code :=
      fun r hr g hg hc => hcon ⟨r, hr, g, hg, hc⟩
    rw [(markRounds_not_found code _ hno).1] at h
    cases h
  · intro h
    exact (markRounds_found code _ (sortedReset_clean S c) h).1

/-- C11. `StartFrom` returns the error "scramble set not found" exactly when no Group of any
Round has the activity code, and returns nil exactly when some Group has it. -/
theorem StartFrom_error_iff (S : SliceSorter) (code : String) (c : Competition) :
    ((c.StartFrom S code).1 = some "scramble set not found" ↔
      ∀ r, r ∈ c.Rounds → ∀ g, g ∈ r.Groups → g.ActivityCode ≠ code) ∧
    ((c.StartFrom S code).1 = none ↔
      ∃ r, r ∈ c.Rounds ∧ ∃ g, g ∈ r.Groups ∧ g.ActivityCode = code) := by
  rw [StartFrom_eq]
  simp only []
  have key := StartFrom_found_iff S code c
  by_cases h : ∃ r, r ∈ c.Rounds ∧ ∃ g, g ∈ r.Groups ∧ g.ActivityCode = code
  · rw [if_pos (key.mpr h)]
    refine ⟨⟨fun he => (by cases he), ?_⟩, ⟨fun _ => h, fun _ => rfl⟩⟩
    intro hno
    obtain ⟨r, hr, g, hg, hc⟩ := h
    exact absurd hc (hno r hr g hg)
  · have hf : ¬ (markRounds code (S.sortSlice
        (fun a b : Round => decide (a.StartTime < b.StartTime))
        (c.Rounds.map Round.resetFinished))).2 = true := fun he => h (key.mp he)
    rw [if_neg hf]
    refine ⟨⟨fun _ r hr g hg hc => h ⟨r, hr, g, hg, hc⟩, fun _ => rfl⟩,
      ⟨fun he => (by cases he), fun he => absurd he h⟩⟩

/-- C11 on `startDemo`: a code that no Group has is an error, the code of a Group is not. -/
theorem StartFrom_error_iff_witness :
    (startDemo.StartFrom insertionSorter "444-r1-g1").1 = some "scramble set not found" ∧
    (startDemo.StartFrom insertionSorter "333-r1-g2").1 = none :=
  ⟨(StartFrom_error_iff insertionSorter "444-r1-g1" startDemo).1.mpr (by decide),
   (StartFrom_error_iff insertionSorter "333-r1-g2" startDemo).2.mpr (by decide)⟩

/-- C18. When no Group has the code, `StartFrom` returns the error and leaves the Rounds, in
start-time order and otherwise as they were, with every Round and every Group Finished; that
state is not the one before the call when a Round or Group was not Finished, and it is the
state the `-start-from` branch of `main` saves. -/
theorem StartFrom_not_found_marks_all (S : SliceSorter) (code : String) (c : Competition)
    (hno : ∀ r, r ∈ c.Rounds → ∀ g, g ∈ r.Groups → g.ActivityCode ≠ code) :
    (c.StartFrom S code).1 = some "scramble set not found" ∧
    (∀ r', r' ∈ (c.StartFrom S code).2.Rounds →
      r'.Finished = true ∧ ∀ g', g' ∈ r'.Groups → g'.Finished = true) ∧
    ((c.StartFrom S code).2.Rounds.map Round.resetFinished).Perm
      (c.Rounds.map Round.resetFinished) ∧
    ((∃ r, r ∈ c.Rounds ∧ (r.Finished = false ∨ ∃ g, g ∈ r.Groups ∧ g.Finished = false)) →
      (c.StartFrom S code).2 ≠ c) ∧
    mainStartFrom S code c = (c.StartFrom S code).2 := by
  have hno' : ∀ r, r ∈ S.sortSlice (fun a b : Round => decide (a.StartTime < b.StartTime))
      (c.Rounds.map Round.resetFinished) → ∀ g, g ∈ r.Groups → g.ActivityCode ≠ code := by
    intro r hr g hg hc
    obtain ⟨r0, hr0, g0, hg0, hc0⟩ := (sortedReset_code S code c).mp ⟨r, hr, g, hg, hc⟩
    exact hno r0 hr0 g0 hg0 hc0
  obtain ⟨h1, h2⟩ := markRounds_not_found code _ hno'
  have hall : ∀ r', r' ∈ (c.StartFrom S code).2.Rounds →
      r'.Finished = true ∧ ∀ g', g' ∈ r'.Groups → g'.Finished = true := by
    rw [StartFrom_eq]
    exact h2
  refine ⟨?_, hall, ?_, ?_, rfl⟩
  · rw [StartFrom_eq]
    simp only [h1, Bool.false_eq_true, if_false]
  · rw [StartFrom_eq]
    simp only []
    rw [markRounds_reset]
    have h3 := (S.perm (fun a b : Round => decide (a.StartTime < b.StartTime))
      (c.Rounds.map Round.resetFinished)).map Round.resetFinished
    have h4 : (Round.resetFinished ∘ Round.resetFinished) = Round.resetFinished := by
      funext r
      exact resetFinished_resetFinished r
    simpa [List.map_map, h4] using h3
  · rintro ⟨r, hr, hopen⟩ heq
    rw [heq] at hall
    obtain ⟨hf, hg⟩ := hall r hr
    rcases hopen with h | ⟨g, hgm, hgf⟩
    · rw [hf] at h
      cases h
    · rw [hg g hgm] at hgf
      cases hgf

/-- C18 on `startDemo` with a code that no Group has: the error is returned and the saved
state has both Rounds and all four Groups Finished. -/
theorem StartFrom_not_found_marks_all_witness :
    (startDemo.StartFrom insertionSorter "444-r1-g1").1 = some "scramble set not found" ∧
    (mainStartFrom insertionSorter "444-r1-g1" startDemo).Rounds =
      [mkRound "333-r1" 1 0 true
        [mkGroup "333-r1-g1" 1 true [], mkGroup "333-r1-g2" 2 true []] [],
       mkRound "333-r2" 2 10 true
        [mkGroup "333-r2-g1" 1 true [], mkGroup "333-r2-g2" 2 true []] []] :=
  ⟨(StartFrom_not_found_marks_all insertionSorter "444-r1-g1" startDemo (by decide)).1,
   by decide⟩

/-! ## The order of names -/

theorem lexLess_nil_right (a : List Nat) : lexLess a [] = false := by
  cases a <;> rfl

theorem lexLess_total (a b : List Nat) : lexLess a b = false ∨ lexLess b a = false := by
  induction a generalizing b with
  | nil => exact Or.inr (lexLess_nil_right b)
  | cons x as ih =>
    cases b with
    | nil => exact Or.inl rfl
    | cons y bs =>
      simp only [lexLess, Bool.or_eq_false_iff, Bool.and_eq_false_imp, decide_eq_false_iff_not,
        decide_eq_true_eq]
      rcases Nat.lt_trichotomy x y with h | h | h
      · right
        exact ⟨by omega, fun he => by omega⟩
      · subst h
        rcases ih bs with h1 | h1
        · left
          exact ⟨by omega, fun _ => h1⟩
        · right
          exact ⟨by omega, fun _ => h1⟩
      · left
        exact ⟨by omega, fun he => by omega⟩

theorem lexLess_trans (a b c : List Nat) (hab : lexLess b a = false)
    (hbc : lexLess c b = false) : lexLess c a = false := by
  induction a generalizing b c with
  | nil => exact lexLess_nil_right c
  | cons x as ih =>
    cases c with
    | nil =>
      cases b with
      | nil => cases hab
      | cons y bs => cases hbc
    | cons z cs =>
      cases b with
      | nil => cases hab
      | cons y bs =>
        simp only [lexLess, Bool.or_eq_false_iff, Bool.and_eq_false_imp,
          decide_eq_false_iff_not, decide_eq_true_eq] at hab hbc ⊢
        refine ⟨by omega, ?_⟩
        intro hzx
        have hyx : y = x := by omega
        have hzy : z = y := by omega
        exact ih bs cs (hab.2 hyx) (hbc.2 hzy)

theorem strLess_total (a b : String) : strLess a b = false ∨ strLess b a = false :=
  lexLess_total _ _

theorem strLess_trans (a b c : String) (hab : strLess b a = false)
    (hbc : strLess c b = false) : strLess c a = false :=
  lexLess_trans _ _ _ hab hbc

theorem lexLess_iff_lt (a b : List Char) :
    lexLess (a.map Char.toNat) (b.map Char.toNat) = true ↔ a < b := by
  induction a generalizing b with
  | nil =>
    cases b with
    | nil =>
      simp only [List.map_nil, lexLess, Bool.false_eq_true, false_iff]
      intro h
      cases h
    | cons y bs =>
      simp only [List.map_nil, List.map_cons, lexLess, true_iff]
      exact List.Lex.nil
  | cons x as ih =>
    cases b with
    | nil =>
      simp only [List.map_nil, List.map_cons, lexLess, Bool.false_eq_true, false_iff]
      intro h
      cases h
    | cons y bs =>
      have hlt : x < y ↔ x.toNat < y.toNat := Iff.rfl
      have heq : x.toNat = y.toNat ↔ x = y := by
        constructor
        · intro h
          exact Char.ext (UInt32.ext h)
        · intro h
          rw [h]
      simp only [List.map_cons, lexLess, Bool.or_eq_true, Bool.and_eq_true, decide_eq_true_eq]
      constructor
      · rintro (h | ⟨h1, h2⟩)
        · exact List.Lex.rel (hlt.mpr h)
        · rw [heq] at h1
          subst h1
          exact List.Lex.cons ((ih bs).mp h2)
      · intro h
        cases h with
        | cons h1 => exact Or.inr ⟨rfl, (ih bs).mpr h1⟩
        | rel h1 => exact Or.inl (hlt.mp h1)

/-- The comparison `strLess` of the model is the order `<` of `String`. -/
theorem strLess_iff_lt (a b : String) : strLess a b = true ↔ a < b := by
  rw [String.lt_iff_toList_lt]
  exact lexLess_iff_lt a.data b.data

/-! ## Blocks and name order of the advancing competitors -/

/-- The contiguous slices `l[start:end]` of the loop of lines 255 to 270, put end to end, are
the part of `l` before the current `start`. -/
theorem flatten_slices {α : Type} (l : List α) (base extras k : Nat) :
    ((List.range k).map (fun j =>
      (l.drop (groupStart base extras j)).take (groupSize base extras j))).flatten =
      l.take (groupStart base extras k) := by
  induction k with
  | zero => simp [groupStart]
  | succ k ih =>
    rw [List.range_succ, List.map_append, List.flatten_append, ih, groupStart, List.take_add]
    simp

theorem sortSlice_ranking_descending (S : SliceSorter) (results : List Result) :
    (S.sortSlice (fun a b => decide (a.Ranking > b.Ranking)) results).Pairwise
      (fun a b => b.Ranking ≤ a.Ranking) := by
  have h := S.sorted (fun a b : Result => decide (a.Ranking > b.Ranking)) results
    (by intro a b; simp only [decide_eq_false_iff_not]; omega)
    (by intro a b c; simp only [decide_eq_false_iff_not]; omega)
  refine h.imp ?_
  intro a b hab
  simp only [decide_eq_false_iff_not] at hab
  omega

/-! ## Safety of the advancement selector -/

/-- C17. On a Competition in which every Round past the first that has Results posted has a
preceding Round of its event and a `GroupCount` between 1 and its number of Groups, the call
completes for whatever the registry answers: it raises no nil dereference, no division by
zero and no index out of range. The loop of lines 241 to 243 reads only indices below the
number of results, and the loop of lines 255 to 270 keeps `0 <= start <= end <= number of
advancing competitors`, with `end` at that number after the last Group. -/
theorem AssignAdvanced_safe (S : SliceSorter) (resultMap : String → List Result)
    (c : Competition)
    (hsafe : ∀ r, r ∈ c.Rounds → 2 ≤ r.RoundNumber → resultMap r.ActivityCode ≠ [] →
      c.prevRound r ≠ none ∧ 1 ≤ r.GroupCount ∧ r.GroupCount ≤ r.Groups.length) :
    (∃ c', c.AssignAdvancedRoundCompetitors S resultMap = Except.ok c') ∧
    (∀ allResults : List Result,
      roundCompetitorCount allResults.length ≤ allResults.length ∧
      takeResults allResults (roundCompetitorCount allResults.length) =
        Except.ok (allResults.take (roundCompetitorCount allResults.length))) ∧
    (∀ (competitors : List Person) (groups : List Group) (g : Nat), 0 < g →
      g ≤ groups.length →
      (assignGroups S competitors g groups).map Prod.fst = Except.ok competitors.length ∧
      ∀ j, j < g →
        (List.range j).foldlM (assignGroupStep S competitors (competitors.length / g)
          (competitors.length % g)) (0, groups) =
          Except.ok (groupStart (competitors.length / g) (competitors.length % g) j,
            assignedGroups S competitors (competitors.length / g) (competitors.length % g)
              groups j) ∧
        groupStart (competitors.length / g) (competitors.length % g) j ≤
          groupStart (competitors.length / g) (competitors.length % g) j +
            groupSize (competitors.length / g) (competitors.length % g) j ∧
        groupStart (competitors.length / g) (competitors.length % g) j +
            groupSize (competitors.length / g) (competitors.length % g) j ≤
          competitors.length) := by
  refine ⟨?_, ?_, ?_⟩
  · apply AssignAdvanced_returns
    intro i r hr h2 hres
    obtain ⟨h1, h3, h4⟩ := hsafe r (List.getElem?_mem hr) h2 hres
    refine ⟨?_, h3, by omega⟩
    cases hp : c.prevRound r with
    | none => exact absurd hp h1
    | some kp => exact ⟨kp, rfl⟩
  · intro allResults
    exact ⟨roundCompetitorCount_le _, takeResults_ok _ _ (roundCompetitorCount_le _)⟩
  · intro competitors groups g hg hlen
    refine ⟨by rw [assignGroups_ok S competitors g groups hg hlen]; rfl, ?_⟩
    intro j hj
    have hstop : groupStart (competitors.length / g) (competitors.length % g) (j + 1) ≤
        competitors.length := by
      have := groupStart_mono (competitors.length / g) (competitors.length % g)
        (show j + 1 ≤ g by omega)
      rw [groupStart_total _ _ hg] at this
      exact this
    have hstart : groupStart (competitors.length / g) (competitors.length % g) j ≤
        competitors.length :=
      Nat.le_trans (groupStart_mono _ _ (Nat.le_succ j)) hstop
    refine ⟨foldlM_assignGroupStep S competitors _ _ groups j (by omega) hstart,
      Nat.le_add_right _ _, ?_⟩
    rw [groupStart] at hstop
    exact hstop

/-- C17 on `advDemo`: the precondition holds and the run completes. -/
theorem AssignAdvanced_safe_witness :
    ∃ c', advDemo.AssignAdvancedRoundCompetitors insertionSorter advResults = Except.ok c' :=
  (AssignAdvanced_safe insertionSorter advResults advDemo (by decide)).1

/-! ## `StartNextGroup` -/

theorem startNextGroupSelect_none_of_finished (c : Competition)
    (hall : ∀ r, r ∈ c.Rounds → r.Finished = true) : c.startNextGroupSelect = none := by
  unfold Competition.startNextGroupSelect Competition.nextRound
  have h : c.Rounds.findIdx? (fun r => !r.Finished) = none := by
    rw [List.findIdx?_eq_none_iff]
    intro r hr
    simp [hall r hr]
  rw [h]

/-- C12. When every Round is Finished, `StartNextGroup` returns with the Competition as it
was, and all it does is print "No new rounds": no confirmation is asked, nothing is drawn,
uploaded or sent, whatever the collaborators would have answered. -/
theorem StartNextGroup_all_finished (S : SliceSorter) (w : Collaborators) (c : Competition)
    (hall : ∀ r, r ∈ c.Rounds → r.Finished = true) :
    c.StartNextGroup S w = ⟨Outcome.returned c, [Effect.println "No new rounds"]⟩ := by
  unfold Competition.StartNextGroup
  rw [startNextGroupSelect_none_of_finished c hall]

/-- C12 on `finishedDemo`. -/
theorem StartNextGroup_all_finished_witness :
    finishedDemo.StartNextGroup insertionSorter allYes =
      ⟨Outcome.returned finishedDemo, [Effect.println "No new rounds"]⟩ :=
  StartNextGroup_all_finished insertionSorter allYes finishedDemo (by decide)

/-! ## Finished flags and the Round invariant -/

theorem finishedFlags_round {c c' : Competition} (h : c'.finishedFlags = c.finishedFlags)
    {m : Nat} {r : Round} (hr : c.Rounds[m]? = some r) :
    ∃ r', c'.Rounds[m]? = some r' ∧ r'.Finished = r.Finished ∧
      r'.Groups.map Group.Finished = r.Groups.map Group.Finished := by
  have h1 := congrArg (fun l : List (Bool × List Bool) => l[m]?) h
  simp only [Competition.finishedFlags, List.getElem?_map, hr, Option.map_some'] at h1
  cases hr' : c'.Rounds[m]? with
  | none =>
    rw [hr'] at h1
    cases h1
  | some r' =>
    rw [hr'] at h1
    simp only [Option.map_some', Option.some.injEq, Round.finishedFlags, Prod.mk.injEq] at h1
    exact ⟨r', rfl, h1.1, h1.2⟩

theorem finished_group {gs gs' : List Group}
    (h : gs'.map Group.Finished = gs.map Group.Finished) {j : Nat} {g : Group}
    (hg : gs[j]? = some g) : ∃ g', gs'[j]? = some g' ∧ g'.Finished = g.Finished := by
  have h1 := congrArg (fun l : List Bool => l[j]?) h
  simp only [List.getElem?_map, hg, Option.map_some'] at h1
  cases hg' : gs'[j]? with
  | none =>
    rw [hg'] at h1
    cases h1
  | some g' =>
    rw [hg'] at h1
    simp only [Option.map_some', Option.some.injEq] at h1
    exact ⟨g', rfl, h1⟩

/-- The Round invariant depends on the Finished flags only. -/
theorem RoundInvariant_of_flags {c c' : Competition}
    (h : c'.finishedFlags = c.finishedFlags) (hinv : RoundInvariant c) :
    RoundInvariant c' := by
  intro r' hr' hf g' hg'
  obtain ⟨m, hm⟩ := List.mem_iff_getElem?.mp hr'
  obtain ⟨r, hr, h1, h2⟩ := finishedFlags_round h.symm hm
  obtain ⟨j, hj⟩ := List.mem_iff_getElem?.mp hg'
  obtain ⟨g, hg, h3⟩ := finished_group h2 hj
  rw [← h3]
  exact hinv r (List.getElem?_mem hr) (by rw [h1]; exact hf) g (List.getElem?_mem hg)

theorem finishedFlags_skeleton (r : Round) : r.skeleton.finishedFlags = r.finishedFlags := by
  simp only [Round.finishedFlags, Round.skeleton, List.map_map]
  rfl

theorem finishedFlags_of_skeleton {c c' : Competition} (h : SameSkeleton c c') :
    c'.finishedFlags = c.finishedFlags := by
  have h1 := congrArg (List.map Round.finishedFlags) h.2.2.2
  simp only [List.map_map] at h1
  have h2 : Round.finishedFlags ∘ Round.skeleton = Round.finishedFlags := by
    funext r
    exact finishedFlags_skeleton r
  rw [h2] at h1
  exact h1

theorem finishedFlags_assignStaff (r : Round) :
    r.assignStaff.finishedFlags = r.finishedFlags := by
  have h1 : r.assignStaff.Finished = r.Finished := by
    unfold Round.assignStaff
    simp only []
    by_cases h : (clearStaff r.Groups).length = 1
    · simp only [h, if_true]
    · simp only [h, if_false]
  have h2 := congrArg (List.map Group.Finished) (assignStaff_clear r)
  simp only [clearStaff, List.map_map] at h2
  have h3 : (Group.Finished ∘ fun g : Group => { g with Staff := [] }) = Group.Finished := by
    funext g
    rfl
  rw [h3] at h2
  simp only [Round.finishedFlags, h1, h2]

theorem finishedFlags_AssignStaff (c : Competition) :
    c.AssignStaff.finishedFlags = c.finishedFlags := by
  simp only [Competition.finishedFlags, Competition.AssignStaff, List.map_map]
  apply List.map_congr_left
  intro r _
  exact finishedFlags_assignStaff r

/-- The advancement selector changes no Finished flag. -/
theorem finishedFlags_AssignAdvanced (S : SliceSorter) (resultMap : String → List Result)
    (c c' : Competition)
    (hrun : c.AssignAdvancedRoundCompetitors S resultMap = Except.ok c') :
    c'.finishedFlags = c.finishedFlags := by
  unfold Competition.AssignAdvancedRoundCompetitors at hrun
  simp only [] at hrun
  cases hfold : (List.range (c.LoadResults resultMap).Rounds.length).foldlM
      (Competition.advanceRound S) (c.LoadResults resultMap) with
  | error e =>
    rw [hfold] at hrun
    cases hrun
  | ok c1 =>
    rw [hfold] at hrun
    simp only [Except.ok.injEq] at hrun
    subst hrun
    obtain ⟨h1, _⟩ := fold_frame S resultMap (c.LoadResults resultMap) _ _ c1
      (SameSkeleton.refl _) (LoadResults_loaded resultMap c) hfold
    rw [finishedFlags_AssignStaff,
      finishedFlags_of_skeleton ((LoadResults_skeleton resultMap c).trans h1)]

theorem finishedFlags_markOpened (c : Competition) (i j : Nat) (t : Int) :
    (c.markOpened i j t).finishedFlags = c.finishedFlags := by
  simp only [Competition.finishedFlags, Competition.markOpened]
  apply List.ext_getElem?
  intro m
  simp only [List.getElem?_map, List.getElem?_modify]
  cases c.Rounds[m]? with
  | none => rfl
  | some r =>
    simp only [Option.map_some', Option.map_eq_map, Option.some.injEq]
    by_cases him : i = m
    · simp only [him, if_true, Round.finishedFlags, Prod.mk.injEq, true_and]
      apply List.ext_getElem?
      intro n
      simp only [List.getElem?_map, List.getElem?_modify]
      cases r.Groups[n]? with
      | none => rfl
      | some g =>
        simp only [Option.map_some', Option.map_eq_map, Option.some.injEq]
        split <;> rfl
    · simp only [him, if_false]

theorem handOver_flags (w : Collaborators) (c c' : Competition) (i j : Nat)
    (asked : List Effect) (h : (c.handOver w i j asked).outcome = Outcome.returned c') :
    c'.finishedFlags = c.finishedFlags := by
  unfold Competition.handOver at h
  cases hg : c.groupAt (i, j) with
  | none =>
    rw [hg] at h
    cases h
  | some group =>
    rw [hg] at h
    simp only [] at h
    by_cases h1 : w.drawRoundPDF = true
    · by_cases h2 : w.curlProfiles = true
      · by_cases h3 : w.decryptPDF = true
        · simp only [h1, h2, h3, Bool.not_true, Bool.false_eq_true, if_false,
            Outcome.returned.injEq] at h
          rw [← h]
          exact finishedFlags_markOpened c i j w.openedAt
        · simp only [h1, h2, h3, Bool.not_true, Bool.not_false, Bool.false_eq_true,
            if_false, if_true] at h
          cases h
      · simp only [h1, h2, Bool.not_true, Bool.not_false, Bool.false_eq_true, if_false,
          if_true] at h
        cases h
    · simp only [h1, Bool.not_false, if_true] at h
      cases h

theorem startConfirmed_flags (S : SliceSorter) (w : Collaborators) (c c' : Competition)
    (i j : Nat) (group : Group) (asked : List Effect)
    (h : (c.startConfirmed S w i j group asked).outcome = Outcome.returned c') :
    c'.finishedFlags = (c.markStarted i j).finishedFlags := by
  unfold Competition.startConfirmed at h
  simp only [] at h
  by_cases hn : group.RoundNumber > 1
  · rw [if_pos hn] at h
    cases hreg : w.registry with
    | none =>
      rw [hreg] at h
      cases h
    | some resultMap =>
      rw [hreg] at h
      simp only [] at h
      cases hadv : (c.markStarted i j).AssignAdvancedRoundCompetitors S resultMap with
      | error p =>
        rw [hadv] at h
        cases h
      | ok c2 =>
        rw [hadv] at h
        rw [handOver_flags w c2 c' i j asked h]
        exact finishedFlags_AssignAdvanced S resultMap _ c2 hadv
  · rw [if_neg hn] at h
    exact handOver_flags w _ c' i j asked h

/-- A call of `StartNextGroup` that returns after selecting a Group was confirmed, and the
Competition it leaves has the Finished flags that lines 547 to 551 set. -/
theorem StartNextGroup_flags (S : SliceSorter) (w : Collaborators) (c c' : Competition)
    (i j : Nat) (g : Group) (hsel : c.startNextGroupSelect = some (i, j))
    (hg : c.groupAt (i, j) = some g)
    (h : (c.StartNextGroup S w).outcome = Outcome.returned c') :
    w.confirmOpen = true ∧ (g.StartTime > w.now + fifteenMinutes → w.confirmEarly = true) ∧
      c'.finishedFlags = (c.markStarted i j).finishedFlags := by
  unfold Competition.StartNextGroup at h
  rw [hsel] at h
  simp only [hg] at h
  by_cases h1 : w.confirmOpen = true
  · simp only [h1, Bool.not_true, Bool.false_eq_true, if_false] at h
    by_cases h2 : g.StartTime > w.now + fifteenMinutes
    · rw [if_pos h2] at h
      by_cases h3 : w.confirmEarly = true
      · simp only [h3, Bool.not_true, Bool.false_eq_true, if_false] at h
        exact ⟨h1, fun _ => h3, startConfirmed_flags S w c c' i j g _ h⟩
      · simp only [h3, Bool.not_false, if_true] at h
        cases h
    · rw [if_neg h2] at h
      exact ⟨h1, fun h2' => absurd h2' h2, startConfirmed_flags S w c c' i j g _ h⟩
  · simp only [h1, Bool.not_false, if_true] at h
    cases h

theorem markStarted_round (c : Competition) (i j : Nat) (r : Round) (g : Group)
    (hr : c.Rounds[i]? = some r) (hg : r.Groups[j]? = some g) :
    (c.markStarted i j).Rounds[i]? =
      some { r with
        Finished := if r.GroupCount = g.GroupNumber then true else r.Finished,
        Groups := r.Groups.modify (fun g0 => { g0 with Finished := true }) j } := by
  simp only [Competition.markStarted, List.getElem?_modify, hr, Option.map_some',
    Option.map_eq_map, if_true, hg]

theorem markStarted_other (c : Competition) (i j m : Nat) (hm : m ≠ i) :
    (c.markStarted i j).Rounds[m]? = c.Rounds[m]? := by
  simp only [Competition.markStarted, List.getElem?_modify]
  cases c.Rounds[m]? with
  | none => rfl
  | some r =>
    simp only [Option.map_some', Option.map_eq_map]
    rw [if_neg (fun h : i = m => hm h.symm)]

theorem select_groups (c : Competition) (i j : Nat)
    (hsel : c.startNextGroupSelect = some (i, j)) :
    ∃ r g, c.Rounds[i]? = some r ∧ r.Groups[j]? = some g ∧ c.groupAt (i, j) = some g ∧
      r.Finished = false ∧ g.Finished = false ∧
      ∀ (n : Nat) (g0 : Group), n < j → r.Groups[n]? = some g0 → g0.Finished = true := by
  rw [startNextGroupSelect_eq_some] at hsel
  obtain ⟨r, hr, hf, hnext, _⟩ := hsel
  obtain ⟨g, hg, hgf⟩ := nextGroup_eq_some r j hnext
  refine ⟨r, g, hr, hg, by simp [Competition.groupAt, hr, hg], hf, hgf, ?_⟩
  intro n g0 hn hg0
  unfold Round.nextGroup at hnext
  rw [List.findIdx?_eq_some_iff_getElem] at hnext
  obtain ⟨hj, _, hbefore⟩ := hnext
  have h1 := hbefore n hn
  have hn' : n < r.Groups.length := by omega
  rw [List.getElem?_eq_getElem hn'] at hg0
  cases hg0
  simpa using h1

/-- C13, as stated, fails: in `lastDemo` the Round declares one Group and holds two; the
second Group is selected, it is the last by group number, and the confirmed call returns
with both Groups Finished and the Round not Finished. -/
theorem StartNextGroup_last_not_marked :
    lastDemo.startNextGroupSelect = some (0, 1) ∧
    (∀ g, g ∈ lastRound.Groups → g.GroupNumber ≤ 2) ∧
    returnedFlags (lastDemo.StartNextGroup insertionSorter allYes) =
      some [(false, [true, true])] := by
  decide

/-- C13, amended. A confirmed `StartNextGroup` that selects a Group and returns leaves the
selected Group Finished, and the Round Finished exactly when the Round's `GroupCount` equals
the `GroupNumber` of the selected Group; when `GroupCount` is the number of Groups and the
Groups are numbered from 1 in order, that is exactly when no Group of the Round has a greater
`GroupNumber`. The call returns when the Group's round number is at most 1 and the
collaborators succeed. -/
theorem StartNextGroup_marks (S : SliceSorter) (w : Collaborators) (c : Competition)
    (i j : Nat) (r : Round) (g : Group) (hsel : c.startNextGroupSelect = some (i, j))
    (hr : c.Rounds[i]? = some r) (hg : r.Groups[j]? = some g)
    (hopen : w.confirmOpen = true)
    (hearly : g.StartTime > w.now + fifteenMinutes → w.confirmEarly = true) :
    (∀ c', (c.StartNextGroup S w).outcome = Outcome.returned c' →
      ∃ (r' : Round) (g' : Group), c'.Rounds[i]? = some r' ∧ r'.Groups[j]? = some g' ∧
        g'.Finished = true ∧
        (r'.Finished = true ↔ r.GroupCount = g.GroupNumber) ∧
        (r.GroupCount = r.Groups.length →
          (∀ (n : Nat) (g0 : Group), r.Groups[n]? = some g0 → g0.GroupNumber = n + 1) →
          (r'.Finished = true ↔ ∀ g0, g0 ∈ r.Groups → g0.GroupNumber ≤ g.GroupNumber))) ∧
    (g.RoundNumber ≤ 1 → w.drawRoundPDF = true → w.curlProfiles = true →
      w.decryptPDF = true →
      ∃ c', (c.StartNextGroup S w).outcome = Outcome.returned c') := by
  obtain ⟨r0, g0, hr0, hg0, hgat, hrf, _, _⟩ := select_groups c i j hsel
  rw [hr] at hr0
  cases hr0
  rw [hg] at hg0
  cases hg0
  have hmark := markStarted_round c i j r g hr hg
  constructor
  · intro c' hret
    obtain ⟨_, _, hflags⟩ := StartNextGroup_flags S w c c' i j g hsel hgat hret
    obtain ⟨r', hr', hf', hgs'⟩ := finishedFlags_round hflags hmark
    have hgj : (r.Groups.modify (fun g0 : Group => { g0 with Finished := true }) j)[j]? =
        some { g with Finished := true } := by
      simp [List.getElem?_modify, hg]
    obtain ⟨g', hg', hgf'⟩ := finished_group hgs' hgj
    have hiff : r'.Finished = true ↔ r.GroupCount = g.GroupNumber := by
      rw [hf']
      simp only [hrf]
      by_cases hc : r.GroupCount = g.GroupNumber
      · simp [hc]
      · simp [hc]
    refine ⟨r', g', hr', hg', hgf', hiff, ?_⟩
    intro hcount hnum
    rw [hiff, hcount, hnum j g hg]
    have hj : j < r.Groups.length := by
      by_contra hcon
      rw [List.getElem?_eq_none (by omega)] at hg
      cases hg
    constructor
    · intro hlast g0 hmem
      obtain ⟨n, hn⟩ := List.mem_iff_getElem?.mp hmem
      have hnl : n < r.Groups.length := by
        by_contra hcon
        rw [List.getElem?_eq_none (by omega)] at hn
        cases hn
      rw [hnum n g0 hn]
      omega
    · intro hall
      have hl : r.Groups.length - 1 < r.Groups.length := by omega
      have h1 := hall _ (List.getElem?_mem (List.getElem?_eq_getElem hl))
      rw [hnum _ _ (List.getElem?_eq_getElem hl)] at h1
      omega
  · intro hn hdraw hcurl hdec
    have hgat1 : ∃ g1, (c.markStarted i j).groupAt (i, j) = some g1 := by
      refine ⟨{ g with Finished := true }, ?_⟩
      simp [Competition.groupAt, hmark, List.getElem?_modify, hg]
    obtain ⟨g1, hg1⟩ := hgat1
    have hnot : ¬ g.RoundNumber > 1 := by omega
    have hstart : ∀ asked, (c.startConfirmed S w i j g asked).outcome =
        Outcome.returned ((c.markStarted i j).markOpened i j w.openedAt) := by
      intro asked
      unfold Competition.startConfirmed
      simp only [hnot, if_false]
      unfold Competition.handOver
      simp only [hg1, hdraw, hcurl, hdec, Bool.not_true, Bool.false_eq_true, if_false]
    refine ⟨(c.markStarted i j).markOpened i j w.openedAt, ?_⟩
    unfold Competition.StartNextGroup
    rw [hsel]
    simp only [hgat, hopen, Bool.not_true, Bool.false_eq_true, if_false]
    by_cases h2 : g.StartTime > w.now + fifteenMinutes
    · rw [if_pos h2]
      simp only [hearly h2, Bool.not_true, Bool.false_eq_true, if_false]
      exact hstart _
    · rw [if_neg h2]
      exact hstart _

/-- C13, amended, on `secondDemo`, two Groups numbered 1 and 2 in a Round that declares two:
the confirmed call returns, and with the second Group it marks the Round Finished. -/
theorem StartNextGroup_marks_witness :
    (∃ c', (secondDemo.StartNextGroup insertionSorter allYes).outcome =
      Outcome.returned c') ∧
    returnedFlags (secondDemo.StartNextGroup insertionSorter allYes) =
      some [(true, [true, true])] :=
  ⟨(StartNextGroup_marks insertionSorter allYes secondDemo 0 1 secondRound
      (mkGroup "333-r1-g2" 2 false []) (by decide) rfl rfl rfl (fun _ => rfl)).2
      (by decide) rfl rfl rfl,
   by decide⟩

theorem markRounds_invariant (code : String) (rs : List Round)
    (hclean : ∀ r, r ∈ rs → r.Finished = false ∧ ∀ g, g ∈ r.Groups → g.Finished = false) :
    ∀ r', r' ∈ (markRounds code rs).1 → r'.Finished = true →
      ∀ g', g' ∈ r'.Groups → g'.Finished = true := by
  induction rs with
  | nil =>
    intro r' hr'
    cases hr'
  | cons r rest ih =>
    have hrest : ∀ r', r' ∈ rest →
        r'.Finished = false ∧ ∀ g, g ∈ r'.Groups → g.Finished = false :=
      fun r' hr' => hclean r' (List.mem_cons_of_mem _ hr')
    unfold markRounds
    simp only []
    by_cases hfound : (markGroups code r.Groups).2 = true
    · rw [if_pos hfound]
      intro r' hr' hf
      simp only [List.mem_cons] at hr'
      rcases hr' with rfl | hr'
      · have := (hclean r (List.mem_cons_self _ _)).1
        simp only [] at hf
        rw [this] at hf
        cases hf
      · rw [(hrest r' hr').1] at hf
        cases hf
    · rw [if_neg hfound]
      intro r' hr' hf
      simp only [List.mem_cons] at hr'
      rcases hr' with rfl | hr'
      · have hno : ∀ g, g ∈ r.Groups → g.ActivityCode ≠ code := by
          intro g hg hc
          exact hfound (markGroups_found code r.Groups
            (hclean r (List.mem_cons_self _ _)).2 ⟨g, hg, hc⟩).1
        intro g' hg'
        exact ((markGroups_not_found code r.Groups hno).2 g' hg').1
      · exact ih hrest r' hr' hf

theorem RoundInvariant_StartFrom (S : SliceSorter) (code : String) (c : Competition) :
    RoundInvariant (c.StartFrom S code).2 := by
  rw [StartFrom_eq]
  exact markRounds_invariant code _ (sortedReset_clean S c)

theorem RoundInvariant_markStarted (c : Competition) (i j : Nat) (r : Round)
    (hsel : c.startNextGroupSelect = some (i, j)) (hr : c.Rounds[i]? = some r)
    (hcount : r.GroupCount = r.Groups.length)
    (hnum : ∀ (n : Nat) (g0 : Group), r.Groups[n]? = some g0 → g0.GroupNumber = n + 1)
    (hinv : RoundInvariant c) : RoundInvariant (c.markStarted i j) := by
  obtain ⟨r0, g, hr0, hg, _, hrf, _, hbefore⟩ := select_groups c i j hsel
  rw [hr] at hr0
  cases hr0
  intro r1 hr1 hf g1 hg1
  obtain ⟨m, hm⟩ := List.mem_iff_getElem?.mp hr1
  by_cases hmi : m = i
  · subst hmi
    rw [markStarted_round c m j r g hr hg] at hm
    simp only [Option.some.injEq] at hm
    subst hm
    simp only [hrf] at hf
    have hlast : r.GroupCount = g.GroupNumber := by
      by_contra hcon
      simp [hcon] at hf
    rw [hcount, hnum j g hg] at hlast
    simp only [] at hg1
    obtain ⟨n, hn⟩ := List.mem_iff_getElem?.mp hg1
    rw [List.getElem?_modify] at hn
    cases hgn : r.Groups[n]? with
    | none =>
      rw [hgn] at hn
      cases hn
    | some g0 =>
      rw [hgn] at hn
      simp only [Option.map_some', Option.map_eq_map, Option.some.injEq] at hn
      by_cases hjn : j = n
      · rw [if_pos hjn] at hn
        rw [← hn]
      · rw [if_neg hjn] at hn
        rw [← hn]
        have hnl : n < r.Groups.length := by
          by_contra hcon
          rw [List.getElem?_eq_none (by omega)] at hgn
          cases hgn
        exact hbefore n g0 (by omega) hgn
  · rw [markStarted_other c i j m hmi] at hm
    exact hinv r1 (List.getElem?_mem hm) hf g1 hg1

/-- C14, as stated, fails for `StartNextGroup`: in `earlyDemo` the Round declares one Group
and holds two, nothing is Finished and the invariant holds; the confirmed call selects the
first Group, whose number is the declared count, and returns with the Round Finished and the
second Group not Finished. -/
theorem StartNextGroup_breaks_invariant :
    RoundInvariant earlyDemo ∧
    ∃ c', (earlyDemo.StartNextGroup insertionSorter allYes).outcome = Outcome.returned c' ∧
      c'.finishedFlags = [(true, [true, false])] ∧ ¬ RoundInvariant c' := by
  refine ⟨by unfold RoundInvariant; decide, ?_⟩
  have hflags : returnedFlags (earlyDemo.StartNextGroup insertionSorter allYes) =
      some [(true, [true, false])] := by decide
  unfold returnedFlags at hflags
  cases hout : (earlyDemo.StartNextGroup insertionSorter allYes).outcome with
  | returned c' =>
    rw [hout] at hflags
    simp only [Option.some.injEq] at hflags
    refine ⟨c', rfl, hflags, ?_⟩
    intro hinv
    have hr : ∃ r', c'.Rounds[0]? = some r' ∧ r'.finishedFlags = (true, [true, false]) := by
      have h1 := congrArg (fun l : List (Bool × List Bool) => l[0]?) hflags
      simp only [Competition.finishedFlags, List.getElem?_map] at h1
      cases hr0 : c'.Rounds[0]? with
      | none =>
        rw [hr0] at h1
        cases h1
      | some r' =>
        rw [hr0] at h1
        exact ⟨r', rfl, by simpa using h1⟩
    obtain ⟨r', hr', hf⟩ := hr
    simp only [Round.finishedFlags, Prod.mk.injEq] at hf
    have hg : ∃ g', r'.Groups[1]? = some g' ∧ g'.Finished = false := by
      have h2 := congrArg (fun l : List Bool => l[1]?) hf.2
      simp only [List.getElem?_map] at h2
      cases hg1 : r'.Groups[1]? with
      | none =>
        rw [hg1] at h2
        cases h2
      | some g' =>
        rw [hg1] at h2
        exact ⟨g', rfl, by simpa using h2⟩
    obtain ⟨g', hg', hgf⟩ := hg
    have := hinv r' (List.getElem?_mem hr') hf.1 g' (List.getElem?_mem hg')
    rw [hgf] at this
    cases this
  | exited =>
    rw [hout] at hflags
    cases hflags
  | fatal =>
    rw [hout] at hflags
    cases hflags
  | panicked p =>
    rw [hout] at hflags
    cases hflags

/-- C14, amended. The Round invariant (a Finished Round holds only Finished Groups) holds
after every `StartFrom`; `AssignStaff` and a call of `AssignAdvancedRoundCompetitors` that
returns keep it; and a call of `StartNextGroup` that returns keeps it when the Round it
selects declares as many Groups as it holds and has them numbered from 1 in order. -/
theorem RoundInvariant_preserved (S : SliceSorter) :
    (∀ (code : String) (c : Competition), RoundInvariant (c.StartFrom S code).2) ∧
    (∀ c : Competition, RoundInvariant c → RoundInvariant c.AssignStaff) ∧
    (∀ (resultMap : String → List Result) (c c' : Competition),
      c.AssignAdvancedRoundCompetitors S resultMap = Except.ok c' →
      RoundInvariant c → RoundInvariant c') ∧
    (∀ (w : Collaborators) (c c' : Competition),
      (∀ (i j : Nat) (r : Round), c.startNextGroupSelect = some (i, j) →
        c.Rounds[i]? = some r →
        r.GroupCount = r.Groups.length ∧
        ∀ (n : Nat) (g0 : Group), r.Groups[n]? = some g0 → g0.GroupNumber = n + 1) →
      (c.StartNextGroup S w).outcome = Outcome.returned c' →
      RoundInvariant c → RoundInvariant c') := by
  refine ⟨RoundInvariant_StartFrom S, ?_, ?_, ?_⟩
  · intro c hinv
    exact RoundInvariant_of_flags (finishedFlags_AssignStaff c) hinv
  · intro resultMap c c' hrun hinv
    exact RoundInvariant_of_flags (finishedFlags_AssignAdvanced S resultMap c c' hrun) hinv
  · intro w c c' hnum hret hinv
    cases hsel : c.startNextGroupSelect with
    | none =>
      unfold Competition.StartNextGroup at hret
      rw [hsel] at hret
      simp only [Outcome.returned.injEq] at hret
      rw [← hret]
      exact hinv
    | some p =>
      obtain ⟨i, j⟩ := p
      obtain ⟨r, g, hr, _, hgat, _⟩ := select_groups c i j hsel
      obtain ⟨_, _, hflags⟩ := StartNextGroup_flags S w c c' i j g hsel hgat hret
      obtain ⟨hcount, hn⟩ := hnum i j r hsel hr
      exact RoundInvariant_of_flags hflags
        (RoundInvariant_markStarted c i j r hsel hr hcount hn hinv)

/-- C14, amended, on `secondDemo`, a Round of two Groups numbered 1 and 2 that declares two:
the invariant holds before the confirmed call and in the Competition it returns with, and it
holds after `StartFrom`. -/
theorem RoundInvariant_preserved_witness :
    (∃ c', (secondDemo.StartNextGroup insertionSorter allYes).outcome = Outcome.returned c' ∧
      RoundInvariant c') ∧
    RoundInvariant (startDemo.StartFrom insertionSorter "333-r1-g2").2 := by
  constructor
  · have hflags : returnedFlags (secondDemo.StartNextGroup insertionSorter allYes) ≠ none := by
      decide
    unfold returnedFlags at hflags
    cases hout : (secondDemo.StartNextGroup insertionSorter allYes).outcome with
    | returned c' =>
      refine ⟨c', rfl, ?_⟩
      refine (RoundInvariant_preserved insertionSorter).2.2.2 allYes secondDemo c' ?_ hout
        (by unfold RoundInvariant; decide)
      intro i j r hsel hr
      have hs : secondDemo.startNextGroupSelect = some (0, 1) := by decide
      rw [hs] at hsel
      simp only [Option.some.injEq, Prod.mk.injEq] at hsel
      obtain ⟨rfl, rfl⟩ := hsel
      have hr0 : secondDemo.Rounds[0]? = some secondRound := rfl
      rw [hr0] at hr
      cases hr
      refine ⟨by decide, ?_⟩
      intro n g0 hg0
      match n, hg0 with
      | 0, hg0 =>
        have h0 : secondRound.Groups[0]? = some (mkGroup "333-r1-g1" 1 true []) := rfl
        rw [h0] at hg0
        cases hg0
        rfl
      | 1, hg0 =>
        have h1 : secondRound.Groups[1]? = some (mkGroup "333-r1-g2" 2 false []) := rfl
        rw [h1] at hg0
        cases hg0
        rfl
      | n + 2, hg0 =>
        have h2 : secondRound.Groups[n + 2]? = none := rfl
        rw [h2] at hg0
        cases hg0
    | exited =>
      rw [hout] at hflags
      exact absurd rfl hflags
    | fatal =>
      rw [hout] at hflags
      exact absurd rfl hflags
    | panicked p =>
      rw [hout] at hflags
      exact absurd rfl hflags
  · exact (RoundInvariant_preserved insertionSorter).1 "333-r1-g2" startDemo

/-! ## Rounds with more Groups than declared -/

/-- A run of the loop of lines 255 to 270 that gets through `k` passes had `k` Groups to write
to and never sliced past the advancing competitors. -/
theorem foldlM_assignGroupStep_bounds (S : SliceSorter) (competitors : List Person)
    (base extras : Nat) (groups : List Group) (k : Nat) (st : Nat × List Group)
    (h : (List.range k).foldlM (assignGroupStep S competitors base extras) (0, groups) =
      Except.ok st) :
    k ≤ groups.length ∧ groupStart base extras k ≤ competitors.length := by
  induction k generalizing st with
  | zero => exact ⟨Nat.zero_le _, Nat.zero_le _⟩
  | succ k ih =>
    rw [foldlM_range_succ] at h
    cases hk : (List.range k).foldlM (assignGroupStep S competitors base extras)
        (0, groups) with
    | error e =>
      rw [hk] at h
      cases h
    | ok s1 =>
      obtain ⟨h1, h2⟩ := ih s1 hk
      rw [foldlM_assignGroupStep S competitors base extras groups k h1 h2] at h
      simp only [] at h
      unfold assignGroupStep at h
      simp only [] at h
      have hnext : groupStart base extras (k + 1) =
          groupStart base extras k + groupSize base extras k := rfl
      by_cases c1 : competitors.length <
          groupStart base extras k + groupSize base extras k
      · rw [if_pos c1] at h
        cases h
      · rw [if_neg c1, assignedGroups_length] at h
        by_cases c2 : k < groups.length
        · exact ⟨by omega, by omega⟩
        · rw [if_neg c2] at h
          cases h

/-- When the loop of lines 255 to 270 runs through, the Round declares no more Groups than it
has, the Groups with index below `GroupCount` hold their slices and the others are as they
were. -/
theorem assignGroups_inv (S : SliceSorter) (competitors : List Person) (g : Nat)
    (groups : List Group) (st : Nat × List Group)
    (h : assignGroups S competitors g groups = Except.ok st) :
    g ≤ groups.length ∧
      st.2 = assignedGroups S competitors (competitors.length / g) (competitors.length % g)
        groups g := by
  unfold assignGroups at h
  obtain ⟨h1, h2⟩ := foldlM_assignGroupStep_bounds S competitors _ _ groups g st h
  rw [foldlM_assignGroupStep S competitors _ _ groups g h1 h2] at h
  cases h
  exact ⟨h1, rfl⟩

/-- The Round `i` of a run that returns, when the Round passes the guards of lines 218 to
225: it has a preceding Round, its `GroupCount` is not zero and not above its number of
Groups, and its Groups hold, up to Staff, what the loop of lines 255 to 270 stores for the
advancing competitors, computed from the registry's Results of the preceding Round in some
order. -/
theorem AssignAdvanced_processed (S : SliceSorter) (resultMap : String → List Result)
    (c c' : Competition) (i : Nat) (r : Round)
    (hrun : c.AssignAdvancedRoundCompetitors S resultMap = Except.ok c')
    (hr : c.Rounds[i]? = some r) (h2 : 2 ≤ r.RoundNumber)
    (hres : resultMap r.ActivityCode ≠ []) :
    ∃ (k : Nat) (prev : Round) (results : List Result) (r' : Round),
      c.prevRound r = some k ∧ c.Rounds[k]? = some prev ∧ r.GroupCount ≠ 0 ∧
      r.GroupCount.toNat ≤ r.Groups.length ∧
      results.Perm (resultMap prev.ActivityCode) ∧ c'.Rounds[i]? = some r' ∧
      r'.Groups.map Group.Competitors =
        (assignedGroups S (advancing S c.Persons results)
          ((advancing S c.Persons results).length / r.GroupCount.toNat)
          ((advancing S c.Persons results).length % r.GroupCount.toNat)
          r.Groups r.GroupCount.toNat).map Group.Competitors := by
  obtain ⟨cb, ca, rb, ra, r', hSb, hLb, hrb, hskel, hgroups, hstep, hra, hr', hcomp⟩ :=
    AssignAdvanced_at S resultMap c c' i r hrun hr
  obtain ⟨f1, _, f3, f4, _⟩ := skeleton_fields hskel
  have hperm := hLb.results hrb
  rw [f3] at hperm
  have hne : ¬ rb.Results.length = 0 := by
    intro h0
    have h1 : rb.Results = [] := List.length_eq_zero.mp h0
    rw [h1] at hperm
    exact hres (List.Perm.nil_eq hperm).symm
  have hn2 : ¬ rb.RoundNumber < 2 := by
    rw [f1]
    omega
  have hprevEq : cb.prevRound rb = c.prevRound r := prevRound_skeleton hSb hskel
  cases hkb : cb.prevRound rb with
  | none =>
    unfold Competition.advanceRound at hstep
    simp only [hrb, hn2, hne, hkb, if_false] at hstep
    cases hstep
  | some k =>
    cases hpb : cb.Rounds[k]? with
    | none =>
      unfold Competition.advanceRound at hstep
      simp only [hrb, hn2, hne, hkb, hpb, if_false] at hstep
      cases hstep
    | some pb =>
      by_cases hg : rb.GroupCount = 0
      · unfold Competition.advanceRound at hstep
        simp only [hrb, hn2, hne, hkb, hpb, hg, advancingCompetitors_ok, if_true,
          if_false] at hstep
        cases hstep
      · rw [advanceRound_eq S cb i rb k pb hrb hn2 hne hkb hpb hg, hSb.2.2.1, hgroups,
          f4] at hstep
        cases hst : assignGroups S (advancing S c.Persons pb.Results) r.GroupCount.toNat
            r.Groups with
        | error e =>
          rw [hst] at hstep
          cases hstep
        | ok st =>
          rw [hst] at hstep
          simp only [Except.ok.injEq] at hstep
          subst hstep
          obtain ⟨hlen, hst2⟩ := assignGroups_inv S _ _ _ st hst
          obtain ⟨prev, hprev, hpskel⟩ := hSb.symm.round k pb hpb
          obtain ⟨_, _, p3, _⟩ := skeleton_fields hpskel
          have hpperm := hLb.results hpb
          rw [← p3] at hpperm
          have hself := updatedRounds_groups_self cb.Rounds pb.ActivityCode
            (S.sortSlice (fun a b => decide (a.Ranking < b.Ranking)) pb.Results) i st.2 rb hrb
          simp only [] at hra
          rw [hra] at hself
          simp only [Option.map_some', Option.some.injEq] at hself
          refine ⟨k, prev, pb.Results, r', by rw [← hprevEq, hkb], hprev, ?_, hlen, hpperm,
            hr', ?_⟩
          · rw [← f4]
            exact hg
          · rw [hcomp, hself, hst2]

/-- The Round `i` of a run that returns, Group by Group, when the Round passes the guards:
each Group with index below `GroupCount` holds its slice of the advancing competitors, sorted
by name, and each Group from index `GroupCount` on holds what it held before the call. -/
theorem AssignAdvanced_filled (S : SliceSorter) (resultMap : String → List Result)
    (c c' : Competition) (i : Nat) (r : Round)
    (hrun : c.AssignAdvancedRoundCompetitors S resultMap = Except.ok c')
    (hr : c.Rounds[i]? = some r) (h2 : 2 ≤ r.RoundNumber)
    (hres : resultMap r.ActivityCode ≠ []) :
    ∃ (k : Nat) (prev : Round) (results : List Result) (r' : Round),
      c.prevRound r = some k ∧ c.Rounds[k]? = some prev ∧ r.GroupCount ≠ 0 ∧
      r.GroupCount.toNat ≤ r.Groups.length ∧
      results.Perm (resultMap prev.ActivityCode) ∧ c'.Rounds[i]? = some r' ∧
      r'.Groups.length = r.Groups.length ∧
      (∀ j, j < r.GroupCount.toNat → ∃ g' : Group, r'.Groups[j]? = some g' ∧
        g'.Competitors = groupCompetitors S (advancing S c.Persons results)
          ((advancing S c.Persons results).length / r.GroupCount.toNat)
          ((advancing S c.Persons results).length % r.GroupCount.toNat) j) ∧
      (∀ (j : Nat) (g : Group), r.GroupCount.toNat ≤ j → r.Groups[j]? = some g →
        ∃ g' : Group, r'.Groups[j]? = some g' ∧ g'.Competitors = g.Competitors) := by
  obtain ⟨k, prev, results, r', hk, hprev, hg0, hlen, hperm, hr', hcomp⟩ :=
    AssignAdvanced_processed S resultMap c c' i r hrun hr h2 hres
  have hl : r'.Groups.length = r.Groups.length := by
    have := congrArg List.length hcomp
    simpa [assignedGroups_length] using this
  refine ⟨k, prev, results, r', hk, hprev, hg0, hlen, hperm, hr', hl, ?_, ?_⟩
  · intro j hj
    have hj' : j < r'.Groups.length := by omega
    have hjr : j < r.Groups.length := by omega
    refine ⟨r'.Groups[j], List.getElem?_eq_getElem hj', ?_⟩
    have h1 := congrArg (fun l : List (List Person) => l[j]?) hcomp
    simp only [List.getElem?_map, List.getElem?_eq_getElem hj', Option.map_some',
      assignedGroups_getElem?, List.getElem?_eq_getElem hjr, hj, if_true,
      Option.some.injEq] at h1
    exact h1
  · intro j g hj hg
    have hjr : j < r.Groups.length := by
      by_contra hcon
      rw [List.getElem?_eq_none (by omega)] at hg
      cases hg
    have hj' : j < r'.Groups.length := by omega
    refine ⟨r'.Groups[j], List.getElem?_eq_getElem hj', ?_⟩
    have h1 := congrArg (fun l : List (List Person) => l[j]?) hcomp
    have hnj : ¬ j < r.GroupCount.toNat := by omega
    simp only [List.getElem?_map, List.getElem?_eq_getElem hj', Option.map_some',
      assignedGroups_getElem?, hg, hnj, if_false, Option.some.injEq] at h1
    exact h1

/-! ## The best-ranked results -/

/-- C2, as stated, fails in two ways. In `staleDemo` the second round declares one Group and
has two: the call fills the first Group with the six persons ranked 1 to 6 and leaves in the
second Group the persons 7 and 8, who are ranked 7 and 8 and were not selected, so eight
competitors are stored across the Groups. In `bestDemo` with `firstResults` the second round
has a preceding Round of eight results, all of registered persons, and no Results of its own:
the Round is skipped and nobody is stored. -/
theorem AssignAdvanced_stale_or_skipped :
    (staleRound2.RoundNumber = 2 ∧ staleDemo.prevRound staleRound2 = some 0 ∧
      (bestResults bestRound1.ActivityCode).length = 8 ∧
      (∀ res, res ∈ bestResults bestRound1.ActivityCode →
        res.Ranking = res.PersonId ∧ ∃ p, p ∈ staleDemo.Persons ∧ p.ID = res.PersonId) ∧
      staleRound2.GroupCount = 1 ∧ staleRound2.Groups.length = 2 ∧
      (competitorLists
        (staleDemo.AssignAdvancedRoundCompetitors insertionSorter bestResults)).map
        (fun rounds => rounds.map (fun groups => groups.map (fun g => g.map Person.ID))) =
        some [[[1, 2, 3, 4, 5, 6, 7, 8]], [[6, 5, 4, 3, 2, 1], [7, 8]]]) ∧
    (bestRound2.RoundNumber = 2 ∧ bestDemo.prevRound bestRound2 = some 0 ∧
      (firstResults bestRound1.ActivityCode).length = 8 ∧
      (∀ res, res ∈ firstResults bestRound1.ActivityCode →
        ∃ p, p ∈ bestDemo.Persons ∧ p.ID = res.PersonId) ∧
      bestRound2.GroupCount = 2 ∧ bestRound2.Groups.length = 2 ∧
      firstResults bestRound2.ActivityCode = [] ∧
      (competitorLists
        (bestDemo.AssignAdvancedRoundCompetitors insertionSorter firstResults)).map
        (fun rounds => rounds.map (fun groups => groups.map (fun g => g.map Person.ID))) =
        some [[[1, 2, 3, 4, 5, 6, 7, 8]], [[], []]]) := by
  decide

/-- C2, amended. A Round past the first that has Results of its own after the refresh, a
preceding Round of `n` results whose person ids are all in the registry, and a `GroupCount`
equal to its number of Groups: when the call returns, the competitors stored across the
Groups are the registered persons of the `floor(3n/4)` best-ranked results. The results split
into the selected ones and the rest, no selected result is ranked behind one of the rest, and
the stored competitors are, one for one, the registered persons of the selected results. -/
theorem AssignAdvanced_best_ranked (S : SliceSorter) (resultMap : String → List Result)
    (c c' : Competition) (i : Nat) (r : Round) (k : Nat) (prev : Round)
    (hrun : c.AssignAdvancedRoundCompetitors S resultMap = Except.ok c')
    (hr : c.Rounds[i]? = some r) (h2 : 2 ≤ r.RoundNumber)
    (hres : resultMap r.ActivityCode ≠ []) (hk : c.prevRound r = some k)
    (hprev : c.Rounds[k]? = some prev) (hgc : r.GroupCount = r.Groups.length)
    (hreg : ∀ res, res ∈ resultMap prev.ActivityCode →
      ∃ p, p ∈ c.Persons ∧ p.ID = res.PersonId) :
    ∃ (r' : Round) (selected rest : List Result), c'.Rounds[i]? = some r' ∧
      (selected ++ rest).Perm (resultMap prev.ActivityCode) ∧
      selected.length = 3 * (resultMap prev.ActivityCode).length / 4 ∧
      (∀ s t, s ∈ selected → t ∈ rest → s.Ranking ≤ t.Ranking) ∧
      r'.Competitors.Perm (selected.map (fun res => competitorMap c.Persons res.PersonId)) ∧
      (∀ res, res ∈ selected → competitorMap c.Persons res.PersonId ∈ c.Persons ∧
        (competitorMap c.Persons res.PersonId).ID = res.PersonId) := by
  obtain ⟨_, _, _, _, _, _, hg0, _⟩ :=
    AssignAdvanced_processed S resultMap c c' i r hrun hr h2 hres
  have hg1 : 1 ≤ r.GroupCount := by omega
  obtain ⟨r', selected, rest, h1, h3, h4, h5, h6⟩ := AssignAdvanced_selected S resultMap c c'
    i r k prev hrun hr h2 hres hk hprev hg1 hgc
  refine ⟨r', selected, rest, h1, h3, h4, h5, h6, ?_⟩
  intro res hmem
  have hin : res ∈ resultMap prev.ActivityCode :=
    h3.mem_iff.mp (List.mem_append_left _ hmem)
  obtain ⟨p, hp, hid⟩ := hreg res hin
  rcases competitorMap_spec c.Persons res.PersonId with h | h
  · exact h
  · exact absurd hid (h.1 p hp)

/-- C2, amended, on `bestDemo`, rankings 1 to 8 and two Groups: the run completes and the six
persons ranked 1 to 6 are stored, three in each Group. -/
theorem AssignAdvanced_best_ranked_witness :
    (∃ (c' : Competition) (r' : Round) (selected rest : List Result),
      bestDemo.AssignAdvancedRoundCompetitors insertionSorter bestResults = Except.ok c' ∧
      c'.Rounds[1]? = some r' ∧
      (selected ++ rest).Perm (bestResults "333-r1") ∧ selected.length = 6 ∧
      (∀ s t, s ∈ selected → t ∈ rest → s.Ranking ≤ t.Ranking) ∧
      r'.Competitors.Perm
        (selected.map (fun res => competitorMap persons8 res.PersonId))) ∧
    (competitorLists (bestDemo.AssignAdvancedRoundCompetitors insertionSorter bestResults)).map
      (fun rounds => rounds.map (fun groups => groups.map (fun g => g.map Person.ID))) =
      some [[[1, 2, 3, 4, 5, 6, 7, 8]], [[6, 5, 4], [3, 2, 1]]] := by
  refine ⟨?_, by decide⟩
  have hok : (bestDemo.AssignAdvancedRoundCompetitors insertionSorter bestResults).isOk =
      true := by decide
  cases hrun : bestDemo.AssignAdvancedRoundCompetitors insertionSorter bestResults with
  | error e =>
    rw [hrun] at hok
    cases hok
  | ok c' =>
    obtain ⟨r', selected, rest, h1, h3, h4, h5, h6, _⟩ := AssignAdvanced_best_ranked
      insertionSorter bestResults bestDemo c' 1 bestRound2 0 bestRound1 hrun rfl (by decide)
      (by decide) (by decide) rfl (by decide) (by decide)
    exact ⟨c', r', selected, rest, rfl, h1, h3, h4, h5, h6⟩

/-! ## Unregistered ids, Group by Group -/

/-- C4, amended. An advancing result whose person id is not in the registry does not make
the call fail: the map lookup yields the zero Person, which is stored in the competitor's
place. In a Round past the first that has Results of its own after the refresh, when the call
returns: the Round has a preceding Round, of `n` results; the call writes the competitor
lists of the Groups with index below `GroupCount` and of no other Group; every entry of such
a list is the map lookup of one of the `floor(3n/4)` selected results, that is the registered
Person with the result's id, or the zero Person when no registered Person has that id; with
`GroupCount` at least 1 these lists together hold one entry for each selected result; a Group
with index `GroupCount` or more holds what it held before the call. -/
theorem AssignAdvanced_unresolved_zero (S : SliceSorter) (resultMap : String → List Result)
    (c c' : Competition) (i : Nat) (r : Round)
    (hrun : c.AssignAdvancedRoundCompetitors S resultMap = Except.ok c')
    (hr : c.Rounds[i]? = some r) (h2 : 2 ≤ r.RoundNumber)
    (hres : resultMap r.ActivityCode ≠ []) :
    ∃ (k : Nat) (prev r' : Round) (selected : List Result),
      c.prevRound r = some k ∧ c.Rounds[k]? = some prev ∧ c'.Rounds[i]? = some r' ∧
      r'.Groups.length = r.Groups.length ∧
      selected.length = 3 * (resultMap prev.ActivityCode).length / 4 ∧
      (∀ res, res ∈ selected → res ∈ resultMap prev.ActivityCode) ∧
      (1 ≤ r.GroupCount →
        ((r'.Groups.take r.GroupCount.toNat).map Group.Competitors).flatten.Perm
          (selected.map (fun res => competitorMap c.Persons res.PersonId))) ∧
      (∀ (j : Nat) (g' : Group) (p : Person), j < r.GroupCount.toNat →
        r'.Groups[j]? = some g' → p ∈ g'.Competitors →
        ∃ res, res ∈ selected ∧ p = competitorMap c.Persons res.PersonId ∧
          ((p ∈ c.Persons ∧ p.ID = res.PersonId) ∨
            ((∀ q, q ∈ c.Persons → q.ID ≠ res.PersonId) ∧ p = Person.zero))) ∧
      (∀ (j : Nat) (g : Group), r.GroupCount.toNat ≤ j → r.Groups[j]? = some g →
        ∃ g' : Group, r'.Groups[j]? = some g' ∧ g'.Competitors = g.Competitors) := by
  obtain ⟨k, prev, results, r', hk, hprev, hg0, hlen, hperm, hr', hl, hfill, hkeep⟩ :=
    AssignAdvanced_filled S resultMap c c' i r hrun hr h2 hres
  obtain ⟨selected, hsel⟩ : ∃ x, x =
      (S.sortSlice (fun a b : Result => decide (a.Ranking < b.Ranking)) results).take
        (roundCompetitorCount results.length) := ⟨_, rfl⟩
  have hadv : advancing S c.Persons results =
      (S.sortSlice (fun a b : Result => decide (a.Ranking > b.Ranking)) selected).map
        (fun res => competitorMap c.Persons res.PersonId) := by
    rw [hsel]
    rfl
  have hadvperm : (advancing S c.Persons results).Perm
      (selected.map (fun res => competitorMap c.Persons res.PersonId)) := by
    rw [hadv]
    exact (S.perm _ _).map _
  obtain ⟨comps, hcomps⟩ : ∃ x, x = advancing S c.Persons results := ⟨_, rfl⟩
  rw [← hcomps] at hfill hadvperm
  refine ⟨k, prev, r', selected, hk, hprev, hr', hl, ?_, ?_, ?_, ?_, hkeep⟩
  · rw [hsel, List.length_take, sortSlice_length, hperm.length_eq]
    exact Nat.min_eq_left (roundCompetitorCount_le _)
  · intro res hmem
    rw [hsel] at hmem
    have h1 := List.mem_of_mem_take hmem
    rw [(S.perm _ _).mem_iff] at h1
    exact hperm.mem_iff.mp h1
  · intro hg1
    have hpos : 0 < r.GroupCount.toNat := by omega
    have htake : (r'.Groups.take r.GroupCount.toNat).map Group.Competitors =
        (List.range r.GroupCount.toNat).map (groupCompetitors S comps
          (comps.length / r.GroupCount.toNat) (comps.length % r.GroupCount.toNat)) := by
      apply List.ext_getElem?
      intro m
      by_cases hm : m < r.GroupCount.toNat
      · obtain ⟨g', hg', hc⟩ := hfill m hm
        rw [List.getElem?_map, List.getElem?_take, if_pos hm, hg', List.getElem?_map,
          List.getElem?_range hm]
        simp only [Option.map_some', hc]
      · rw [List.getElem?_eq_none (by simp; omega), List.getElem?_eq_none (by simp; omega)]
    rw [htake]
    have h := flatten_groupCompetitors S comps (comps.length / r.GroupCount.toNat)
      (comps.length % r.GroupCount.toNat) r.GroupCount.toNat
    rw [groupStart_total _ _ hpos, List.take_length] at h
    exact h.trans hadvperm
  · intro j g' p hj hg' hp
    obtain ⟨g'', hg'', hc⟩ := hfill j hj
    rw [hg'] at hg''
    cases hg''
    rw [hc, (groupCompetitors_perm S _ _ _ j).mem_iff] at hp
    have hp1 := List.mem_of_mem_drop (List.mem_of_mem_take hp)
    rw [hadvperm.mem_iff, List.mem_map] at hp1
    obtain ⟨res, hres1, hres2⟩ := hp1
    refine ⟨res, hres1, hres2.symm, ?_⟩
    rw [← hres2]
    exact competitorMap_spec c.Persons res.PersonId

/-- C4, amended, on `zeroDemo`: the run completes, and every competitor in the Group of the
second round is registered or is the zero Person. -/
theorem AssignAdvanced_unresolved_zero_witness :
    ∃ c' r' g',
      zeroDemo.AssignAdvancedRoundCompetitors insertionSorter zeroResults = Except.ok c' ∧
      c'.Rounds[1]? = some r' ∧ r'.Groups[0]? = some g' ∧
      (∀ p, p ∈ g'.Competitors → p ∈ zeroDemo.Persons ∨ p = Person.zero) := by
  have hok : (zeroDemo.AssignAdvancedRoundCompetitors insertionSorter zeroResults).isOk =
      true := by decide
  cases hrun : zeroDemo.AssignAdvancedRoundCompetitors insertionSorter zeroResults with
  | error e =>
    rw [hrun] at hok
    cases hok
  | ok c' =>
    obtain ⟨_, _, r', _, _, _, h1, hl, _, _, _, h7, _⟩ := AssignAdvanced_unresolved_zero
      insertionSorter zeroResults zeroDemo c' 1 zeroRound2 hrun rfl (by decide) (by decide)
    have h0 : 0 < r'.Groups.length := by
      rw [hl]
      decide
    refine ⟨c', r', r'.Groups[0], rfl, h1, List.getElem?_eq_getElem h0, ?_⟩
    intro p hp
    obtain ⟨res, _, _, h | h⟩ := h7 0 r'.Groups[0] p (by decide)
      (List.getElem?_eq_getElem h0) hp
    · exact Or.inl h.1
    · exact Or.inr h.2

/-! ## Name order and ranking blocks of the Groups the loop fills -/

/-- C16, as stated, fails for a Group the loop does not fill. In `staleDemo` the second round
declares one Group and has two; it is processed, the first Group gets the six advancing
persons in name order, and the second Group keeps Bea before Abe: its list is not in
ascending name order, and neither of the two is in the advancing sequence. -/
theorem AssignAdvanced_stale_names :
    (staleRound2.RoundNumber = 2 ∧ bestResults staleRound2.ActivityCode ≠ [] ∧
      staleDemo.prevRound staleRound2 = some 0 ∧
      staleRound2.GroupCount = 1 ∧ staleRound2.Groups.length = 2 ∧
      (advancing insertionSorter staleDemo.Persons
        (bestResults bestRound1.ActivityCode)).map Person.Name =
        ["Cal", "Dee", "Eli", "Fay", "Gus", "Hal"] ∧
      competitorLists
        (staleDemo.AssignAdvancedRoundCompetitors insertionSorter bestResults) =
        some [[persons8],
          [[mkPerson 6 "Cal", mkPerson 5 "Dee", mkPerson 4 "Eli", mkPerson 3 "Fay",
            mkPerson 2 "Gus", mkPerson 1 "Hal"],
           [mkPerson 7 "Bea", mkPerson 8 "Abe"]]]) ∧
    "Abe" < "Bea" ∧
    ¬ List.Pairwise (fun a b : Person => a.Name ≤ b.Name)
      [mkPerson 7 "Bea", mkPerson 8 "Abe"] := by
  have hlt : "Abe" < "Bea" := (strLess_iff_lt "Abe" "Bea").mp (by decide)
  refine ⟨by decide, hlt, ?_⟩
  intro h
  have hle : (mkPerson 7 "Bea").Name ≤ (mkPerson 8 "Abe").Name :=
    List.rel_of_pairwise_cons h (List.mem_singleton.mpr rfl)
  exact absurd hlt (not_lt.mpr hle)

/-- C16, amended. In a Round past the first that has Results of its own after the refresh,
when the call returns: the Round has a preceding Round and declares no more Groups than it
has; the competitor list of each Group with index below `GroupCount` is in ascending order of
`Person.Name` and is a rearrangement of that Group's slice of the advancing sequence; with
`GroupCount` at least 1 the slices, taken in Group order, make up the advancing sequence, so
the name sort moves nobody to another Group; a Group with index `GroupCount` or more holds
what it held before the call. -/
theorem AssignAdvanced_name_sorted (S : SliceSorter) (resultMap : String → List Result)
    (c c' : Competition) (i : Nat) (r : Round)
    (hrun : c.AssignAdvancedRoundCompetitors S resultMap = Except.ok c')
    (hr : c.Rounds[i]? = some r) (h2 : 2 ≤ r.RoundNumber)
    (hres : resultMap r.ActivityCode ≠ []) :
    ∃ (k : Nat) (prev r' : Round) (results : List Result) (slices : List (List Person)),
      c.prevRound r = some k ∧ c.Rounds[k]? = some prev ∧ c'.Rounds[i]? = some r' ∧
      results.Perm (resultMap prev.ActivityCode) ∧
      r.GroupCount.toNat ≤ r.Groups.length ∧ r'.Groups.length = r.Groups.length ∧
      slices.length = r.GroupCount.toNat ∧
      (1 ≤ r.GroupCount → slices.flatten = advancing S c.Persons results) ∧
      (∀ j, j < r.GroupCount.toNat → ∃ (g' : Group) (slice : List Person),
        r'.Groups[j]? = some g' ∧ slices[j]? = some slice ∧ g'.Competitors.Perm slice ∧
        g'.Competitors.Pairwise (fun a b => a.Name ≤ b.Name)) ∧
      (∀ (j : Nat) (g : Group), r.GroupCount.toNat ≤ j → r.Groups[j]? = some g →
        ∃ g' : Group, r'.Groups[j]? = some g' ∧ g'.Competitors = g.Competitors) := by
  obtain ⟨k, prev, results, r', hk, hprev, hg0, hlen, hperm, hr', hl, hfill, hkeep⟩ :=
    AssignAdvanced_filled S resultMap c c' i r hrun hr h2 hres
  have hpos : 1 ≤ r.GroupCount → 0 < r.GroupCount.toNat := by
    intro h
    omega
  obtain ⟨comps, hcomps⟩ : ∃ x, x = advancing S c.Persons results := ⟨_, rfl⟩
  rw [← hcomps] at hfill
  generalize r.GroupCount.toNat = g at hfill hpos hlen hkeep ⊢
  refine ⟨k, prev, r', results, (List.range g).map (fun j =>
    (comps.drop (groupStart (comps.length / g) (comps.length % g) j)).take
      (groupSize (comps.length / g) (comps.length % g) j)),
    hk, hprev, hr', hperm, hlen, hl, by simp, ?_, ?_, hkeep⟩
  · intro hg1
    rw [flatten_slices, groupStart_total _ _ (hpos hg1), List.take_length, hcomps]
  · intro j hj
    obtain ⟨g', hg', hcomp⟩ := hfill j hj
    refine ⟨g', (comps.drop (groupStart (comps.length / g) (comps.length % g) j)).take
      (groupSize (comps.length / g) (comps.length % g) j), hg', ?_, ?_, ?_⟩
    · rw [List.getElem?_map, List.getElem?_range hj]
      rfl
    · rw [hcomp]
      exact groupCompetitors_perm S _ _ _ j
    · rw [hcomp]
      have hs := S.sorted (fun a b : Person => strLess a.Name b.Name)
        ((comps.drop (groupStart (comps.length / g) (comps.length % g) j)).take
          (groupSize (comps.length / g) (comps.length % g) j))
        (fun a b => strLess_total a.Name b.Name)
        (fun a b c0 => strLess_trans a.Name b.Name c0.Name)
      refine List.Pairwise.imp ?_ hs
      intro a b hab
      have hab' : strLess b.Name a.Name = false := hab
      have h1 : ¬ b.Name < a.Name := by
        rw [← strLess_iff_lt, hab']
        exact Bool.false_ne_true
      exact not_lt.mp h1

/-- C16, amended, on `nameDemo`, where the advancing sequence is Eli, Dee, Cal, Bea, Abe and
no slice of two is in name order: the run completes, the first Group of the second round is
in name order, and the three Groups hold Dee and Eli, Bea and Cal, and Abe. -/
theorem AssignAdvanced_name_sorted_witness :
    (∃ (c' : Competition) (r' : Round) (g' : Group) (slices : List (List Person))
        (slice : List Person),
      nameDemo.AssignAdvancedRoundCompetitors insertionSorter advResults = Except.ok c' ∧
      c'.Rounds[1]? = some r' ∧ r'.Groups.length = 3 ∧ slices.length = 3 ∧
      r'.Groups[0]? = some g' ∧ slices[0]? = some slice ∧ g'.Competitors.Perm slice ∧
      g'.Competitors.Pairwise (fun a b => a.Name ≤ b.Name)) ∧
    (advancing insertionSorter nameDemo.Persons (advResults nameRound1.ActivityCode)).map
      Person.Name = ["Eli", "Dee", "Cal", "Bea", "Abe"] ∧
    (competitorLists (nameDemo.AssignAdvancedRoundCompetitors insertionSorter advResults)).map
      (fun rounds => rounds.map (fun groups => groups.map (fun g => g.map Person.Name))) =
      some [[["Abe", "Bea", "Cal", "Dee", "Eli", "Fay", "Gus"]],
        [["Dee", "Eli"], ["Bea", "Cal"], ["Abe"]]] := by
  refine ⟨?_, by decide, by decide⟩
  have hok : (nameDemo.AssignAdvancedRoundCompetitors insertionSorter advResults).isOk =
      true := by decide
  cases hrun : nameDemo.AssignAdvancedRoundCompetitors insertionSorter advResults with
  | error e =>
    rw [hrun] at hok
    cases hok
  | ok c' =>
    obtain ⟨_, _, r', _, slices, _, _, hr', _, _, hl, hs, _, hgroups, _⟩ :=
      AssignAdvanced_name_sorted insertionSorter advResults nameDemo c' 1 advRound2 hrun rfl
        (by decide) (by decide)
    obtain ⟨g', slice, hg', hslice, hperm, hsorted⟩ := hgroups 0 (by decide)
    exact ⟨c', r', g', slices, slice, rfl, hr', hl, hs, hg', hslice, hperm, hsorted⟩

/-- C15, as stated, fails for a Group the loop does not fill. In `staleDemo` person `n` is
ranked `n` in the first round; the second round declares one Group and has two; it is
processed, the first Group gets the persons ranked 1 to 6 and the second, last Group keeps
the persons ranked 7 and 8: person 1 in the first Group is ranked better than person 8 in the
second, and the last Group holds the two worst-ranked persons, who did not advance. -/
theorem AssignAdvanced_stale_ranking :
    staleRound2.RoundNumber = 2 ∧ bestResults staleRound2.ActivityCode ≠ [] ∧
    staleDemo.prevRound staleRound2 = some 0 ∧
    staleRound2.GroupCount = 1 ∧ staleRound2.Groups.length = 2 ∧
    (∀ res, res ∈ bestResults bestRound1.ActivityCode → res.Ranking = res.PersonId) ∧
    (competitorLists
      (staleDemo.AssignAdvancedRoundCompetitors insertionSorter bestResults)).map
      (fun rounds => rounds.map (fun groups => groups.map (fun g => g.map Person.ID))) =
      some [[[1, 2, 3, 4, 5, 6, 7, 8]], [[6, 5, 4, 3, 2, 1], [7, 8]]] := by
  decide

/-- C15, amended. In a Round past the first that has Results of its own after the refresh,
when the call returns: the Round has a preceding Round, of `n` results, and declares no more
Groups than it has; the `floor(3n/4)` advancing results in descending order of ranking are
cut into contiguous blocks, one for each Group with index below `GroupCount`, in Group order
(all of them when `GroupCount` is at least 1); such a Group `j` holds the map lookups of
block `j`, and for `j < k` no result of block `j` is ranked better than a result of block
`k`: the first Group gets the worst-ranked advancing competitors, the last Group below
`GroupCount` the best-ranked. A Group with index `GroupCount` or more holds what it held
before the call. -/
theorem AssignAdvanced_ranking_blocks (S : SliceSorter) (resultMap : String → List Result)
    (c c' : Competition) (i : Nat) (r : Round)
    (hrun : c.AssignAdvancedRoundCompetitors S resultMap = Except.ok c')
    (hr : c.Rounds[i]? = some r) (h2 : 2 ≤ r.RoundNumber)
    (hres : resultMap r.ActivityCode ≠ []) :
    ∃ (k : Nat) (prev r' : Round) (descending : List Result) (blocks : List (List Result)),
      c.prevRound r = some k ∧ c.Rounds[k]? = some prev ∧ c'.Rounds[i]? = some r' ∧
      r.GroupCount.toNat ≤ r.Groups.length ∧ r'.Groups.length = r.Groups.length ∧
      descending.Pairwise (fun a b => b.Ranking ≤ a.Ranking) ∧
      (∀ res, res ∈ descending → res ∈ resultMap prev.ActivityCode) ∧
      descending.length = 3 * (resultMap prev.ActivityCode).length / 4 ∧
      blocks.length = r.GroupCount.toNat ∧
      (1 ≤ r.GroupCount → blocks.flatten = descending) ∧
      (∀ j, j < r.GroupCount.toNat → ∃ (g' : Group) (block : List Result),
        r'.Groups[j]? = some g' ∧ blocks[j]? = some block ∧
        g'.Competitors.Perm (block.map (fun res => competitorMap c.Persons res.PersonId))) ∧
      (∀ (j1 j2 : Nat) (b1 b2 : List Result), j1 < j2 → blocks[j1]? = some b1 →
        blocks[j2]? = some b2 → ∀ s t, s ∈ b1 → t ∈ b2 → t.Ranking ≤ s.Ranking) ∧
      (∀ (j : Nat) (g : Group), r.GroupCount.toNat ≤ j → r.Groups[j]? = some g →
        ∃ g' : Group, r'.Groups[j]? = some g' ∧ g'.Competitors = g.Competitors) := by
  obtain ⟨k, prev, results, r', hk, hprev, hg0, hlen, hperm, hr', hl, hfill, hkeep⟩ :=
    AssignAdvanced_filled S resultMap c c' i r hrun hr h2 hres
  have hpos : 1 ≤ r.GroupCount → 0 < r.GroupCount.toNat := by
    intro h
    omega
  obtain ⟨desc, hdesc⟩ : ∃ x, x = S.sortSlice (fun a b : Result => decide (a.Ranking > b.Ranking))
      ((S.sortSlice (fun a b => decide (a.Ranking < b.Ranking)) results).take
        (roundCompetitorCount results.length)) := ⟨_, rfl⟩
  have hadv : advancing S c.Persons results =
      desc.map (fun res => competitorMap c.Persons res.PersonId) := by
    rw [hdesc]
    rfl
  rw [hadv, List.length_map] at hfill
  have hsorted : desc.Pairwise (fun a b => b.Ranking ≤ a.Ranking) := by
    rw [hdesc]
    exact sortSlice_ranking_descending S _
  generalize r.GroupCount.toNat = g at hfill hpos hlen hkeep ⊢
  have hflat : ((List.range g).map (fun j =>
      (desc.drop (groupStart (desc.length / g) (desc.length % g) j)).take
        (groupSize (desc.length / g) (desc.length % g) j))).flatten =
      desc.take (groupStart (desc.length / g) (desc.length % g) g) := flatten_slices _ _ _ _
  refine ⟨k, prev, r', desc, (List.range g).map (fun j =>
    (desc.drop (groupStart (desc.length / g) (desc.length % g) j)).take
      (groupSize (desc.length / g) (desc.length % g) j)),
    hk, hprev, hr', hlen, hl, hsorted, ?_, ?_, by simp, ?_, ?_, ?_, hkeep⟩
  · intro res hmem
    rw [hdesc, (S.perm _ _).mem_iff] at hmem
    have h1 := List.mem_of_mem_take hmem
    rw [(S.perm _ _).mem_iff] at h1
    exact hperm.mem_iff.mp h1
  · rw [hdesc, sortSlice_length, List.length_take, sortSlice_length, hperm.length_eq]
    exact Nat.min_eq_left (roundCompetitorCount_le _)
  · intro hg1
    rw [hflat, groupStart_total _ _ (hpos hg1), List.take_length]
  · intro j hj
    obtain ⟨g', hg', hcomp⟩ := hfill j hj
    refine ⟨g', (desc.drop (groupStart (desc.length / g) (desc.length % g) j)).take
      (groupSize (desc.length / g) (desc.length % g) j), hg', ?_, ?_⟩
    · rw [List.getElem?_map, List.getElem?_range hj]
      rfl
    · rw [hcomp, List.map_take, List.map_drop]
      exact groupCompetitors_perm S _ _ _ j
  · intro j1 j2 b1 b2 hlt hb1 hb2 s t hs ht
    have hpw : (desc.take (groupStart (desc.length / g) (desc.length % g) g)).Pairwise
        (fun a b => b.Ranking ≤ a.Ranking) := hsorted.sublist (List.take_sublist _ _)
    rw [← hflat, List.pairwise_flatten] at hpw
    have hcross := List.pairwise_iff_getElem.mp hpw.2
    have hj1 : j1 < ((List.range g).map (fun j =>
        (desc.drop (groupStart (desc.length / g) (desc.length % g) j)).take
          (groupSize (desc.length / g) (desc.length % g) j))).length := by
      by_contra hcon
      rw [List.getElem?_eq_none (by omega)] at hb1
      cases hb1
    have hj2 : j2 < ((List.range g).map (fun j =>
        (desc.drop (groupStart (desc.length / g) (desc.length % g) j)).take
          (groupSize (desc.length / g) (desc.length % g) j))).length := by
      by_contra hcon
      rw [List.getElem?_eq_none (by omega)] at hb2
      cases hb2
    have h := hcross j1 j2 hj1 hj2 hlt
    rw [List.getElem?_eq_getElem hj1] at hb1
    rw [List.getElem?_eq_getElem hj2] at hb2
    cases hb1
    cases hb2
    exact h s hs t ht

/-- C15, amended, on `advDemo`: the run completes; the blocks are the results ranked 5 and 4,
3 and 2, and 1, and whoever is in the first Group's block is ranked no better than whoever is
in the last Group's block. -/
theorem AssignAdvanced_ranking_blocks_witness :
    (∃ (c' : Competition) (r' : Round) (blocks : List (List Result)),
      advDemo.AssignAdvancedRoundCompetitors insertionSorter advResults = Except.ok c' ∧
      c'.Rounds[1]? = some r' ∧ r'.Groups.length = 3 ∧ blocks.length = 3 ∧
      (∀ (j1 j2 : Nat) (b1 b2 : List Result), j1 < j2 → blocks[j1]? = some b1 →
        blocks[j2]? = some b2 → ∀ s t, s ∈ b1 → t ∈ b2 → t.Ranking ≤ s.Ranking) ∧
      (∀ j, j < 3 → ∃ (g' : Group) (block : List Result),
        r'.Groups[j]? = some g' ∧ blocks[j]? = some block ∧
        g'.Competitors.Perm (block.map (fun res => competitorMap persons7 res.PersonId)))) ∧
    (competitorLists (advDemo.AssignAdvancedRoundCompetitors insertionSorter advResults)).map
      (fun rounds => rounds.map (fun groups => groups.map (fun g => g.map Person.ID))) =
      some [[[1, 2, 3, 4, 5, 6, 7]], [[5, 4], [3, 2], [1]]] := by
  refine ⟨?_, by decide⟩
  have hok : (advDemo.AssignAdvancedRoundCompetitors insertionSorter advResults).isOk =
      true := by decide
  cases hrun : advDemo.AssignAdvancedRoundCompetitors insertionSorter advResults with
  | error e =>
    rw [hrun] at hok
    cases hok
  | ok c' =>
    obtain ⟨_, _, r', _, blocks, _, _, hr', _, hl, _, _, _, hlen, _, hgroups, hcross, _⟩ :=
      AssignAdvanced_ranking_blocks insertionSorter advResults advDemo c' 1 advRound2 hrun
        rfl (by decide) (by decide)
    exact ⟨c', r', blocks, rfl, hr', hl, hlen, hcross, hgroups⟩

end Models
